import Mathlib

/-! The atmospheric-neutrino flux driver `GBartolAtmoFlux`.

A shallow embedding of `src/FluxDrivers/GBartolAtmoFlux.cxx`.

* The functions are written over a type `α` that stands for `double`, with the
  operations they use (`0`, `+`, `*`, `<` and so on) as type classes, so that
  one definition serves every arithmetic. `cxx.Double` is the arithmetic of the
  code: IEEE 754 binary64 with rounding to nearest, infinities and NaN. A
  linearly ordered field is exact arithmetic (the rationals when a definition
  is evaluated, the reals in the geometry theorems); a statement made "over
  the reals" is a statement about the functions at such a field.
* The ROOT classes the driver uses (`TH2D`, `TAxis`, `TVector3`, `TRotation`,
  `TLorentzVector`) are modelled by their ROOT definitions, restricted to the
  members the driver calls.
* An `assert` is modelled as active: a failing assertion ends the call with an
  `Abort` value.
* The random numbers a call consumes are arguments of the call.
-/

/-! ## The C++ type `double` -/

namespace cxx

/-- A value of the C++ type `double`, an IEEE 754 binary64 number: the finite
value `(-1)^neg * m * 2^e`, an infinity, or a NaN. A finite value may have
several representations; the operations below depend on the value only. -/
inductive Double where
  | finite (neg : Bool) (m : Nat) (e : Int)
  | inf (neg : Bool)
  | nan

namespace Double

/-- The representations of the binary64 numbers: a significand of at most 53 bits
and an exponent of its last bit from -1074 (subnormal numbers) to 971 (the
largest finite number is `(2^53 - 1) * 2^971`). Every finite binary64 number has
such a representation. -/
def isBinary64 : Double → Bool
  | finite _ m e => decide (m < 2 ^ 53) && decide (-1074 ≤ e) && decide (e ≤ 971)
  | inf _ => true
  | nan => true

/-- The integer `(-1)^neg * m`. -/
def signed (neg : Bool) (m : Nat) : Int := if neg then -(m : Int) else (m : Int)

/-- The rational number a finite double stands for (0 for an infinity or a
NaN). -/
def toRat : Double → ℚ
  | finite neg m e => (signed neg m : ℚ) * (2 : ℚ) ^ e
  | inf _ => 0
  | nan => 0

/-- The number of low bits to drop from `n` to be left with at most 53 bits;
`fuel` bounds the number of passes. -/
def excessBits : Nat → Nat → Nat
  | 0, _ => 0
  | fuel + 1, n => if n < 2 ^ 53 then 0 else excessBits fuel (n >>> 1) + 1

/-- The number of low bits of `M` that the rounding of `M * 2^E` drops: those that
do not fit in 53 bits of significand and those that lie below the bit of
weight `2^-1074`. -/
def dropBits (M : Nat) (E : Int) : Nat := max (excessBits M M) (-1074 - E).toNat

/-- The significand `M` without its `k` low bits, rounded to nearest with ties to
even: raised by one when the dropped part is more than half of the last kept
bit, or is half of it and the significand is odd. -/
def roundBits (M k : Nat) : Nat :=
  let m0 := M >>> k
  let r := M - m0 <<< k
  let half := 1 <<< (k - 1)
  if half < r ∨ (r = half ∧ m0 % 2 = 1) then m0 + 1 else m0

/-- Rounding of the real number `(-1)^neg * M * 2^E` to binary64, to nearest with
ties to even: the low bits of `M` that do not fit are dropped and the
significand rounded; the result is an infinity when it reaches `2^1024`, and a
significand that the rounding has raised to `2^53` is written with 53 bits. -/
def round (neg : Bool) (M : Nat) (E : Int) : Double :=
  if M = 0 then finite neg 0 0
  else
    let k := dropBits M E
    let q : Int := E + k
    let m := roundBits M k
    if 1024 < q ∨ m >>> (1024 - q).toNat ≠ 0 then inf neg
    else if m = 2 ^ 53 then finite neg (2 ^ 52) (q + 1)
    else finite neg m q

/-- The sum `a + b` of two doubles: the exact sum, rounded. An exact sum 0 is `-0`
when both terms are negative and `+0` otherwise. -/
def add : Double → Double → Double
  | nan, _ => nan
  | _, nan => nan
  | inf s, inf t => if s = t then inf s else nan
  | inf s, finite _ _ _ => inf s
  | finite _ _ _, inf t => inf t
  | finite s1 m1 e1, finite s2 m2 e2 =>
    let E := min e1 e2
    let S : Int := signed s1 (m1 <<< (e1 - E).toNat) + signed s2 (m2 <<< (e2 - E).toNat)
    if S = 0 then finite (s1 && s2) 0 0 else round (decide (S < 0)) S.natAbs E

/-- The product `a * b` of two doubles: the exact product, rounded; an infinity
times zero is a NaN. -/
def mul : Double → Double → Double
  | nan, _ => nan
  | _, nan => nan
  | inf s, inf t => inf (xor s t)
  | inf s, finite t m _ => if m = 0 then nan else inf (xor s t)
  | finite s m _, inf t => if m = 0 then nan else inf (xor s t)
  | finite s1 m1 e1, finite s2 m2 e2 => round (xor s1 s2) (m1 * m2) (e1 + e2)

/-- The comparison `a < b` of two doubles; false when one of them is a NaN. -/
def lt : Double → Double → Bool
  | nan, _ => false
  | _, nan => false
  | inf s, inf t => s && !t
  | inf s, finite _ _ _ => s
  | finite _ _ _, inf t => !t
  | finite s1 m1 e1, finite s2 m2 e2 =>
    let E := min e1 e2
    decide (signed s1 (m1 <<< (e1 - E).toNat) < signed s2 (m2 <<< (e2 - E).toNat))

/-- The comparison `a <= b` of two doubles; false when one of them is a NaN. -/
def le : Double → Double → Bool
  | nan, _ => false
  | _, nan => false
  | inf s, inf t => s || !t
  | inf s, finite _ _ _ => s
  | finite _ _ _, inf t => !t
  | finite s1 m1 e1, finite s2 m2 e2 =>
    let E := min e1 e2
    decide (signed s1 (m1 <<< (e1 - E).toNat) ≤ signed s2 (m2 <<< (e2 - E).toNat))

/-- The literal `0.0`. -/
instance : Zero Double := ⟨finite false 0 0⟩

/-- The literal `1.0`. -/
instance : One Double := ⟨finite false 1 0⟩

/-- The operator `+` on `double`. -/
instance : Add Double := ⟨add⟩

/-- The operator `*` on `double`. -/
instance : Mul Double := ⟨mul⟩

/-- The operator `<` on `double`. -/
instance : LT Double := ⟨fun a b => lt a b = true⟩

/-- The operator `<=` on `double`. -/
instance : LE Double := ⟨fun a b => le a b = true⟩

/-- The operator `<` is computed by `lt`. -/
instance : DecidableRel (fun a b : Double => a < b) :=
  fun a b => inferInstanceAs (Decidable (lt a b = true))

/-- The operator `<=` is computed by `le`. -/
instance : DecidableRel (fun a b : Double => a ≤ b) :=
  fun a b => inferInstanceAs (Decidable (le a b = true))

end Double

end cxx

namespace genie
namespace flux

/-! ## Results of calls that may not return -/

/-- Why a call did not return to its caller. -/
inductive Abort where
  /-- The assertion `assert(fNSkipped<4)` in `FillFluxHisto2D` failed. -/
  | assertSkipped
  /-- The statement `assert(false)` at the end of `SelectNeutrino` was reached. -/
  | assertNoSpecies
  /-- A null pointer was dereferenced or a vector was indexed out of range. -/
  | badAccess
  deriving DecidableEq

/-! ## Constants of headers that are not among the sources -/

/-- Modelled from the spec: the constant `kNNu` of the header
`FluxDrivers/GBartolAtmoFlux.h`, which is not among the sources. It is the number of
neutrino species with a flux table; `LoadFluxData` creates `fFlux2D[0..3]`,
`Initialize` lists four codes and `FillFluxHisto2D` asserts `fNSkipped<4`. -/
def kNNu : Nat := 4

/-- The tables `kGBrtEv` and `kGBrtCos` of the header `FluxDrivers/GBartolAtmoFlux.h`
(not among the sources), taken as parameters. `kNGBrtEv` and `kNGBrtCos` are
their lengths. -/
structure GBrtTables (α : Type) where
  kGBrtEv : List α
  kGBrtCos : List α

/-- Number of entries of `kGBrtEv`. -/
def GBrtTables.kNGBrtEv {α : Type} (T : GBrtTables α) : Nat := T.kGBrtEv.length

/-- Number of entries of `kGBrtCos`. -/
def GBrtTables.kNGBrtCos {α : Type} (T : GBrtTables α) : Nat := T.kGBrtCos.length

/-- The four neutrino codes of `PDG/PDGCodes.h` (not among the sources), taken as
parameters. -/
structure PDGCodes where
  kPdgNuMu : Int
  kPdgAntiNuMu : Int
  kPdgNuE : Int
  kPdgAntiNuE : Int

/-! ## ROOT: `TAxis` and `TH2D` -/

/-- Model of `TAxis::FindBin(x)` on an axis with variable bins given by its edges
(`fXmin` is the first edge, `fXmax` the last, `fNbins` is the number of edges
minus one): 0 below the range, `fNbins+1` at or above it, otherwise
`1 + TMath::BinarySearch(edges, x)`, which for increasing edges is the number
of edges that are at most `x`. -/
def TAxis.FindBin {α : Type} [Zero α] [LT α] [LE α] [DecidableRel (fun a b : α => a < b)]
    [DecidableRel (fun a b : α => a ≤ b)] (edges : List α) (x : α) : Nat :=
  if x < edges.headD 0 then 0
  else if ¬ (x < edges.getLastD 0) then (edges.length - 1) + 1
  else edges.countP (fun e => decide (e ≤ x))

/-- A `TH2D` with variable bins: its name and title (`TNamed`), the edges of its
two axes and the content of every cell, indexed by the global bin number. -/
structure TH2D (α : Type) where
  fName : String
  fTitle : String
  fXaxis : List α
  fYaxis : List α
  fArray : Nat → α

namespace TH2D

variable {α : Type} [Zero α] [One α] [Add α] [Sub α] [Mul α] [Div α] [Neg α] [LT α] [LE α]
  [DecidableEq α] [DecidableRel (fun a b : α => a < b)] [DecidableRel (fun a b : α => a ≤ b)]
  [OfNat α 2] [OfNat α 10000]

/-- Model of `fXaxis.GetNbins()`. -/
def GetNbinsX (h : TH2D α) : Nat := h.fXaxis.length - 1

/-- Model of `fYaxis.GetNbins()`. -/
def GetNbinsY (h : TH2D α) : Nat := h.fYaxis.length - 1

/-- Model of `fNcells`: the bins of both axes, each with its underflow and overflow. -/
def fNcells (h : TH2D α) : Nat := (h.GetNbinsX + 2) * (h.GetNbinsY + 2)

/-- Model of `TH2::FindBin(x, y)`: the global bin `binx + (nx+2)*biny`. -/
def FindBin (h : TH2D α) (x y : α) : Nat :=
  TAxis.FindBin h.fXaxis x + (h.GetNbinsX + 2) * TAxis.FindBin h.fYaxis y

/-- Model of `TH1::GetBinContent(bin)`: the bin number is clamped to the cells. -/
def GetBinContent (h : TH2D α) (bin : Nat) : α :=
  h.fArray (min bin (h.fNcells - 1))

/-- Model of `TH2::Fill(x, y, w)`: add the weight `w` to the cell containing `(x, y)`. -/
def Fill (h : TH2D α) (x y w : α) : TH2D α :=
  { h with fArray := Function.update h.fArray (h.FindBin x y) (h.fArray (h.FindBin x y) + w) }

/-- Model of `TH1::Add(h1)` with the default factor 1: cell by cell addition. A null
`h1` is reported by ROOT and leaves the histogram unchanged. -/
def Add (h : TH2D α) (h1 : Option (TH2D α)) : TH2D α :=
  match h1 with
  | none => h
  | some g => { h with fArray := fun bin => h.fArray bin + g.fArray bin }

end TH2D

/-! ## ROOT: `TVector3` and `TLorentzVector` -/

/-- The three components of a `TVector3`. -/
structure TVector3 (α : Type) where
  fX : α
  fY : α
  fZ : α

/-- A `TLorentzVector`: its 3-vector part and its time or energy component. -/
structure TLorentzVector (α : Type) where
  fP : TVector3 α
  fE : α

/-- The functions of `TMath` the driver calls. -/
structure TMath (α : Type) where
  Sqrt : α → α
  Cos : α → α
  Sin : α → α

namespace TVector3

variable {α : Type} [Zero α] [One α] [Add α] [Sub α] [Mul α] [Div α] [Neg α] [LT α] [LE α]
  [DecidableEq α] [DecidableRel (fun a b : α => a < b)] [DecidableRel (fun a b : α => a ≤ b)]
  [OfNat α 2] [OfNat α 10000]

/-- Model of `TVector3::Mag2`. -/
def Mag2 (v : TVector3 α) : α := v.fX * v.fX + v.fY * v.fY + v.fZ * v.fZ

/-- Model of `TVector3::Mag`. -/
def Mag (M : TMath α) (v : TVector3 α) : α := M.Sqrt v.Mag2

/-- Model of `TVector3::Dot`. -/
def Dot (v w : TVector3 α) : α := v.fX * w.fX + v.fY * w.fY + v.fZ * w.fZ

/-- Model of `TVector3::Orthogonal`: a vector orthogonal to `v`, built from the two
components of largest absolute value. -/
def Orthogonal (v : TVector3 α) : TVector3 α :=
  let xx := if v.fX < 0 then -v.fX else v.fX
  let yy := if v.fY < 0 then -v.fY else v.fY
  let zz := if v.fZ < 0 then -v.fZ else v.fZ
  if xx < yy then
    (if xx < zz then ⟨0, v.fZ, -v.fY⟩ else ⟨v.fY, -v.fX, 0⟩)
  else
    (if yy < zz then ⟨-v.fZ, 0, v.fX⟩ else ⟨v.fY, -v.fX, 0⟩)

/-- Model of `TVector3::Rotate(angle, axis)`: multiply by the matrix `TRotation::Rotate`
builds from the angle and the normalised axis. Nothing is done for a zero
angle or a zero axis. -/
def Rotate (M : TMath α) (v : TVector3 α) (angle : α) (axis : TVector3 α) : TVector3 α :=
  if angle ≠ 0 then
    let ll := axis.Mag M
    if ll = 0 then v
    else
      let sa := M.Sin angle
      let ca := M.Cos angle
      let dx := axis.fX / ll
      let dy := axis.fY / ll
      let dz := axis.fZ / ll
      ⟨(ca + (1 - ca) * dx * dx) * v.fX + ((1 - ca) * dx * dy - sa * dz) * v.fY
          + ((1 - ca) * dx * dz + sa * dy) * v.fZ,
       ((1 - ca) * dy * dx + sa * dz) * v.fX + (ca + (1 - ca) * dy * dy) * v.fY
          + ((1 - ca) * dy * dz - sa * dx) * v.fZ,
       ((1 - ca) * dz * dx - sa * dy) * v.fX + ((1 - ca) * dz * dy + sa * dx) * v.fY
          + (ca + (1 - ca) * dz * dz) * v.fZ⟩
  else v

/-- Model of `TVector3::SetMag(ma)`: rescale to the norm `ma`; a zero vector is left
as it is. -/
def SetMag (M : TMath α) (v : TVector3 α) (ma : α) : TVector3 α :=
  let factor := v.Mag M
  if factor = 0 then v
  else
    let factor := ma / factor
    ⟨v.fX * factor, v.fY * factor, v.fZ * factor⟩

end TVector3

/-! ## The driver -/

/-- The data members of `GBartolAtmoFlux` (declared in the header). Arrays of
length `kNNu` are functions of the index. -/
structure GBartolAtmoFlux (α : Type) where
  fMaxEv : α
  fPdgCList : List Int
  fNSkipped : Int
  fFluxFile : Nat → String
  fFlux2D : Nat → Option (TH2D α)
  fFluxSum2D : Option (TH2D α)
  fRl : α
  fRt : α
  fgPdgC : Int
  fgP4 : TLorentzVector α
  fgX4 : TLorentzVector α

/-- What `flux_stream >> energy >> costheta >> flux >> junkd >> junkd` leaves in
`(energy, costheta, flux)` at the pass of the loop with the given `iline`. -/
abbrev FluxStream (α : Type) := Nat → α × α × α

/-- The file system: `none` for a name `ifstream` cannot open. -/
abbrev FileSystem (α : Type) := String → Option (FluxStream α)

namespace GBartolAtmoFlux

variable {α : Type} [Zero α] [One α] [Add α] [Sub α] [Mul α] [Div α] [Neg α] [LT α] [LE α]
  [DecidableEq α] [DecidableRel (fun a b : α => a < b)] [DecidableRel (fun a b : α => a ≤ b)]
  [OfNat α 2] [OfNat α 10000]

/-- Model of `GBartolAtmoFlux::ResetSelection`. -/
def ResetSelection (s : GBartolAtmoFlux α) : GBartolAtmoFlux α :=
  { s with
    fgPdgC := 0
    fgP4 := ⟨⟨0, 0, 0⟩, 0⟩
    fgX4 := ⟨⟨0, 0, 0⟩, 0⟩ }

/-- Model of `GBartolAtmoFlux::Initialize`. The radii are not touched. -/
def Initialize (T : GBrtTables α) (P : PDGCodes) (s : GBartolAtmoFlux α) : GBartolAtmoFlux α :=
  ResetSelection
    { s with
      fMaxEv := T.kGBrtEv.getD (T.kNGBrtEv - 1) 0
      fPdgCList := [P.kPdgNuMu, P.kPdgAntiNuMu, P.kPdgNuE, P.kPdgAntiNuE]
      fNSkipped := 0
      fFluxFile := fun iflux => if iflux < kNNu then "" else s.fFluxFile iflux
      fFlux2D := fun iflux => if iflux < kNNu then none else s.fFlux2D iflux
      fFluxSum2D := none }

/-- Model of `GBartolAtmoFlux::SetRadii`. -/
def SetRadii (s : GBartolAtmoFlux α) (Rlongitudinal Rtransverse : α) : GBartolAtmoFlux α :=
  { s with fRl := Rlongitudinal, fRt := Rtransverse }

/-- Model of `GBartolAtmoFlux::CreateFluxHisto2D(name, title)`: an empty `TH2D` with the
given name and title, `kNGBrtEv-1` bins with edges `kGBrtEv` and `kNGBrtCos-1`
bins with edges `kGBrtCos`. -/
def CreateFluxHisto2D (T : GBrtTables α) (name title : String) : TH2D α :=
  { fName := name, fTitle := title, fXaxis := T.kGBrtEv, fYaxis := T.kGBrtCos,
    fArray := fun _ => 0 }

/-- Model of `GBartolAtmoFlux::ZeroFluxHisto2D`: one `Fill` with weight 0 per pair of
table entries, each entry lowered by `1.E-4`. -/
def ZeroFluxHisto2D (T : GBrtTables α) (histo : TH2D α) : TH2D α :=
  T.kGBrtEv.foldl
    (fun h e => T.kGBrtCos.foldl (fun h c => h.Fill (e - 1 / 10000) (c - 1 / 10000) 0) h)
    histo

/-- The reading loop of `FillFluxHisto2D`: for `iline = 1 .. kNLines` read a row,
divide the flux by the energy and fill. -/
def fillRows (stream : FluxStream α) (kNLines : Nat) (histo : TH2D α) : TH2D α :=
  (List.range kNLines).foldl
    (fun h k =>
      let row := stream (k + 1)
      h.Fill row.1 row.2.1 (row.2.2 / row.1))
    histo

/-- Model of `GBartolAtmoFlux::FillFluxHisto2D(histo, filename)`. The result is the
returned flag, the driver (its `fNSkipped`) and the histogram `histo` points
to. -/
def FillFluxHisto2D (T : GBrtTables α) (fs : FileSystem α) (s : GBartolAtmoFlux α)
    (histo : Option (TH2D α)) (filename : String) :
    Except Abort (Bool × GBartolAtmoFlux α × Option (TH2D α)) :=
  match histo with
  | none => .ok (false, s, none)
  | some h =>
    if filename.length = 0 then
      let h1 := ZeroFluxHisto2D T h
      let s1 := { s with fNSkipped := s.fNSkipped + 1 }
      if s1.fNSkipped < 4 then .ok (true, s1, some h1) else .error Abort.assertSkipped
    else
      match fs filename with
      | none => .ok (false, s, some h)
      | some stream => .ok (true, s, some (fillRows stream (T.kNGBrtCos * T.kNGBrtEv) h))

/-- Model of `GBartolAtmoFlux::AddAllFluxes`. -/
def AddAllFluxes (T : GBrtTables α) (s : GBartolAtmoFlux α) : GBartolAtmoFlux α :=
  { s with
    fFluxSum2D :=
      some ((List.range kNNu).foldl (fun sum iflux => sum.Add (s.fFlux2D iflux))
        (CreateFluxHisto2D T "sum" "combined flux")) }

/-- The loop of `LoadFluxData` over the species, from index `iflux` on, for
`n` more passes: fill `fFlux2D[iflux]` from `fFluxFile[iflux]` and fold the
flag into `loading_status`. -/
def loadLoop (T : GBrtTables α) (fs : FileSystem α) :
    Nat → Nat → Bool → GBartolAtmoFlux α → Except Abort (Bool × GBartolAtmoFlux α)
  | 0, _, loading_status, s => .ok (loading_status, s)
  | n + 1, iflux, loading_status, s =>
    match FillFluxHisto2D T fs s (s.fFlux2D iflux) (s.fFluxFile iflux) with
    | .error e => .error e
    | .ok (loaded, s1, h) =>
      loadLoop T fs n (iflux + 1) (loading_status && loaded)
        { s1 with fFlux2D := Function.update s1.fFlux2D iflux h }

/-- The first four statements of `LoadFluxData`: the assignments
`fFlux2D[0] = CreateFluxHisto2D("numu", ...)` to
`fFlux2D[3] = CreateFluxHisto2D("nuebar", ...)`, in this order. -/
def createFluxHistos (T : GBrtTables α) (s : GBartolAtmoFlux α) : GBartolAtmoFlux α :=
  let s0 : GBartolAtmoFlux α :=
    { s with fFlux2D :=
        (Function.update s.fFlux2D 0 (some (CreateFluxHisto2D T "numu" "GBartol 3D flux: numu"))) }
  let s1 : GBartolAtmoFlux α :=
    { s0 with fFlux2D :=
        (Function.update s0.fFlux2D 1
          (some (CreateFluxHisto2D T "numubar" "GBartol 3D flux: numubar"))) }
  let s2 : GBartolAtmoFlux α :=
    { s1 with fFlux2D :=
        (Function.update s1.fFlux2D 2 (some (CreateFluxHisto2D T "nue" "GBartol 3D flux: nue"))) }
  { s2 with fFlux2D :=
      (Function.update s2.fFlux2D 3
        (some (CreateFluxHisto2D T "nuebar" "GBartol 3D flux: nuebar"))) }

/-- Model of `GBartolAtmoFlux::LoadFluxData`. -/
def LoadFluxData (T : GBrtTables α) (fs : FileSystem α) (s : GBartolAtmoFlux α) :
    Except Abort (Bool × GBartolAtmoFlux α) :=
  let s0 : GBartolAtmoFlux α := createFluxHistos T s
  match loadLoop T fs kNNu 0 true s0 with
  | .error e => .error e
  | .ok (loading_status, s1) =>
    if loading_status then .ok (true, AddAllFluxes T s1) else .ok (false, s1)

/-- First loop of `SelectNeutrino`, from index `iflux` on, for `n` more passes:
the content of the bin containing `(Ev, costheta)` in each species histogram;
`none` when a histogram is null. -/
def binFluxesFrom (s : GBartolAtmoFlux α) (Ev costheta : α) : Nat → Nat → Option (List α)
  | 0, _ => some []
  | n + 1, iflux =>
    match s.fFlux2D iflux with
    | none => none
    | some h =>
      match binFluxesFrom s Ev costheta n (iflux + 1) with
      | none => none
      | some flux => some (h.GetBinContent (h.FindBin Ev costheta) :: flux)

/-- The array `flux` of `SelectNeutrino` after its first loop. -/
def binFluxes (s : GBartolAtmoFlux α) (Ev costheta : α) : Option (List α) :=
  binFluxesFrom s Ev costheta kNNu 0

/-- Second loop of `SelectNeutrino`: `flux_sum += flux[iflux]; flux[iflux] = flux_sum`,
started with the given `flux_sum`. The result is the array of running sums. -/
def runningSums : α → List α → List α
  | _, [] => []
  | flux_sum, f :: fs => (flux_sum + f) :: runningSums (flux_sum + f) fs

/-- The value of `flux_sum` after the second loop of `SelectNeutrino`. -/
def fluxSum (flux : List α) : α := flux.foldl (fun flux_sum f => flux_sum + f) 0

/-- Third loop of `SelectNeutrino`: the first `iflux`, counted from the given
one, with `R < flux[iflux]`. -/
def firstAbove (R : α) : Nat → List α → Option Nat
  | _, [] => none
  | iflux, c :: cs => if R < c then some iflux else firstAbove R (iflux + 1) cs

/-- Model of `GBartolAtmoFlux::SelectNeutrino(Ev, costheta)`; `rndm` is the value of
`rnd->RndFlux().Rndm()`. -/
def SelectNeutrino (s : GBartolAtmoFlux α) (Ev costheta rndm : α) : Except Abort Nat :=
  match binFluxes s Ev costheta with
  | none => .error Abort.badAccess
  | some flux =>
    let R := fluxSum flux * rndm
    match firstAbove R 0 (runningSums 0 flux) with
    | some iflux => .ok iflux
    | none => .error Abort.assertNoSpecies

/-- The numbers one call of `GenerateNext` draws, in the order of the calls:
the pair `fFluxSum2D->GetRandom2` returns, then the values of
`rnd->RndFlux().Rndm()` for `phi`, for `SelectNeutrino`, for `psi` and for
`Rt`. -/
structure Draws (α : Type) where
  aEv : α
  aCos8 : α
  rPhi : α
  rSel : α
  rPsi : α
  rRt : α

/-- The 3-momentum `(px, py, pz)` of `GenerateNext`. -/
def momentum (M : TMath α) (kPi : α) (d : Draws α) : TVector3 α :=
  let Ev := d.aEv
  let cos8 := d.aCos8
  let phi := 2 * kPi * d.rPhi
  let sin8 := M.Sqrt (1 - cos8 * cos8)
  let cosphi := M.Cos phi
  let sinphi := M.Sin phi
  ⟨-1 * Ev * sin8 * sinphi, -1 * Ev * sin8 * cosphi, -1 * Ev * cos8⟩

/-- The vector `vec(x,y,z)` of `GenerateNext`: the point selected on the sphere
with `R=fRl`. -/
def surfacePoint (M : TMath α) (kPi : α) (s : GBartolAtmoFlux α) (d : Draws α) : TVector3 α :=
  let cos8 := d.aCos8
  let phi := 2 * kPi * d.rPhi
  let sin8 := M.Sqrt (1 - cos8 * cos8)
  let cosphi := M.Cos phi
  let sinphi := M.Sin phi
  ⟨s.fRl * sin8 * sinphi, s.fRl * sin8 * cosphi, s.fRl * cos8⟩

/-- The vector `dvec` of `GenerateNext` after `Orthogonal`, `Rotate` and
`SetMag`. -/
def displacement (M : TMath α) (kPi : α) (s : GBartolAtmoFlux α) (d : Draws α) : TVector3 α :=
  let vec := surfacePoint M kPi s d
  let dvec := vec.Orthogonal
  let psi := 2 * kPi * d.rPsi
  let Rt := s.fRt * d.rRt
  let dvec := dvec.Rotate M psi vec
  dvec.SetMag M Rt

/-- Model of `GBartolAtmoFlux::GenerateNext`. -/
def GenerateNext (M : TMath α) (kPi : α) (s : GBartolAtmoFlux α) (d : Draws α) :
    Except Abort (Bool × GBartolAtmoFlux α) :=
  let s0 := ResetSelection s
  match s0.fFluxSum2D with
  | none => .error Abort.badAccess
  | some _ =>
    match SelectNeutrino s0 d.aEv d.aCos8 d.rSel with
    | .error e => .error e
    | .ok iflux =>
      match s0.fPdgCList.get? iflux with
      | none => .error Abort.badAccess
      | some pdgc =>
        let vec := surfacePoint M kPi s0 d
        let dvec := displacement M kPi s0 d
        .ok (true,
          { s0 with
            fgPdgC := pdgc
            fgP4 := ⟨momentum M kPi d, d.aEv⟩
            fgX4 := ⟨⟨vec.fX + dvec.fX, vec.fY + dvec.fY, vec.fZ + dvec.fZ⟩, 0⟩ })

end GBartolAtmoFlux

/-! ## Vocabulary of the statements and drivers for the instances -/

section Vocabulary

open GBartolAtmoFlux

variable {α : Type} [Zero α] [One α] [Add α] [Sub α] [Mul α] [Div α] [Neg α] [LT α] [LE α]
  [DecidableEq α] [DecidableRel (fun a b : α => a < b)] [DecidableRel (fun a b : α => a ≤ b)]
  [OfNat α 2] [OfNat α 10000]

/-- The sum `f0 + ... + f(k-1)` of the first `k` bin contents. -/
def cumFlux (flux : List α) (k : Nat) : α := (flux.take k).sum

/-- A driver whose species histograms, named as `LoadFluxData` names them, hold
the contents `f0 .. f3` in every cell, over one-bin axes. -/
def binDriver (f0 f1 f2 f3 : α) : GBartolAtmoFlux α :=
  { fMaxEv := 0
    fPdgCList := [14, -14, 12, -12]
    fNSkipped := 0
    fFluxFile := fun _ => ""
    fFlux2D := fun iflux =>
      some ⟨if iflux = 0 then "numu" else if iflux = 1 then "numubar"
          else if iflux = 2 then "nue" else "nuebar", "", [0, 1], [0, 1],
        fun _ => if iflux = 0 then f0 else if iflux = 1 then f1 else if iflux = 2 then f2 else f3⟩
    fFluxSum2D := none
    fRl := 1
    fRt := 1
    fgPdgC := 0
    fgP4 := ⟨⟨0, 0, 0⟩, 0⟩
    fgX4 := ⟨⟨0, 0, 0⟩, 0⟩ }

/-- Number of empty file names among `n` species from index `iflux` on. -/
def skippedIn (names : Nat → String) : Nat → Nat → Nat
  | 0, _ => 0
  | n + 1, iflux => (if (names iflux).length = 0 then 1 else 0) + skippedIn names n (iflux + 1)

/-- Number of empty file names among the four species. -/
def numSkipped {β : Type} (s : GBartolAtmoFlux β) : Nat :=
  (List.range kNNu).countP (fun iflux => decide ((s.fFluxFile iflux).length = 0))

/-- Tables with two bins per axis. -/
def demoTables : GBrtTables ℚ := ⟨[1, 2, 3], [-1, 0, 1]⟩

/-- The standard neutrino codes. -/
def demoCodes : PDGCodes := ⟨14, -14, 12, -12⟩

/-- A file system with the single flux file `numu.dat`. -/
def demoFiles : FileSystem ℚ :=
  fun name => if name = "numu.dat" then some (fun iline => (3 / 2, -1 / 2, iline)) else none

/-- A driver as its constructor leaves it (`Initialize`), with the four file
names then set. -/
def freshDriver (names : Nat → String) : GBartolAtmoFlux ℚ :=
  { Initialize demoTables demoCodes (binDriver 0 0 0 0) with fFluxFile := names }

/-- File names with a file that does not open: `nue.dat` for the first species,
`numu.dat` for the second, none for the others. -/
def mixedNames : Nat → String :=
  fun iflux => if iflux = 0 then "nue.dat" else if iflux = 1 then "numu.dat" else ""

/-- The file names of the demo: `numu.dat` for the first species, none for the
others. -/
def demoNames : Nat → String := fun iflux => if iflux = 0 then "numu.dat" else ""

/-- A driver ready to generate: the species histograms of `binDriver 1 1 1 1`,
their combined histogram, and the given radii. -/
def readyDriver (Rl Rt : α) : GBartolAtmoFlux α :=
  SetRadii (AddAllFluxes ⟨[0, 1], [0, 1]⟩ (binDriver 1 1 1 1)) Rl Rt

/-- The nine rows `(energy, cos theta, flux)` of the file `numu.dat` of
`demoFiles`. -/
def demoRows : List (ℚ × ℚ × ℚ) :=
  (List.range 9).map (fun k => ((3 / 2 : ℚ), (-1 / 2 : ℚ), ((k + 1 : Nat) : ℚ)))

/-- File names with two flux files set and two components skipped, all
files opening in `demoFiles`. -/
def twoNames : Nat → String := fun iflux => if iflux < 2 then "numu.dat" else ""

/-- The `double` literal `0.1`: the binary64 number nearest to `1/10`. -/
def double_0_1 : cxx.Double := .finite false 7205759403792794 (-56)

/-- The `double` literal `0.2`: the binary64 number nearest to `2/10`. -/
def double_0_2 : cxx.Double := .finite false 7205759403792794 (-55)

/-- The `double` literal `0.3`: the binary64 number nearest to `3/10`. -/
def double_0_3 : cxx.Double := .finite false 5404319552844595 (-54)

/-- The `double` literal `0.5`. -/
def double_0_5 : cxx.Double := .finite false 1 (-1)

/-- The `double` literal `0.75`. -/
def double_0_75 : cxx.Double := .finite false 3 (-2)

/-- The `double` literal `1e308`: the binary64 number nearest to `10^308`. -/
def double_1e308 : cxx.Double := .finite false 5010420900022432 971

/-- The `double` literal `5e-324`: the smallest positive binary64 number, `2^-1074`. -/
def double_5e_324 : cxx.Double := .finite false 1 (-1074)

/-- The constant `DBL_MIN` of `<cfloat>`, `2.2250738585072014e-308`: the smallest
positive normal binary64 number, `2^-1022`. -/
def double_min : cxx.Double := .finite false 4503599627370496 (-1074)

/-- Model of `TVector3::Cross`. -/
def TVector3.Cross (v p : TVector3 α) : TVector3 α :=
  ⟨v.fY * p.fZ - p.fY * v.fZ, v.fZ * p.fX - p.fZ * v.fX, v.fX * p.fY - p.fX * v.fY⟩

/-- Distance from the origin of the straight line through the point `x` with
direction `p`: the norm of `x × p` over the norm of `p`. -/
def missDistance (M : TMath α) (x p : TVector3 α) : α := (x.Cross p).Mag M / p.Mag M

end Vocabulary

end flux
end genie

/-! # The validation program `gvld_hadronization_medium_effect_test`

A shallow embedding of `src/ValidationTools/Hadronization/gVldMediumEffectsHadronzTest.cxx`.

* The global variables `gOptGenieInputs`, `gPS` and `gC` are the fields of `Globals`;
  every function takes the globals and returns them.
* A call that does not return (an `exit`, a null pointer dereferenced, an array
  read out of its range) ends with a `Stop` value.
* Of the ROOT drawing calls the model keeps what is drawn (`Drawn`), the pages
  of the PostScript file, the sub-pads and the log-scale flags of the canvas;
  the other pad attributes are modelled only by the pointer they dereference.
-/

namespace gvld

/-- Why the program stops before a function returns. -/
inductive Stop where
  /-- A call of `exit` with the given status. -/
  | exit (status : Int)
  /-- The null `gPS` was dereferenced. -/
  | nullPostScript
  /-- The null `gC` was dereferenced. -/
  | nullCanvas
  /-- The null result of `gC->GetPad` was dereferenced. -/
  | nullPad
  /-- A null `TGraph` pointer was dereferenced. -/
  | nullGraph
  /-- The null `hframe` was dereferenced. -/
  | nullFrame
  /-- The index -1 that `TMath::LocMin` or `LocMax` returns for a graph without
  points was used. -/
  | emptyGraph
  /-- The tables `kLStyle` or `kLStyleTxt` were read at an index outside them. -/
  | lineStyleIndex (imodel : Nat)
  /-- The tables `kDataSetLabel`, `kDataSetXAxisLabel` or `kDataSetYAxisLabel` were
  read at an index outside them. -/
  | dataSetIndex (iset : Int)
  deriving DecidableEq

/-! ## Constants of the program -/

/-- Number of data sets. -/
def kNDataSets : Nat := 1

/-- Labels of the data sets. -/
def kDataSetLabel : List String := ["bla bla"]

/-- Labels of the x axis, per data set. -/
def kDataSetXAxisLabel : List String := ["??"]

/-- Labels of the y axis, per data set. -/
def kDataSetYAxisLabel : List String := ["??"]

/-- Number of columns in `TCanvas::Divide`. -/
def kNCx : Int := 1

/-- Number of rows in `TCanvas::Divide`. -/
def kNCy : Int := 1

/-- Length of the line-style tables. -/
def kNMaxNumModels : Nat := 5

/-- Line style per model. -/
def kLStyle : List Int := [1, 2, 3, 5, 6]

/-- Name of the line style per model. -/
def kLStyleTxt : List String := ["solid", "dashed", "dotted", "dot-dashed", "dot-dot-dashed"]

/-- Reading a C array at an `int` index: `none` outside the array. -/
def arrayAt {β : Type} (a : List β) (i : Int) : Option β :=
  if 0 ≤ i then a.get? i.toNat else none

/-! ## Types of headers that are not among the sources -/

/-- A `TChain` of event files. -/
structure TChain where
  fFiles : List String

/-- The class `VldTestInputs` of `Utils/VldTestInputs.h` (not among the sources), by
the three members the program calls: `NModels()`, `ModelTag(imodel)` and
`EvtChain(imodel)`. -/
structure VldTestInputs where
  NModels : Nat
  ModelTag : Nat → String
  EvtChain : Nat → Option TChain

/-- The exception `CmdLineArgParserException`, by its member `ArgumentFound()`. -/
structure CmdLineArgParserException where
  ArgumentFound : Bool

/-- The helpers of `Utils` the program calls (not among the sources), taken as
parameters: `utils::clap::CmdLineArgAsString(argc, argv, op)`, which returns the
value of the option or throws, and `VldTestInputs::LoadFromFile(inputs)`, which
returns its status and the inputs it leaves. -/
structure Utils where
  CmdLineArgAsString : List String → Char → Except CmdLineArgParserException String
  LoadFromFile : VldTestInputs → String → Bool × VldTestInputs

/-! ## ROOT objects -/

/-- A `TGraph`: its points and the attributes `Format` sets. -/
structure TGraph (α : Type) where
  fPoints : List (α × α)
  fLineColor : Int
  fLineStyle : Int
  fLineWidth : Int
  fMarkerColor : Int
  fMarkerStyle : Int
  fMarkerSize : α

/-- The array `GetX()` of a graph. -/
def TGraph.GetX {α : Type} (gr : TGraph α) : List α := gr.fPoints.map Prod.fst

/-- The array `GetY()` of a graph. -/
def TGraph.GetY {α : Type} (gr : TGraph α) : List α := gr.fPoints.map Prod.snd

/-- A `TPostScript` file: its name, its type, the pages opened and whether it is
closed. -/
structure TPostScript where
  fName : String
  fType : Int
  fNPages : Nat
  fClosed : Bool

/-- A `TCanvas`: the number of its sub-pads (numbered from 1) and its flags. -/
structure TCanvas where
  fNumPads : Nat
  fGridx : Bool
  fGridy : Bool
  fLogx : Bool
  fLogy : Bool

/-- What the program has drawn on the current page. -/
inductive Drawn (α : Type) where
  /-- The cover-page box `hdr` with its lines. -/
  | pave (lines : List String)
  /-- A frame made by `DrawFrame` on a pad. -/
  | frame (pad : Int) (x1 y1 x2 y2 : α)
  /-- A graph drawn with an option. -/
  | graph (gr : TGraph α) (opt : String)
  /-- The titles of the axes of the frame. -/
  | axisTitles (xtitle ytitle : String)
  /-- A `TLatex` text. -/
  | latex (x y : α) (text : String)

/-- The global variables of the program. `fFreed` records that `End` has deleted
the objects behind `gC` and `gPS` (the pointers keep their value). -/
structure Globals (α : Type) where
  gOptGenieInputs : VldTestInputs
  gPS : Option TPostScript
  gC : Option TCanvas
  fDrawn : List (Drawn α)
  fFreed : Bool

variable {α : Type} [LinearOrderedField α]

/-- The loop of `TMath::LocMin` from index `i` on, with the minimum `xmin` found so
far at `loc`. -/
def LocMinFrom : α → Nat → Nat → List α → Nat
  | _, loc, _, [] => loc
  | xmin, loc, i, a :: rest =>
    if xmin > a then LocMinFrom a i (i + 1) rest else LocMinFrom xmin loc (i + 1) rest

/-- Model of `TMath::LocMin(n, a)`: `none` stands for the -1 returned when `n ≤ 0`. -/
def LocMin : List α → Option Nat
  | [] => none
  | a :: rest => some (LocMinFrom a 0 1 rest)

/-- The loop of `TMath::LocMax` from index `i` on. -/
def LocMaxFrom : α → Nat → Nat → List α → Nat
  | _, loc, _, [] => loc
  | xmax, loc, i, a :: rest =>
    if xmax < a then LocMaxFrom a i (i + 1) rest else LocMaxFrom xmax loc (i + 1) rest

/-- Model of `TMath::LocMax(n, a)`. -/
def LocMax : List α → Option Nat
  | [] => none
  | a :: rest => some (LocMaxFrom a 0 1 rest)

/-- The value `a[TMath::LocMin(n, a)]`; the index -1 is outside the array. -/
def atLocMin (a : List α) : Except Stop α :=
  match LocMin a with
  | none => .error Stop.emptyGraph
  | some loc =>
    match a.get? loc with
    | none => .error Stop.emptyGraph
    | some x => .ok x

/-- The value `a[TMath::LocMax(n, a)]`. -/
def atLocMax (a : List α) : Except Stop α :=
  match LocMax a with
  | none => .error Stop.emptyGraph
  | some loc =>
    match a.get? loc with
    | none => .error Stop.emptyGraph
    | some x => .ok x

/-- Dereference `gPS`. -/
def derefPS (g : Globals α) : Except Stop TPostScript :=
  match g.gPS with
  | none => .error Stop.nullPostScript
  | some ps => .ok ps

/-- Dereference `gC`. -/
def derefC (g : Globals α) : Except Stop TCanvas :=
  match g.gC with
  | none => .error Stop.nullCanvas
  | some c => .ok c

/-- The call `gC->GetPad(iplot)` followed by a member call: pad 0 is the canvas
itself, the pads `1 .. fNumPads` are its sub-pads, and any other number gives a
null pointer. -/
def derefPad (g : Globals α) (iplot : Int) : Except Stop Unit :=
  match g.gC with
  | none => .error Stop.nullCanvas
  | some c => if 0 ≤ iplot ∧ iplot ≤ c.fNumPads then .ok () else .error Stop.nullPad

/-! ## The functions of the program -/

/-- Function `Data(iset)`: no data set is loaded, null is returned. -/
def Data (_iset : Int) : Option (TGraph α) := none

/-- Function `Model(iset, imodel)`: null without an event chain, and null after the
`switch` in every case. -/
def Model (g : Globals α) (iset : Int) (imodel : Nat) : Option (TGraph α) :=
  match g.gOptGenieInputs.EvtChain imodel with
  | none => none
  | some _ =>
    if iset = 0 then none
    else if iset = 1 then none
    else none

/-- Function `Format(gr, lcol, lsty, lwid, mcol, msty, msiz)` on a non-null graph. -/
def Format (gr : TGraph α) (lcol lsty lwid mcol msty : Int) (msiz : α) : TGraph α :=
  let gr := if lcol ≥ 0 then { gr with fLineColor := lcol } else gr
  let gr := if lsty ≥ 0 then { gr with fLineStyle := lsty } else gr
  let gr := if lwid ≥ 0 then { gr with fLineWidth := lwid } else gr
  let gr := if mcol ≥ 0 then { gr with fMarkerColor := mcol } else gr
  let gr := if msty ≥ 0 then { gr with fMarkerStyle := msty } else gr
  if msiz ≥ 0 then { gr with fMarkerSize := msiz } else gr

/-- The loop of `AddCoverPage` over the models, from `imodel` on, for `n` more
passes: one line per model, with the name `kLStyleTxt[imodel]` of its line
style. -/
def coverLines (inputs : VldTestInputs) : Nat → Nat → Except Stop (List String)
  | 0, _ => .ok []
  | n + 1, imodel =>
    match kLStyleTxt.get? imodel with
    | none => .error (Stop.lineStyleIndex imodel)
    | some txt =>
      match coverLines inputs n (imodel + 1) with
      | .error e => .error e
      | .ok rest =>
        .ok (("model tag: " ++ inputs.ModelTag imodel ++ " (" ++ txt ++ " line)") :: rest)

/-- Function `AddCoverPage`. -/
def AddCoverPage (g : Globals α) : Except Stop (Globals α) :=
  match derefPS g with
  | .error e => .error e
  | .ok ps =>
    match derefC g with
    | .error e => .error e
    | .ok _ =>
      match coverLines g.gOptGenieInputs g.gOptGenieInputs.NModels 0 with
      | .error e => .error e
      | .ok lines =>
        .ok { g with
          gPS := some { ps with fNPages := ps.fNPages + 1 }
          fDrawn := g.fDrawn ++
            [Drawn.pave ([" ", "GENIE Hadronization, Medium Effects: Comparisons with data",
              " ", " "] ++ lines ++ [" "])] }

/-- Function `Init`. -/
def Init (g : Globals α) : Except Stop (Globals α) :=
  let g1 : Globals α :=
    { g with
      gC := some { fNumPads := 0, fGridx := true, fGridy := true, fLogx := false, fLogy := false }
      gPS := some { fName := "genie_hadronization_medium_effects.ps", fType := 111,
                    fNPages := 0, fClosed := false } }
  match AddCoverPage g1 with
  | .error e => .error e
  | .ok g2 =>
    match derefC g2 with
    | .error e => .error e
    | .ok c => .ok { g2 with gC := some { c with fLogx := true, fLogy := true } }

/-- Function `End`. -/
def End (g : Globals α) : Except Stop (Globals α) :=
  match derefPS g with
  | .error e => .error e
  | .ok ps => .ok { g with gPS := some { ps with fClosed := true }, fFreed := true }

/-- The loop of `Draw` over the models: a non-null graph is formatted with the
line style `kLStyle[imodel]` and drawn. -/
def drawModels : Nat → List (Option (TGraph α)) → Except Stop (List (Drawn α))
  | _, [] => .ok []
  | imodel, plot :: rest =>
    match plot with
    | none => drawModels (imodel + 1) rest
    | some gr =>
      match kLStyle.get? imodel with
      | none => .error (Stop.lineStyleIndex imodel)
      | some lsty =>
        match drawModels (imodel + 1) rest with
        | .error e => .error e
        | .ok ds => .ok (Drawn.graph (Format gr 1 lsty 2 1 1 1) "L" :: ds)

/-- The frame `Draw` makes from the range of a graph: the corners passed to
`DrawFrame` and the values of `xmin`, `xmax`, `ymin`, `ymax`. -/
def frameOf (gr : TGraph α) : Except Stop (α × α × α × α) :=
  match atLocMin gr.GetX with
  | .error e => .error e
  | .ok xmin =>
    match atLocMax gr.GetX with
    | .error e => .error e
    | .ok xmax =>
      match atLocMin gr.GetY with
      | .error e => .error e
      | .ok ymin =>
        match atLocMax gr.GetY with
        | .error e => .error e
        | .ok ymax => .ok (xmin, xmax, ymin, ymax)

/-- The part of `Draw` from the data frame to the end, once the page and the pad
are set up: `data` and `models` are the graphs to plot. -/
def drawPlots (g : Globals α) (iset iplot : Int) (data : Option (TGraph α))
    (models : List (Option (TGraph α))) : Except Stop (Globals α) :=
  -- have data points to plot?
  let fromData : Except Stop (Option (α × α × α × α) × List (Drawn α)) :=
    match data with
    | none => .ok (none, [])
    | some dat =>
      match frameOf dat with
      | .error e => .error e
      | .ok r =>
        .ok (some r,
          [Drawn.frame iplot (1 / 2 * r.1) (2 / 5 * r.2.2.1) (6 / 5 * r.2.1) (6 / 5 * r.2.2.2),
            Drawn.graph dat "P"])
  match fromData with
  | .error e => .error e
  | .ok (frame0, drawn0) =>
    -- have model prediction to plot?
    let fromModels : Except Stop (Option (α × α × α × α) × List (Drawn α)) :=
      if models.length > 0 then
        let framed : Except Stop (Option (α × α × α × α) × List (Drawn α)) :=
          match frame0 with
          | some r => .ok (some r, drawn0)
          | none =>
            match models.head? with
            | none => .error Stop.nullGraph
            | some none => .error Stop.nullGraph
            | some (some m0) =>
              match frameOf m0 with
              | .error e => .error e
              | .ok r =>
                match derefPad g 1 with
                | .error e => .error e
                | .ok _ =>
                  .ok (some r, drawn0 ++
                    [Drawn.frame 1 (1 / 2 * r.1) (2 / 5 * r.2.2.1) (6 / 5 * r.2.1)
                      (6 / 5 * r.2.2.2)])
        match framed with
        | .error e => .error e
        | .ok (frame1, drawn1) =>
          match drawModels 0 models with
          | .error e => .error e
          | .ok ds => .ok (frame1, drawn1 ++ ds)
      else .ok (frame0, drawn0)
    match fromModels with
    | .error e => .error e
    | .ok (frame2, drawn2) =>
      -- axes label
      match frame2 with
      | none => .error Stop.nullFrame
      | some r =>
        match arrayAt kDataSetXAxisLabel iset, arrayAt kDataSetYAxisLabel iset,
            arrayAt kDataSetLabel iset with
        | some xl, some yl, some lbl =>
          let xtitle := 1 / 2 * r.1 + 1 / 5 * (6 / 5 * r.2.1 - 1 / 2 * r.1)
          let ytitle := 101 / 100 * (6 / 5) * r.2.2.2
          match derefPad g iplot with
          | .error e => .error e
          | .ok _ =>
            .ok { g with fDrawn := g.fDrawn ++ drawn2 ++
              [Drawn.axisTitles xl yl, Drawn.latex xtitle ytitle lbl] }
        | _, _, _ => .error (Stop.dataSetIndex iset)

/-- Function `Draw(iset)`. -/
def Draw (g : Globals α) (iset : Int) : Except Stop (Globals α) :=
  -- get data for the current comparison
  let data : Option (TGraph α) := Data iset
  -- get the corresponding GENIE model prediction
  let models : List (Option (TGraph α)) :=
    (List.range g.gOptGenieInputs.NModels).map (fun imodel => Model g iset imodel)
  if models.length = 0 ∧ data.isNone then .ok g
  else
    let plots_per_page := kNCx * kNCy
    let iplot := 1 + Int.tmod iset plots_per_page
    let paged : Except Stop (Globals α) :=
      if iplot = 1 then
        match derefPS g with
        | .error e => .error e
        | .ok ps =>
          match derefC g with
          | .error e => .error e
          | .ok c =>
            .ok { g with
              gPS := some { ps with fNPages := ps.fNPages + 1 }
              gC := some { c with fNumPads := (kNCx * kNCy).toNat }
              fDrawn := [] }
      else .ok g
    match paged with
    | .error e => .error e
    | .ok g1 =>
      match derefPad g1 iplot with
      | .error e => .error e
      | .ok _ => drawPlots g1 iset iplot data models

/-- The loop of `Run` over the data sets, from `iset` on, for `n` more passes. -/
def runLoop : Nat → Int → Globals α → Except Stop (Globals α)
  | 0, _, g => .ok g
  | n + 1, iset, g =>
    match Draw g iset with
    | .error e => .error e
    | .ok g1 => runLoop n (iset + 1) g1

/-- Function `Run`. -/
def Run (g : Globals α) : Except Stop (Globals α) := runLoop kNDataSets 0 g

/-- Function `GetCommandLineArgs(argc, argv)`. -/
def GetCommandLineArgs (U : Utils) (g : Globals α) (argv : List String) :
    Except Stop (Globals α) :=
  match U.CmdLineArgAsString argv 'g' with
  | .ok inputs =>
    let r := U.LoadFromFile g.gOptGenieInputs inputs
    if r.1 = false then .error (Stop.exit 1)
    else .ok { g with gOptGenieInputs := r.2 }
  | .error e => if e.ArgumentFound = false then .ok g else .ok g

/-- Function `main(argc, argv)`: the returned status and the globals it leaves. -/
def main (U : Utils) (g : Globals α) (argv : List String) : Except Stop (Int × Globals α) :=
  match GetCommandLineArgs U g argv with
  | .error e => .error e
  | .ok g1 =>
    match Init g1 with
    | .error e => .error e
    | .ok g2 =>
      match Run g2 with
      | .error e => .error e
      | .ok g3 =>
        match End g3 with
        | .error e => .error e
        | .ok g4 => .ok (0, g4)

/-! ## Globals for the instances -/

/-- The globals when `main` starts: `gPS` and `gC` are null and `gOptGenieInputs` holds
the given number of models, none with an event chain. -/
def startGlobals (nmodels : Nat) : Globals ℚ :=
  { gOptGenieInputs := ⟨nmodels, fun imodel => "model" ++ toString imodel, fun _ => none⟩
    gPS := none
    gC := none
    fDrawn := []
    fFreed := false }

/-- Helpers for the instances: the option `-g` is found when it is the first
argument and a second one follows, and only the file `inputs.xml` loads (one
model). -/
def demoUtils : Utils :=
  { CmdLineArgAsString := fun argv _ =>
      match argv with
      | "-g" :: value :: _ => .ok value
      | _ => .error ⟨false⟩
    LoadFromFile := fun inputs name =>
      if name = "inputs.xml" then (true, { inputs with NModels := 1 }) else (false, inputs) }

end gvld

/-! # Theorems -/

/-! ## The arithmetic of `double` -/

namespace cxx
namespace Double

/-- With enough passes, `excessBits` leaves fewer than 54 bits, and no fewer than it
must. -/
theorem excessBits_spec : ∀ (fuel n : Nat), n < 2 ^ (53 + fuel) →
    n / 2 ^ excessBits fuel n < 2 ^ 53 ∧
    (0 < excessBits fuel n → 2 ^ 53 ≤ n / 2 ^ (excessBits fuel n - 1)) := by
  intro fuel
  induction fuel with
  | zero =>
    intro n h
    simp only [excessBits]
    exact ⟨by simpa using h, fun h0 => absurd h0 (lt_irrefl 0)⟩
  | succ fuel ih =>
    intro n h
    by_cases hn : n < 2 ^ 53
    · simp only [excessBits, if_pos hn]
      exact ⟨by simpa using hn, fun h0 => absurd h0 (lt_irrefl 0)⟩
    · simp only [excessBits, if_neg hn, Nat.shiftRight_eq_div_pow, pow_one]
      have h2 : n / 2 < 2 ^ (53 + fuel) := by
        rw [Nat.div_lt_iff_lt_mul (by norm_num)]
        calc n < 2 ^ (53 + (fuel + 1)) := h
          _ = 2 ^ (53 + fuel) * 2 := by rw [← Nat.add_assoc, pow_succ]
      obtain ⟨i1, i2⟩ := ih (n / 2) h2
      have hdiv : ∀ e : Nat, n / 2 ^ (e + 1) = n / 2 / 2 ^ e := by
        intro e
        rw [Nat.div_div_eq_div_mul, pow_succ, mul_comm]
      constructor
      · rw [hdiv]
        exact i1
      · intro _
        simp only [Nat.add_sub_cancel]
        by_cases he : excessBits fuel (n / 2) = 0
        · rw [he]
          simpa using not_lt.mp hn
        · have := i2 (Nat.pos_of_ne_zero he)
          obtain ⟨e', he'⟩ : ∃ e', excessBits fuel (n / 2) = e' + 1 :=
            ⟨excessBits fuel (n / 2) - 1, by omega⟩
          rw [he'] at this ⊢
          simp only [Nat.add_sub_cancel] at this
          rw [hdiv]
          exact this

/-- The passes that `round` allows are enough. -/
theorem excessBits_self (M : Nat) :
    M / 2 ^ excessBits M M < 2 ^ 53 ∧
    (0 < excessBits M M → 2 ^ 53 ≤ M / 2 ^ (excessBits M M - 1)) :=
  excessBits_spec M M (lt_of_lt_of_le (Nat.lt_two_pow M)
    (Nat.pow_le_pow_right (by norm_num) (by omega)))

/-- The rounded significand is the truncated one when the dropped part is at most
half of the last kept bit, and the next one when it is at least half of it. -/
theorem roundBits_spec (M k : Nat) :
    (roundBits M k = M / 2 ^ k ∧ 2 * (M % 2 ^ k) ≤ 2 ^ k) ∨
    (roundBits M k = M / 2 ^ k + 1 ∧ 2 ^ k ≤ 2 * (M % 2 ^ k) ∧ 0 < k) := by
  have hr : M - (M / 2 ^ k) * 2 ^ k = M % 2 ^ k := by
    have := Nat.div_add_mod M (2 ^ k)
    rw [mul_comm] at this
    omega
  simp only [roundBits, Nat.shiftRight_eq_div_pow, Nat.shiftLeft_eq, one_mul, hr]
  rcases Nat.eq_zero_or_pos k with hk | hk
  · subst hk
    simp [Nat.mod_one]
  · have h2 : 2 ^ k = 2 * 2 ^ (k - 1) := by
      rw [← pow_succ']
      congr 1
      omega
    split_ifs with hc
    · right
      refine ⟨rfl, ?_, hk⟩
      rcases hc with hc | ⟨hc, _⟩ <;> omega
    · left
      refine ⟨rfl, ?_⟩
      have : ¬ 2 ^ (k - 1) < M % 2 ^ k := fun h => hc (Or.inl h)
      omega

/-- After the drop the exponent is at least -1074 and the significand has at most 53
bits; bits are dropped only from a significand that stays at 53 bits or down to
the exponent -1074. -/
theorem dropBits_spec (M : Nat) (E : Int) :
    -1074 ≤ E + (dropBits M E : Int) ∧ M / 2 ^ dropBits M E < 2 ^ 53 ∧
    (dropBits M E = 0 ∨ 2 ^ 52 ≤ M / 2 ^ dropBits M E ∨ E + (dropBits M E : Int) = -1074) := by
  obtain ⟨h1, h2⟩ := excessBits_self M
  have hk : dropBits M E = max (excessBits M M) (-1074 - E).toNat := rfl
  refine ⟨?_, ?_, ?_⟩
  · have : (-1074 - E).toNat ≤ dropBits M E := by rw [hk]; exact le_max_right _ _
    omega
  · have : excessBits M M ≤ dropBits M E := by rw [hk]; exact le_max_left _ _
    exact lt_of_le_of_lt (Nat.div_le_div_left (Nat.pow_le_pow_right (by norm_num) this)
      (by positivity)) h1
  · rcases Nat.eq_zero_or_pos (dropBits M E) with h0 | h0
    · exact Or.inl h0
    · right
      rcases le_total (-1074 - E).toNat (excessBits M M) with hle | hle
      · left
        have hka : dropBits M E = excessBits M M := by rw [hk]; exact max_eq_left hle
        rw [hka] at h0 ⊢
        have h3 := h2 h0
        obtain ⟨a, ha⟩ : ∃ a, excessBits M M = a + 1 := ⟨excessBits M M - 1, by omega⟩
        rw [ha] at h3 ⊢
        simp only [Nat.add_sub_cancel] at h3
        rw [Nat.le_div_iff_mul_le (by positivity)] at h3 ⊢
        calc 2 ^ 52 * 2 ^ (a + 1) = 2 ^ 53 * 2 ^ a := by ring
          _ ≤ M := h3
      · right
        have hkb : dropBits M E = (-1074 - E).toNat := by rw [hk]; exact max_eq_right hle
        rw [hkb] at h0 ⊢
        omega

/-- The shift of a signed significand. -/
theorem signed_shiftLeft (s : Bool) (m n : Nat) :
    signed s (m <<< n) = signed s m * 2 ^ n := by
  cases s <;> simp [signed, Nat.shiftLeft_eq]

/-- The value of a finite double, from its significand aligned at a lower
exponent. -/
theorem toRat_aligned (s : Bool) (m : Nat) (e E : Int) (h : E ≤ e) :
    ((signed s (m <<< (e - E).toNat) : Int) : ℚ) * (2 : ℚ) ^ E = toRat (finite s m e) := by
  rw [signed_shiftLeft, toRat]
  push_cast
  rw [mul_assoc]
  congr 1
  rw [← zpow_natCast, ← zpow_add₀ (by norm_num : (2 : ℚ) ≠ 0)]
  congr 1
  rw [Int.toNat_of_nonneg (by omega)]
  ring

/-- On finite doubles `<` is the order of their values. -/
theorem lt_finite_iff (s1 : Bool) (m1 : Nat) (e1 : Int) (s2 : Bool) (m2 : Nat) (e2 : Int) :
    lt (finite s1 m1 e1) (finite s2 m2 e2) = true ↔
      toRat (finite s1 m1 e1) < toRat (finite s2 m2 e2) := by
  simp only [lt, decide_eq_true_eq]
  rw [← toRat_aligned s1 m1 e1 (min e1 e2) (min_le_left _ _),
    ← toRat_aligned s2 m2 e2 (min e1 e2) (min_le_right _ _)]
  rw [mul_lt_mul_right (by positivity)]
  exact Int.cast_lt.symm

/-- On finite doubles `<=` is the order of their values. -/
theorem le_finite_iff (s1 : Bool) (m1 : Nat) (e1 : Int) (s2 : Bool) (m2 : Nat) (e2 : Int) :
    le (finite s1 m1 e1) (finite s2 m2 e2) = true ↔
      toRat (finite s1 m1 e1) ≤ toRat (finite s2 m2 e2) := by
  simp only [le, decide_eq_true_eq]
  rw [← toRat_aligned s1 m1 e1 (min e1 e2) (min_le_left _ _),
    ← toRat_aligned s2 m2 e2 (min e1 e2) (min_le_right _ _)]
  rw [mul_le_mul_right (by positivity)]
  exact Int.cast_le.symm

/-- The overflow test of `round` holds exactly when the rounded value reaches
`2^1024`. -/
theorem overflow_iff (m : Nat) (q : Int) (hm : 1024 < q → 1 ≤ m) :
    (1024 < q ∨ m >>> (1024 - q).toNat ≠ 0) ↔ (2 : ℚ) ^ (1024 : ℤ) ≤ (m : ℚ) * (2 : ℚ) ^ q := by
  rw [Nat.shiftRight_eq_div_pow]
  by_cases hq : 1024 < q
  · simp only [hq, true_or, true_iff]
    have h1 : (2 : ℚ) ^ (1024 : ℤ) ≤ (2 : ℚ) ^ q := zpow_le_zpow_right₀ (by norm_num) hq.le
    have h2 : (1 : ℚ) ≤ (m : ℚ) := by exact_mod_cast hm hq
    calc (2 : ℚ) ^ (1024 : ℤ) ≤ (2 : ℚ) ^ q := h1
      _ = 1 * (2 : ℚ) ^ q := (one_mul _).symm
      _ ≤ (m : ℚ) * (2 : ℚ) ^ q := by
        apply mul_le_mul_of_nonneg_right h2 (by positivity)
  · simp only [hq, false_or]
    have hn : ((1024 - q).toNat : Int) = 1024 - q := Int.toNat_of_nonneg (by omega)
    have hsplit : (2 : ℚ) ^ (1024 : ℤ) = (2 : ℚ) ^ ((1024 - q).toNat) * (2 : ℚ) ^ q := by
      rw [← zpow_natCast, ← zpow_add₀ (by norm_num : (2 : ℚ) ≠ 0), hn]
      congr 1
      ring
    rw [hsplit, mul_le_mul_right (by positivity)]
    rw [Ne, Nat.div_eq_zero_iff (by positivity), not_lt]
    constructor
    · intro h
      exact_mod_cast h
    · intro h
      exact_mod_cast h

/-- The result of `round` on a significand that is not zero: with `k` the number of
dropped bits and `m` the rounded significand, an infinity when `m * 2^(E+k)`
reaches `2^1024`, and otherwise a binary64 number of that value. -/
theorem round_spec (neg : Bool) (M : Nat) (E : Int) (hM : M ≠ 0) :
    ∃ (k m : Nat), -1074 ≤ E + (k : Int) ∧ M / 2 ^ k < 2 ^ 53 ∧
      (k = 0 ∨ 2 ^ 52 ≤ M / 2 ^ k ∨ E + (k : Int) = -1074) ∧
      ((m = M / 2 ^ k ∧ 2 * (M % 2 ^ k) ≤ 2 ^ k) ∨
        (m = M / 2 ^ k + 1 ∧ 2 ^ k ≤ 2 * (M % 2 ^ k) ∧ 0 < k)) ∧
      ((round neg M E = inf neg ∧
          (2 : ℚ) ^ (1024 : ℤ) ≤ (m : ℚ) * (2 : ℚ) ^ (E + (k : Int))) ∨
        (∃ (m' : Nat) (q' : Int), round neg M E = finite neg m' q' ∧
          (m' : ℚ) * (2 : ℚ) ^ q' = (m : ℚ) * (2 : ℚ) ^ (E + (k : Int)) ∧
          (m : ℚ) * (2 : ℚ) ^ (E + (k : Int)) < (2 : ℚ) ^ (1024 : ℤ) ∧
          m' < 2 ^ 53 ∧ -1074 ≤ q')) := by
  obtain ⟨d1, d2, d3⟩ := dropBits_spec M E
  have hrb := roundBits_spec M (dropBits M E)
  refine ⟨dropBits M E, roundBits M (dropBits M E), d1, d2, d3, hrb, ?_⟩
  have hm1 : 1024 < E + (dropBits M E : Int) → 1 ≤ roundBits M (dropBits M E) := by
    intro hq
    rcases d3 with h0 | h52 | hsub
    · rcases hrb with ⟨h, _⟩ | ⟨h, _, hk⟩
      · rw [h, h0]
        simp only [pow_zero, Nat.div_one]
        exact Nat.pos_of_ne_zero hM
      · omega
    · rcases hrb with ⟨h, _⟩ | ⟨h, _, _⟩
      · rw [h]
        exact le_trans (by norm_num) h52
      · omega
    · omega
  have hov := overflow_iff (roundBits M (dropBits M E)) (E + (dropBits M E : Int)) hm1
  unfold round
  rw [if_neg hM]
  simp only
  by_cases hc : 1024 < E + (dropBits M E : Int) ∨
      roundBits M (dropBits M E) >>> (1024 - (E + (dropBits M E : Int))).toNat ≠ 0
  · rw [if_pos hc]
    exact Or.inl ⟨rfl, hov.1 hc⟩
  · rw [if_neg hc]
    right
    have hlt : (roundBits M (dropBits M E) : ℚ) * (2 : ℚ) ^ (E + (dropBits M E : Int))
        < (2 : ℚ) ^ (1024 : ℤ) := by
      by_contra hcon
      exact hc (hov.2 (not_lt.mp hcon))
    by_cases h53 : roundBits M (dropBits M E) = 2 ^ 53
    · rw [if_pos h53]
      refine ⟨2 ^ 52, _, rfl, ?_, hlt, by norm_num, by omega⟩
      rw [h53, zpow_add_one₀ (by norm_num : (2 : ℚ) ≠ 0)]
      push_cast
      ring
    · rw [if_neg h53]
      refine ⟨_, _, rfl, rfl, hlt, ?_, d1⟩
      rcases hrb with ⟨h, _⟩ | ⟨h, _, _⟩
      · rw [h]; exact d2
      · omega

/-- Moving `k` bits from the exponent to the significand keeps the value. -/
theorem shift_val (m k : Nat) (E : Int) :
    (m : ℚ) * (2 : ℚ) ^ (E + (k : Int)) = ((m * 2 ^ k : Nat) : ℚ) * (2 : ℚ) ^ E := by
  rw [zpow_add₀ (by norm_num : (2 : ℚ) ≠ 0), zpow_natCast]
  push_cast
  ring

/-- A number with a significand of 53 bits is a multiple of the last kept bit of a
rounding, or lies below the rounded-down value. -/
theorem noncross (Z A mc d k : Nat) (E : Int) (hA : A = mc * 2 ^ d) (hmc : mc < 2 ^ 53)
    (hd : -1074 ≤ E + (d : Int))
    (d3 : k = 0 ∨ 2 ^ 52 ≤ Z / 2 ^ k ∨ E + (k : Int) = -1074) :
    2 ^ k ∣ A ∨ A < Z / 2 ^ k * 2 ^ k := by
  by_cases hk : k ≤ d
  · left
    rw [hA]
    exact Dvd.dvd.mul_left (pow_dvd_pow 2 hk) mc
  · rcases d3 with h0 | h52 | hsub
    · omega
    · right
      have h1 : 2 ^ (d + 1) ≤ 2 ^ k := Nat.pow_le_pow_right (by norm_num) (by omega)
      calc A = mc * 2 ^ d := hA
        _ < 2 ^ 53 * 2 ^ d := Nat.mul_lt_mul_of_pos_right hmc (by positivity)
        _ = 2 ^ 52 * 2 ^ (d + 1) := by rw [pow_succ]; ring
        _ ≤ 2 ^ 52 * 2 ^ k := Nat.mul_le_mul_left _ h1
        _ ≤ Z / 2 ^ k * 2 ^ k := Nat.mul_le_mul_right _ h52
    · omega

/-- Rounding does not cross a binary64 number from below: a number that is at most
the binary64 number `A * 2^E` rounds to at most it. -/
theorem round_le (neg : Bool) (Z A mc d : Nat) (E : Int) (hZ : Z ≠ 0) (hA : A = mc * 2 ^ d)
    (hmc : mc < 2 ^ 53) (hd : -1074 ≤ E + (d : Int)) (hZA : Z ≤ A)
    (hAb : (A : ℚ) * (2 : ℚ) ^ E < (2 : ℚ) ^ (1024 : ℤ)) :
    ∃ (m' : Nat) (q' : Int), round neg Z E = finite neg m' q' ∧
      (m' : ℚ) * (2 : ℚ) ^ q' ≤ (A : ℚ) * (2 : ℚ) ^ E ∧ m' < 2 ^ 53 ∧ -1074 ≤ q' ∧
      (m' : ℚ) * (2 : ℚ) ^ q' < (2 : ℚ) ^ (1024 : ℤ) := by
  obtain ⟨k, m, hk1, hk2, hk3, hm, hres⟩ := round_spec neg Z E hZ
  have hnc := noncross Z A mc d k E hA hmc hd hk3
  have hmod := Nat.div_add_mod Z (2 ^ k)
  have hdm : Z / 2 ^ k * 2 ^ k ≤ Z := Nat.div_mul_le_self Z (2 ^ k)
  have hmA : m * 2 ^ k ≤ A := by
    rcases hm with ⟨h, _⟩ | ⟨h, hr, hk⟩
    · rw [h]; exact le_trans hdm hZA
    · rcases hnc with ⟨a, ha⟩ | hlt
      · rw [h, ha, mul_comm (2 ^ k) a]
        apply Nat.mul_le_mul_right
        have hpos : 0 < 2 ^ k := by positivity
        have hrpos : 0 < Z % 2 ^ k := by
          rcases Nat.eq_zero_or_pos (Z % 2 ^ k) with h0 | h0
          · rw [h0] at hr; omega
          · exact h0
        have h2 : Z / 2 ^ k * 2 ^ k < a * 2 ^ k := by
          rw [mul_comm a, ← ha]
          have : Z / 2 ^ k * 2 ^ k < Z := by
            rw [mul_comm]; omega
          omega
        exact Nat.succ_le_of_lt (Nat.lt_of_mul_lt_mul_right h2)
      · omega
  have hV : (m : ℚ) * (2 : ℚ) ^ (E + (k : Int)) ≤ (A : ℚ) * (2 : ℚ) ^ E := by
    rw [shift_val]
    apply mul_le_mul_of_nonneg_right _ (by positivity)
    exact_mod_cast hmA
  rcases hres with ⟨_, hinf⟩ | ⟨m', q', e1, e2, e3, e4, e5⟩
  · exact absurd (lt_of_le_of_lt hV hAb) (not_lt.mpr hinf)
  · exact ⟨m', q', e1, by rw [e2]; exact hV, e4, e5, by rw [e2]; exact e3⟩

/-- Rounding does not cross a binary64 number from above: a number that is at least
the binary64 number `A * 2^E` rounds to at least it, or to an infinity. -/
theorem round_ge (neg : Bool) (Z A mc d : Nat) (E : Int) (hZ : Z ≠ 0) (hA : A = mc * 2 ^ d)
    (hmc : mc < 2 ^ 53) (hd : -1074 ≤ E + (d : Int)) (hAZ : A ≤ Z) :
    round neg Z E = inf neg ∨
    ∃ (m' : Nat) (q' : Int), round neg Z E = finite neg m' q' ∧
      (A : ℚ) * (2 : ℚ) ^ E ≤ (m' : ℚ) * (2 : ℚ) ^ q' ∧ m' < 2 ^ 53 ∧ -1074 ≤ q' ∧
      (m' : ℚ) * (2 : ℚ) ^ q' < (2 : ℚ) ^ (1024 : ℤ) := by
  obtain ⟨k, m, hk1, hk2, hk3, hm, hres⟩ := round_spec neg Z E hZ
  have hnc := noncross Z A mc d k E hA hmc hd hk3
  have h0A : A ≤ Z / 2 ^ k * 2 ^ k := by
    rcases hnc with ⟨a, ha⟩ | hlt
    · rw [ha, mul_comm (2 ^ k) a]
      apply Nat.mul_le_mul_right
      rw [Nat.le_div_iff_mul_le (by positivity), mul_comm, ← ha]
      exact hAZ
    · exact hlt.le
  have hmA : A ≤ m * 2 ^ k := by
    rcases hm with ⟨h, _⟩ | ⟨h, _, _⟩
    · rw [h]; exact h0A
    · rw [h]; exact le_trans h0A (Nat.mul_le_mul_right _ (Nat.le_succ _))
  have hV : (A : ℚ) * (2 : ℚ) ^ E ≤ (m : ℚ) * (2 : ℚ) ^ (E + (k : Int)) := by
    rw [shift_val]
    apply mul_le_mul_of_nonneg_right _ (by positivity)
    exact_mod_cast hmA
  rcases hres with ⟨hinf, _⟩ | ⟨m', q', e1, e2, e3, e4, e5⟩
  · exact Or.inl hinf
  · exact Or.inr ⟨m', q', e1, by rw [e2]; exact hV, e4, e5, by rw [e2]; exact e3⟩

/-- The result of a rounding is an infinity of the sign given or a finite number of
that sign that fits in binary64. -/
theorem round_shape (neg : Bool) (M : Nat) (E : Int) :
    round neg M E = inf neg ∨
    ∃ (m' : Nat) (q' : Int), round neg M E = finite neg m' q' ∧ m' < 2 ^ 53 ∧ -1074 ≤ q' ∧
      (m' : ℚ) * (2 : ℚ) ^ q' < (2 : ℚ) ^ (1024 : ℤ) := by
  by_cases hM : M = 0
  · right
    refine ⟨0, 0, by simp [round, hM], by norm_num, by norm_num, ?_⟩
    simp only [Nat.cast_zero, zero_mul]
    positivity
  · obtain ⟨k, m, _, _, _, _, hres⟩ := round_spec neg M E hM
    rcases hres with ⟨hinf, _⟩ | ⟨m', q', e1, e2, e3, e4, e5⟩
    · exact Or.inl hinf
    · exact Or.inr ⟨m', q', e1, e4, e5, by rw [e2]; exact e3⟩

/-- The absolute value of a signed significand. -/
theorem signed_natAbs (s : Bool) (m : Nat) : (signed s m).natAbs = m := by
  cases s <;> simp [signed]

/-- The value of a zero. -/
theorem toRat_zero (s : Bool) (e : Int) : toRat (finite s 0 e) = 0 := by
  cases s <;> simp [toRat, signed]

/-- The value of a finite double with the sign bit clear. -/
theorem toRat_pos (m : Nat) (e : Int) : toRat (finite false m e) = (m : ℚ) * (2 : ℚ) ^ e := by
  simp [toRat, signed]

/-- The value of a finite double with the sign bit set. -/
theorem toRat_neg (m : Nat) (e : Int) : toRat (finite true m e) = -((m : ℚ) * (2 : ℚ) ^ e) := by
  simp [toRat, signed]

/-- The aligned significand of a number with 53 bits of significand. -/
theorem aligned_abs (mc : Nat) (ec E : Int) (hE : E ≤ ec) (hec : -1074 ≤ ec)
    (hcb : (mc : ℚ) * (2 : ℚ) ^ ec < (2 : ℚ) ^ (1024 : ℤ)) :
    -1074 ≤ E + ((ec - E).toNat : Int) ∧
    ((mc * 2 ^ (ec - E).toNat : Nat) : ℚ) * (2 : ℚ) ^ E = (mc : ℚ) * (2 : ℚ) ^ ec ∧
    ((mc * 2 ^ (ec - E).toNat : Nat) : ℚ) * (2 : ℚ) ^ E < (2 : ℚ) ^ (1024 : ℤ) := by
  have h1 : E + ((ec - E).toNat : Int) = ec := by
    rw [Int.toNat_of_nonneg (by omega)]; ring
  have h2 : ((mc * 2 ^ (ec - E).toNat : Nat) : ℚ) * (2 : ℚ) ^ E = (mc : ℚ) * (2 : ℚ) ^ ec := by
    rw [← shift_val, h1]
  exact ⟨by omega, h2, by rw [h2]; exact hcb⟩

/-- Adding a number that is not positive to a binary64 number does not raise it. -/
theorem add_finite_le (sc : Bool) (mc : Nat) (ec : Int) (sf : Bool) (mf : Nat) (ef : Int)
    (hmc : mc < 2 ^ 53) (hec : -1074 ≤ ec)
    (hcb : (mc : ℚ) * (2 : ℚ) ^ ec < (2 : ℚ) ^ (1024 : ℤ))
    (hf : toRat (finite sf mf ef) ≤ 0) :
    add (finite sc mc ec) (finite sf mf ef) = inf true ∨
    ∃ (s : Bool) (m : Nat) (e : Int), add (finite sc mc ec) (finite sf mf ef) = finite s m e ∧
      toRat (finite s m e) ≤ toRat (finite sc mc ec) ∧ m < 2 ^ 53 ∧ -1074 ≤ e ∧
      (m : ℚ) * (2 : ℚ) ^ e < (2 : ℚ) ^ (1024 : ℤ) := by
  have hpos : (0 : ℚ) < (2 : ℚ) ^ (min ec ef) := by positivity
  have hA := toRat_aligned sc mc ec (min ec ef) (min_le_left _ _)
  have hB := toRat_aligned sf mf ef (min ec ef) (min_le_right _ _)
  obtain ⟨a1, a2, a3⟩ := aligned_abs mc ec (min ec ef) (min_le_left _ _) hec hcb
  have hBi : signed sf (mf <<< (ef - min ec ef).toNat) ≤ 0 := by
    rw [← hB] at hf
    have := nonpos_of_mul_nonpos_left hf hpos
    exact_mod_cast this
  have hAabs : (signed sc (mc <<< (ec - min ec ef).toNat)).natAbs =
      mc * 2 ^ (ec - min ec ef).toNat := by
    rw [signed_natAbs, Nat.shiftLeft_eq]
  simp only [add]
  generalize signed sf (mf <<< (ef - min ec ef).toNat) = Bi at hBi hB
  generalize hAi : signed sc (mc <<< (ec - min ec ef).toNat) = Ai at hA hAabs
  by_cases hZ0 : Ai + Bi = 0
  · rw [if_pos hZ0]
    right
    refine ⟨_, 0, 0, rfl, ?_, by norm_num, by norm_num, ?_⟩
    · rw [toRat_zero, ← hA]
      apply mul_nonneg _ hpos.le
      have : 0 ≤ Ai := by omega
      exact_mod_cast this
    · simp only [Nat.cast_zero, zero_mul]; positivity
  · rw [if_neg hZ0]
    have hZne : (Ai + Bi).natAbs ≠ 0 := by omega
    by_cases hneg : Ai + Bi < 0
    · rw [decide_eq_true hneg]
      by_cases hAneg : Ai < 0
      · have hAZ : mc * 2 ^ (ec - min ec ef).toNat ≤ (Ai + Bi).natAbs := by omega
        rcases round_ge true _ _ mc _ (min ec ef) hZne rfl hmc a1 hAZ with h | ⟨m', q', e1, e2, e3, e4, e5⟩
        · exact Or.inl h
        · right
          refine ⟨true, m', q', e1, ?_, e3, e4, e5⟩
          rw [toRat_neg, ← hA]
          have hcast : (Ai : ℚ) = -((mc * 2 ^ (ec - min ec ef).toNat : Nat) : ℚ) := by
            have : Ai = -((mc * 2 ^ (ec - min ec ef).toNat : Nat) : Int) := by omega
            rw [this]; push_cast; ring
          rw [hcast, neg_mul]
          exact neg_le_neg e2
      · rcases round_shape true (Ai + Bi).natAbs (min ec ef) with h | ⟨m', q', e1, e3, e4, e5⟩
        · exact Or.inl h
        · right
          refine ⟨true, m', q', e1, ?_, e3, e4, e5⟩
          rw [toRat_neg, ← hA]
          have h1 : (0 : ℚ) ≤ (Ai : ℚ) := by
            have : 0 ≤ Ai := by omega
            exact_mod_cast this
          have h2 : (0 : ℚ) ≤ (m' : ℚ) * (2 : ℚ) ^ q' := by positivity
          have h3 : (0 : ℚ) ≤ (Ai : ℚ) * (2 : ℚ) ^ (min ec ef) := mul_nonneg h1 hpos.le
          linarith
    · rw [decide_eq_false hneg]
      have hZA : (Ai + Bi).natAbs ≤ mc * 2 ^ (ec - min ec ef).toNat := by omega
      obtain ⟨m', q', e1, e2, e3, e4, e5⟩ :=
        round_le false _ _ mc _ (min ec ef) hZne rfl hmc a1 hZA a3
      right
      refine ⟨false, m', q', e1, ?_, e3, e4, e5⟩
      rw [toRat_pos, ← hA]
      have hcast : (Ai : ℚ) = ((mc * 2 ^ (ec - min ec ef).toNat : Nat) : ℚ) := by
        have : Ai = ((mc * 2 ^ (ec - min ec ef).toNat : Nat) : Int) := by omega
        rw [this]; push_cast; ring
      rw [hcast]
      exact e2

/-- Adding a number that is not negative to a binary64 number does not lower it. -/
theorem add_finite_ge (sc : Bool) (mc : Nat) (ec : Int) (sf : Bool) (mf : Nat) (ef : Int)
    (hmc : mc < 2 ^ 53) (hec : -1074 ≤ ec)
    (hcb : (mc : ℚ) * (2 : ℚ) ^ ec < (2 : ℚ) ^ (1024 : ℤ))
    (hf : 0 ≤ toRat (finite sf mf ef)) :
    add (finite sc mc ec) (finite sf mf ef) = inf false ∨
    ∃ (s : Bool) (m : Nat) (e : Int), add (finite sc mc ec) (finite sf mf ef) = finite s m e ∧
      toRat (finite sc mc ec) ≤ toRat (finite s m e) ∧ m < 2 ^ 53 ∧ -1074 ≤ e ∧
      (m : ℚ) * (2 : ℚ) ^ e < (2 : ℚ) ^ (1024 : ℤ) := by
  have hpos : (0 : ℚ) < (2 : ℚ) ^ (min ec ef) := by positivity
  have hA := toRat_aligned sc mc ec (min ec ef) (min_le_left _ _)
  have hB := toRat_aligned sf mf ef (min ec ef) (min_le_right _ _)
  obtain ⟨a1, a2, a3⟩ := aligned_abs mc ec (min ec ef) (min_le_left _ _) hec hcb
  have hBi : 0 ≤ signed sf (mf <<< (ef - min ec ef).toNat) := by
    rw [← hB] at hf
    have := nonneg_of_mul_nonneg_left hf hpos
    exact_mod_cast this
  have hAabs : (signed sc (mc <<< (ec - min ec ef).toNat)).natAbs =
      mc * 2 ^ (ec - min ec ef).toNat := by
    rw [signed_natAbs, Nat.shiftLeft_eq]
  simp only [add]
  generalize signed sf (mf <<< (ef - min ec ef).toNat) = Bi at hBi hB
  generalize hAi : signed sc (mc <<< (ec - min ec ef).toNat) = Ai at hA hAabs
  by_cases hZ0 : Ai + Bi = 0
  · rw [if_pos hZ0]
    right
    refine ⟨_, 0, 0, rfl, ?_, by norm_num, by norm_num, ?_⟩
    · rw [toRat_zero, ← hA]
      apply mul_nonpos_of_nonpos_of_nonneg _ hpos.le
      have : Ai ≤ 0 := by omega
      exact_mod_cast this
    · simp only [Nat.cast_zero, zero_mul]; positivity
  · rw [if_neg hZ0]
    have hZne : (Ai + Bi).natAbs ≠ 0 := by omega
    by_cases hneg : Ai + Bi < 0
    · rw [decide_eq_true hneg]
      have hZA : (Ai + Bi).natAbs ≤ mc * 2 ^ (ec - min ec ef).toNat := by omega
      obtain ⟨m', q', e1, e2, e3, e4, e5⟩ :=
        round_le true _ _ mc _ (min ec ef) hZne rfl hmc a1 hZA a3
      right
      refine ⟨true, m', q', e1, ?_, e3, e4, e5⟩
      rw [toRat_neg, ← hA]
      have hcast : (Ai : ℚ) = -((mc * 2 ^ (ec - min ec ef).toNat : Nat) : ℚ) := by
        have : Ai = -((mc * 2 ^ (ec - min ec ef).toNat : Nat) : Int) := by omega
        rw [this]; push_cast; ring
      rw [hcast, neg_mul]
      exact neg_le_neg e2
    · rw [decide_eq_false hneg]
      by_cases hApos : 0 < Ai
      · have hAZ : mc * 2 ^ (ec - min ec ef).toNat ≤ (Ai + Bi).natAbs := by omega
        rcases round_ge false _ _ mc _ (min ec ef) hZne rfl hmc a1 hAZ with
          h | ⟨m', q', e1, e2, e3, e4, e5⟩
        · exact Or.inl h
        · right
          refine ⟨false, m', q', e1, ?_, e3, e4, e5⟩
          rw [toRat_pos, ← hA]
          have hcast : (Ai : ℚ) = ((mc * 2 ^ (ec - min ec ef).toNat : Nat) : ℚ) := by
            have : Ai = ((mc * 2 ^ (ec - min ec ef).toNat : Nat) : Int) := by omega
            rw [this]; push_cast; ring
          rw [hcast]
          exact e2
      · rcases round_shape false (Ai + Bi).natAbs (min ec ef) with h | ⟨m', q', e1, e3, e4, e5⟩
        · exact Or.inl h
        · right
          refine ⟨false, m', q', e1, ?_, e3, e4, e5⟩
          rw [toRat_pos, ← hA]
          have h1 : (Ai : ℚ) ≤ 0 := by
            have : Ai ≤ 0 := by omega
            exact_mod_cast this
          have h2 : (0 : ℚ) ≤ (m' : ℚ) * (2 : ℚ) ^ q' := by positivity
          have h3 : (Ai : ℚ) * (2 : ℚ) ^ (min ec ef) ≤ 0 :=
            mul_nonpos_of_nonpos_of_nonneg h1 hpos.le
          linarith

/-- A finite sum of two doubles fits in binary64. -/
theorem add_shape (a b : Double) (s : Bool) (m : Nat) (e : Int) (h : add a b = finite s m e) :
    m < 2 ^ 53 ∧ -1074 ≤ e ∧ (m : ℚ) * (2 : ℚ) ^ e < (2 : ℚ) ^ (1024 : ℤ) := by
  cases a with
  | nan => simp [add] at h
  | inf sa =>
    cases b with
    | nan => simp [add] at h
    | inf sb => simp only [add] at h; split_ifs at h
    | finite sb mb eb => simp [add] at h
  | finite sa ma ea =>
    cases b with
    | nan => simp [add] at h
    | inf sb => simp [add] at h
    | finite sb mb eb =>
      simp only [add] at h
      split_ifs at h with h0
      · simp only [finite.injEq] at h
        obtain ⟨_, rfl, rfl⟩ := h
        refine ⟨by norm_num, by norm_num, ?_⟩
        simp only [Nat.cast_zero, zero_mul]; positivity
      · rcases round_shape (decide (signed sa (ma <<< (ea - min ea eb).toNat) +
            signed sb (mb <<< (eb - min ea eb).toNat) < 0))
          (signed sa (ma <<< (ea - min ea eb).toNat) +
            signed sb (mb <<< (eb - min ea eb).toNat)).natAbs (min ea eb) with
          hinf | ⟨m', q', e1, e3, e4, e5⟩
        · rw [hinf] at h; cases h
        · rw [e1] at h
          simp only [finite.injEq] at h
          obtain ⟨_, rfl, rfl⟩ := h
          exact ⟨e3, e4, e5⟩

/-- The operator `<` is `lt`. -/
theorem lt_def (a b : Double) : a < b ↔ lt a b = true := Iff.rfl

/-- The operator `<=` is `le`. -/
theorem le_def (a b : Double) : a ≤ b ↔ le a b = true := Iff.rfl

/-- The literal `0.0` is `+0`. -/
theorem zero_def : (0 : Double) = finite false 0 0 := rfl

/-- The literal `1.0`. -/
theorem one_def : (1 : Double) = finite false 1 0 := rfl

/-- The operator `+` is `add`. -/
theorem add_def (a b : Double) : a + b = add a b := rfl

/-- The operator `*` is `mul`. -/
theorem mul_def (a b : Double) : a * b = mul a b := rfl

/-- A double below a finite one is below every finite one that is not smaller. -/
theorem lt_of_lt_of_toRat_le (R : Double) (s : Bool) (m : Nat) (e : Int) (s' : Bool) (m' : Nat)
    (e' : Int) (h : lt R (finite s m e) = true)
    (hle : toRat (finite s m e) ≤ toRat (finite s' m' e')) :
    lt R (finite s' m' e') = true := by
  cases R with
  | nan => simp [lt] at h
  | inf sr => simpa [lt] using h
  | finite sr mr er =>
    rw [lt_finite_iff] at h ⊢
    exact lt_of_lt_of_le h hle

/-- A double that is not above zero is a NaN, the negative infinity, or a finite
number that is not positive. -/
theorem not_pos_cases (f : Double) (hf : ¬ (0 < f)) :
    f = nan ∨ f = inf true ∨ ∃ s m e, f = finite s m e ∧ toRat (finite s m e) ≤ 0 := by
  cases f with
  | nan => exact Or.inl rfl
  | inf sf =>
    right; left
    cases sf with
    | true => rfl
    | false => exact absurd (by rfl) hf
  | finite s m e =>
    right; right
    refine ⟨s, m, e, rfl, ?_⟩
    rw [lt_def, zero_def, lt_finite_iff, toRat_zero] at hf
    exact not_lt.mp hf

/-- Adding a content that is not positive to a running sum does not bring a number
below the sum that was not below it before. -/
theorem lt_of_lt_add_of_not_pos (R c f : Double)
    (hc : ∀ s m e, c = finite s m e →
      m < 2 ^ 53 ∧ -1074 ≤ e ∧ (m : ℚ) * (2 : ℚ) ^ e < (2 : ℚ) ^ (1024 : ℤ))
    (hf : ¬ (0 < f)) (h : R < c + f) : R < c := by
  rw [lt_def, add_def] at h
  rw [lt_def]
  rcases not_pos_cases f hf with rfl | rfl | ⟨sf, mf, ef, rfl, hf0⟩
  · cases R <;> cases c <;> simp [add, lt] at h
  · cases c with
    | nan => cases R <;> simp [add, lt] at h
    | inf sc =>
      cases sc with
      | true => simpa [add] using h
      | false => cases R <;> simp [add, lt] at h
    | finite sc mc ec => cases R <;> simp [add, lt] at h
  · cases c with
    | nan => cases R <;> simp [add, lt] at h
    | inf sc => simpa [add] using h
    | finite sc mc ec =>
      obtain ⟨h1, h2, h3⟩ := hc sc mc ec rfl
      rcases add_finite_le sc mc ec sf mf ef h1 h2 h3 hf0 with hinf | ⟨s, m, e, e1, e2, _⟩
      · rw [hinf] at h
        cases R <;> simp [lt] at h
      · rw [e1] at h
        exact lt_of_lt_of_toRat_le R s m e sc mc ec h e2

/-- The product of a positive double and a non-negative one is not below zero. -/
theorem mul_not_lt_zero (S u : Double) (hS : 0 < S) (hu : 0 ≤ u) : ¬ (S * u < 0) := by
  rw [lt_def, zero_def] at hS
  rw [le_def, zero_def] at hu
  rw [lt_def, mul_def, zero_def]
  cases S with
  | nan => simp [lt] at hS
  | inf sS =>
    have hs : sS = false := by simpa [lt] using hS
    subst hs
    cases u with
    | nan => simp [le] at hu
    | inf su =>
      have : su = false := by simpa [le] using hu
      subst this
      simp [mul, lt]
    | finite su mu eu =>
      by_cases hm : mu = 0
      · simp [mul, hm, lt]
      · have hsu : su = false := by
          rw [le_finite_iff, toRat_zero] at hu
          cases su with
          | false => rfl
          | true =>
            rw [toRat_neg] at hu
            have : (0 : ℚ) < (mu : ℚ) * (2 : ℚ) ^ eu := by
              have : (0 : ℚ) < (mu : ℚ) := by exact_mod_cast Nat.pos_of_ne_zero hm
              positivity
            linarith
        subst hsu
        simp [mul, hm, lt]
  | finite sS mS eS =>
    rw [lt_finite_iff, toRat_zero] at hS
    have hsS : sS = false := by
      cases sS with
      | false => rfl
      | true =>
        rw [toRat_neg] at hS
        have : (0 : ℚ) ≤ (mS : ℚ) * (2 : ℚ) ^ eS := by positivity
        linarith
    subst hsS
    have hmS : mS ≠ 0 := by
      rintro rfl
      rw [toRat_zero] at hS
      exact lt_irrefl _ hS
    cases u with
    | nan => simp [le] at hu
    | inf su =>
      have : su = false := by simpa [le] using hu
      subst this
      simp [mul, hmS, lt]
    | finite su mu eu =>
      simp only [mul]
      rcases round_shape (xor false su) (mS * mu) (eS + eu) with hinf | ⟨m', q', e1, _, _, _⟩
      · rw [hinf]
        by_cases hm : mu = 0
        · subst hm
          simp [round] at hinf
        · have hsu : su = false := by
            rw [le_finite_iff, toRat_zero] at hu
            cases su with
            | false => rfl
            | true =>
              rw [toRat_neg] at hu
              have : (0 : ℚ) < (mu : ℚ) * (2 : ℚ) ^ eu := by
                have : (0 : ℚ) < (mu : ℚ) := by exact_mod_cast Nat.pos_of_ne_zero hm
                positivity
              linarith
          subst hsu
          simp [lt]
      · rw [e1, lt_finite_iff, toRat_zero]
        by_cases hm : mu = 0
        · subst hm
          simp only [mul_zero, round, if_true, finite.injEq] at e1
          obtain ⟨_, rfl, rfl⟩ := e1
          rw [toRat_zero]
          exact lt_irrefl _
        · have hsu : su = false := by
            rw [le_finite_iff, toRat_zero] at hu
            cases su with
            | false => rfl
            | true =>
              rw [toRat_neg] at hu
              have : (0 : ℚ) < (mu : ℚ) * (2 : ℚ) ^ eu := by
                have : (0 : ℚ) < (mu : ℚ) := by exact_mod_cast Nat.pos_of_ne_zero hm
                positivity
              linarith
          subst hsu
          simp only [Bool.xor_false, toRat_pos]
          have : (0 : ℚ) ≤ (m' : ℚ) * (2 : ℚ) ^ q' := by positivity
          linarith

/-- A binary64 number below 1 is at most `1 - 2^-53`. -/
theorem below_one (mu : Nat) (eu : Int) (hmu : mu < 2 ^ 53)
    (h : (mu : ℚ) * (2 : ℚ) ^ eu < 1) :
    (mu : ℚ) * (2 : ℚ) ^ eu ≤ 1 - (2 : ℚ) ^ (-53 : ℤ) := by
  by_cases he : -53 ≤ eu
  · obtain ⟨n, hn⟩ : ∃ n : Nat, eu = -53 + (n : Int) := ⟨(eu + 53).toNat, by omega⟩
    subst hn
    rw [shift_val] at h ⊢
    have h53 : (2 : ℚ) ^ (-53 : ℤ) = 1 / 2 ^ 53 := by
      rw [zpow_neg, one_div]; norm_cast
    rw [h53] at h ⊢
    have hlt : mu * 2 ^ n < 2 ^ 53 := by
      have : ((mu * 2 ^ n : Nat) : ℚ) < 2 ^ 53 := by
        have hp : (0 : ℚ) < 2 ^ 53 := by positivity
        have h' : ((mu * 2 ^ n : Nat) : ℚ) / 2 ^ 53 < 1 := by
          rw [← mul_one_div]; exact h
        rwa [div_lt_one hp] at h'
      exact_mod_cast this
    have hle : ((mu * 2 ^ n : Nat) : ℚ) ≤ 2 ^ 53 - 1 := by
      have : mu * 2 ^ n + 1 ≤ 2 ^ 53 := hlt
      have h2 : ((mu * 2 ^ n + 1 : Nat) : ℚ) ≤ ((2 ^ 53 : Nat) : ℚ) := by exact_mod_cast this
      push_cast at h2 ⊢
      linarith
    rw [mul_one_div, div_le_iff₀ (by positivity)]
    calc ((mu * 2 ^ n : Nat) : ℚ) ≤ 2 ^ 53 - 1 := hle
      _ = (1 - 1 / 2 ^ 53) * 2 ^ 53 := by norm_num
  · have h1 : (2 : ℚ) ^ eu ≤ (2 : ℚ) ^ (-54 : ℤ) :=
      zpow_le_zpow_right₀ (by norm_num) (by omega)
    have h2 : (mu : ℚ) ≤ 2 ^ 53 := by exact_mod_cast hmu.le
    have h3 : (mu : ℚ) * (2 : ℚ) ^ eu ≤ 2 ^ 53 * (2 : ℚ) ^ (-54 : ℤ) :=
      mul_le_mul h2 h1 (by positivity) (by positivity)
    have h54 : (2 : ℚ) ^ (-54 : ℤ) = 1 / 2 ^ 54 := by
      rw [zpow_neg, one_div]; norm_cast
    have h53 : (2 : ℚ) ^ (-53 : ℤ) = 1 / 2 ^ 53 := by
      rw [zpow_neg, one_div]; norm_cast
    rw [h54] at h3
    rw [h53]
    calc (mu : ℚ) * (2 : ℚ) ^ eu ≤ 2 ^ 53 * (1 / 2 ^ 54) := h3
      _ ≤ 1 - 1 / 2 ^ 53 := by norm_num

/-- The product of a normal positive double and a binary64 draw in `[0, 1)`, as
rounded, is below the double. -/
theorem mul_lt_self (mS : Nat) (eS : Int) (su : Bool) (mu : Nat) (eu : Int)
    (hSb : (mS : ℚ) * (2 : ℚ) ^ eS < (2 : ℚ) ^ (1024 : ℤ))
    (hmin : (2 : ℚ) ^ (-1022 : ℤ) < (mS : ℚ) * (2 : ℚ) ^ eS)
    (hmu : mu < 2 ^ 53) (hu0 : 0 ≤ toRat (finite su mu eu))
    (hu1 : toRat (finite su mu eu) < 1) :
    ∃ (sR : Bool) (mR : Nat) (eR : Int),
      mul (finite false mS eS) (finite su mu eu) = finite sR mR eR ∧
      0 ≤ toRat (finite sR mR eR) ∧
      toRat (finite sR mR eR) < toRat (finite false mS eS) := by
  have hSpos : (0 : ℚ) < (mS : ℚ) * (2 : ℚ) ^ eS := lt_trans (by positivity) hmin
  simp only [mul]
  by_cases hm : mu = 0
  · subst hm
    refine ⟨xor false su, 0, 0, by simp [round], ?_, ?_⟩
    · rw [toRat_zero]
    · rw [toRat_zero, toRat_pos]
      exact hSpos
  · have hsu : su = false := by
      cases su with
      | false => rfl
      | true =>
        rw [toRat_neg] at hu0
        have : (0 : ℚ) < (mu : ℚ) * (2 : ℚ) ^ eu := by
          have : (0 : ℚ) < (mu : ℚ) := by exact_mod_cast Nat.pos_of_ne_zero hm
          positivity
        linarith
    subst hsu
    rw [toRat_pos] at hu1
    have hub := below_one mu eu hmu hu1
    have hmSne : mS ≠ 0 := by
      rintro rfl
      simp at hSpos
    have hM : mS * mu ≠ 0 := Nat.mul_ne_zero hmSne hm
    have hx0 : xor false false = false := rfl
    rw [hx0]
    obtain ⟨k, m, hk1, hk2, hk3, hmm, hres⟩ := round_spec false (mS * mu) (eS + eu) hM
    have hx : ((mS * mu : Nat) : ℚ) * (2 : ℚ) ^ (eS + eu) =
        (mS : ℚ) * (2 : ℚ) ^ eS * ((mu : ℚ) * (2 : ℚ) ^ eu) := by
      rw [zpow_add₀ (by norm_num : (2 : ℚ) ≠ 0)]
      push_cast
      ring
    have hpE : (0 : ℚ) < (2 : ℚ) ^ (eS + eu) := by positivity
    have hmod := Nat.div_add_mod (mS * mu) (2 ^ k)
    have hulp : (2 : ℚ) ^ (eS + eu + (k : Int)) = ((2 ^ k : Nat) : ℚ) * (2 : ℚ) ^ (eS + eu) := by
      rw [zpow_add₀ (by norm_num : (2 : ℚ) ≠ 0), zpow_natCast]
      push_cast
      ring
    have hV : (m : ℚ) * (2 : ℚ) ^ (eS + eu + (k : Int)) < (mS : ℚ) * (2 : ℚ) ^ eS := by
      rcases hmm with ⟨h, _⟩ | ⟨h, hr, hkpos⟩
      · rw [shift_val, h]
        have h1 : (((mS * mu) / 2 ^ k * 2 ^ k : Nat) : ℚ) ≤ ((mS * mu : Nat) : ℚ) := by
          exact_mod_cast Nat.div_mul_le_self (mS * mu) (2 ^ k)
        have h2 : (((mS * mu) / 2 ^ k * 2 ^ k : Nat) : ℚ) * (2 : ℚ) ^ (eS + eu) ≤
            ((mS * mu : Nat) : ℚ) * (2 : ℚ) ^ (eS + eu) :=
          mul_le_mul_of_nonneg_right h1 hpE.le
        rw [hx] at h2
        have h3 : (mS : ℚ) * (2 : ℚ) ^ eS * ((mu : ℚ) * (2 : ℚ) ^ eu) <
            (mS : ℚ) * (2 : ℚ) ^ eS * 1 := mul_lt_mul_of_pos_left hu1 hSpos
        linarith
      · -- rounding up: at most half a unit of the last place above the product
        have hhalf : 2 * ((m : ℚ) * (2 : ℚ) ^ (eS + eu + (k : Int))) ≤
            2 * (((mS * mu : Nat) : ℚ) * (2 : ℚ) ^ (eS + eu)) +
              (2 : ℚ) ^ (eS + eu + (k : Int)) := by
          rw [shift_val, hulp, h]
          have hn : 2 * (((mS * mu) / 2 ^ k + 1) * 2 ^ k) ≤ 2 * (mS * mu) + 2 ^ k := by
            have e1 : ((mS * mu) / 2 ^ k + 1) * 2 ^ k =
                2 ^ k * ((mS * mu) / 2 ^ k) + 2 ^ k := by ring
            rw [e1]
            omega
          have hq : (2 : ℚ) * ((((mS * mu) / 2 ^ k + 1) * 2 ^ k : Nat) : ℚ) ≤
              2 * ((mS * mu : Nat) : ℚ) + ((2 ^ k : Nat) : ℚ) := by exact_mod_cast hn
          have := mul_le_mul_of_nonneg_right hq hpE.le
          linarith
        have hbig : (2 : ℚ) ^ (52 : ℕ) * (2 : ℚ) ^ (eS + eu + (k : Int)) <
            (mS : ℚ) * (2 : ℚ) ^ eS := by
          rcases hk3 with h0 | h52 | hsub
          · omega
          · have h1 : ((2 ^ 52 * 2 ^ k : Nat) : ℚ) ≤ ((mS * mu : Nat) : ℚ) := by
              have : 2 ^ 52 * 2 ^ k ≤ mS * mu :=
                le_trans (Nat.mul_le_mul_right _ h52) (Nat.div_mul_le_self _ _)
              exact_mod_cast this
            have h2 := mul_le_mul_of_nonneg_right h1 hpE.le
            rw [hx] at h2
            have h3 : (mS : ℚ) * (2 : ℚ) ^ eS * ((mu : ℚ) * (2 : ℚ) ^ eu) <
                (mS : ℚ) * (2 : ℚ) ^ eS * 1 := mul_lt_mul_of_pos_left hu1 hSpos
            rw [hulp]
            push_cast at h2 ⊢
            linarith
          · rw [hsub]
            have : (2 : ℚ) ^ (52 : ℕ) * (2 : ℚ) ^ (-1074 : ℤ) = (2 : ℚ) ^ (-1022 : ℤ) := by
              rw [← zpow_natCast, ← zpow_add₀ (by norm_num : (2 : ℚ) ≠ 0)]
              norm_num
            rw [this]
            exact hmin
        have h53 : (2 : ℚ) ^ (-53 : ℤ) = 1 / 2 ^ 53 := by
          rw [zpow_neg, one_div]; norm_cast
        rw [h53] at hub
        have hprod : (mS : ℚ) * (2 : ℚ) ^ eS * ((mu : ℚ) * (2 : ℚ) ^ eu) ≤
            (mS : ℚ) * (2 : ℚ) ^ eS * (1 - 1 / 2 ^ 53) :=
          mul_le_mul_of_nonneg_left hub hSpos.le
        rw [hx] at hhalf
        have e52 : (2 : ℚ) ^ (53 : ℕ) = 2 * 2 ^ (52 : ℕ) := by norm_num
        have hS53 : (mS : ℚ) * (2 : ℚ) ^ eS * (1 / 2 ^ 53) * 2 ^ 53 =
            (mS : ℚ) * (2 : ℚ) ^ eS := by
          field_simp
        nlinarith [hhalf, hbig, hprod, hS53]
    rcases hres with ⟨_, hinf⟩ | ⟨m', q', e1, e2, _, _, _⟩
    · exact absurd (lt_trans hV hSb) (not_lt.mpr hinf)
    · refine ⟨false, m', q', e1, ?_, ?_⟩
      · rw [toRat_pos]; positivity
      · rw [toRat_pos, toRat_pos, e2]
        exact hV

/-- A finite sum has finite terms. -/
theorem finite_of_add (a b : Double) (s : Bool) (m : Nat) (e : Int)
    (h : add a b = finite s m e) :
    (∃ sa ma ea, a = finite sa ma ea) ∧ (∃ sb mb eb, b = finite sb mb eb) := by
  cases a with
  | nan => simp [add] at h
  | inf sa =>
    cases b with
    | nan => simp [add] at h
    | inf sb => simp only [add] at h; split_ifs at h
    | finite sb mb eb => simp [add] at h
  | finite sa ma ea =>
    cases b with
    | nan => simp [add] at h
    | inf sb => simp [add] at h
    | finite sb mb eb => exact ⟨⟨sa, ma, ea, rfl⟩, ⟨sb, mb, eb, rfl⟩⟩

/-- A double above `DBL_MIN` and below the infinity is a positive finite number
above `2^-1022`. -/
theorem normal_cases (S : Double)
    (hmin : finite false 4503599627370496 (-1074) < S) (hfin : S < inf false) :
    ∃ (mS : Nat) (eS : Int), S = finite false mS eS ∧
      (2 : ℚ) ^ (-1022 : ℤ) < (mS : ℚ) * (2 : ℚ) ^ eS := by
  rw [lt_def] at hmin hfin
  cases S with
  | nan => simp [lt] at hmin
  | inf sS =>
    cases sS with
    | true => simp [lt] at hmin
    | false => simp [lt] at hfin
  | finite sS mS eS =>
    rw [lt_finite_iff, toRat_pos] at hmin
    have hval : ((4503599627370496 : Nat) : ℚ) * (2 : ℚ) ^ (-1074 : ℤ) = (2 : ℚ) ^ (-1022 : ℤ) := by
      have : ((4503599627370496 : Nat) : ℚ) = (2 : ℚ) ^ (52 : ℤ) := by norm_num
      rw [this, ← zpow_add₀ (by norm_num : (2 : ℚ) ≠ 0)]
      norm_num
    rw [hval] at hmin
    cases sS with
    | true =>
      rw [toRat_neg] at hmin
      have h1 : (0 : ℚ) < (2 : ℚ) ^ (-1022 : ℤ) := by positivity
      have h2 : (0 : ℚ) ≤ (mS : ℚ) * (2 : ℚ) ^ eS := by positivity
      linarith
    | false =>
      rw [toRat_pos] at hmin
      exact ⟨mS, eS, rfl, hmin⟩

/-- A draw `u` with `0 <= u < 1` is a finite number, of value in `[0, 1)`. -/
theorem draw_cases (u : Double) (hu0 : 0 ≤ u) (hu1 : u < 1) :
    ∃ (su : Bool) (mu : Nat) (eu : Int), u = finite su mu eu ∧
      0 ≤ toRat (finite su mu eu) ∧ toRat (finite su mu eu) < 1 := by
  rw [le_def, zero_def] at hu0
  rw [lt_def, one_def] at hu1
  cases u with
  | nan => simp [le] at hu0
  | inf su =>
    cases su with
    | true => simp [le] at hu0
    | false => simp [lt] at hu1
  | finite su mu eu =>
    rw [le_finite_iff, toRat_zero] at hu0
    rw [lt_finite_iff] at hu1
    have h1 : toRat (finite false 1 0) = 1 := by simp [toRat, signed]
    rw [h1] at hu1
    exact ⟨su, mu, eu, rfl, hu0, hu1⟩

/-- The product `R = S * u` of a finite double `S` above `DBL_MIN` and a binary64 draw `u`
in `[0, 1)` is a finite number with `0 <= R < S`. -/
theorem mul_draw (S u : Double)
    (hSb : ∀ s m e, S = finite s m e → (m : ℚ) * (2 : ℚ) ^ e < (2 : ℚ) ^ (1024 : ℤ))
    (hmin : finite false 4503599627370496 (-1074) < S) (hfin : S < inf false)
    (hu : u.isBinary64 = true) (hu0 : 0 ≤ u) (hu1 : u < 1) :
    ∃ (mS : Nat) (eS : Int) (sR : Bool) (mR : Nat) (eR : Int),
      S = finite false mS eS ∧ S * u = finite sR mR eR ∧
      0 ≤ toRat (finite sR mR eR) ∧ toRat (finite sR mR eR) < toRat (finite false mS eS) := by
  obtain ⟨mS, eS, rfl, hS⟩ := normal_cases S hmin hfin
  obtain ⟨su, mu, eu, rfl, h0, h1⟩ := draw_cases u hu0 hu1
  have hmu : mu < 2 ^ 53 := by
    simp only [isBinary64, Bool.and_eq_true, decide_eq_true_eq] at hu
    exact hu.1.1
  obtain ⟨sR, mR, eR, e1, e2, e3⟩ :=
    mul_lt_self mS eS su mu eu (hSb false mS eS rfl) hS hmu h0 h1
  exact ⟨mS, eS, sR, mR, eR, rfl, e1, e2, e3⟩

/-- Of two finite doubles, the first is below the second or the second is at most
the first. -/
theorem le_of_not_lt (x y : Double) (hx : ∃ s m e, x = finite s m e)
    (hy : ∃ s m e, y = finite s m e) (h : ¬ (x < y)) : y ≤ x := by
  obtain ⟨s, m, e, rfl⟩ := hx
  obtain ⟨s', m', e', rfl⟩ := hy
  rw [lt_def, lt_finite_iff] at h
  rw [le_def, le_finite_iff]
  exact not_lt.mp h

/-- A double is not below one that is at most it. -/
theorem not_lt_of_le (x y : Double) (h : y ≤ x) : ¬ (x < y) := by
  rw [le_def] at h
  rw [lt_def]
  cases x with
  | nan => simp [lt]
  | inf sx =>
    cases y with
    | nan => simp [lt]
    | inf sy => cases sx <;> cases sy <;> simp [le, lt] at h ⊢
    | finite sy my ey => cases sx <;> simp [le, lt] at h ⊢
  | finite sx mx ex =>
    cases y with
    | nan => simp [lt]
    | inf sy => cases sy <;> simp [le, lt] at h ⊢
    | finite sy my ey =>
      rw [le_finite_iff] at h
      rw [lt_finite_iff]
      exact not_lt.mpr h

/-- The order of finite doubles is transitive. -/
theorem le_trans_finite (x y z : Double) (hx : ∃ s m e, x = finite s m e)
    (hy : ∃ s m e, y = finite s m e) (hz : ∃ s m e, z = finite s m e)
    (h1 : x ≤ y) (h2 : y ≤ z) : x ≤ z := by
  obtain ⟨s, m, e, rfl⟩ := hx
  obtain ⟨s', m', e', rfl⟩ := hy
  obtain ⟨s'', m'', e'', rfl⟩ := hz
  rw [le_def, le_finite_iff] at h1 h2 ⊢
  exact le_trans h1 h2

/-- A finite running sum is not lowered by a content that is not negative. -/
theorem le_add_of_nonneg (c f : Double)
    (hc : ∀ s m e, c = finite s m e →
      m < 2 ^ 53 ∧ -1074 ≤ e ∧ (m : ℚ) * (2 : ℚ) ^ e < (2 : ℚ) ^ (1024 : ℤ))
    (hf : 0 ≤ f) (hfin : ∃ s m e, c + f = finite s m e) : c ≤ c + f := by
  obtain ⟨s, m, e, hsum⟩ := hfin
  obtain ⟨⟨sc, mc, ec, rfl⟩, ⟨sf, mf, ef, rfl⟩⟩ := finite_of_add c f s m e hsum
  obtain ⟨h1, h2, h3⟩ := hc sc mc ec rfl
  rw [le_def, zero_def, le_finite_iff, toRat_zero] at hf
  rw [add_def] at hsum ⊢
  rcases add_finite_ge sc mc ec sf mf ef h1 h2 h3 hf with hinf | ⟨s', m', e', e1, e2, _⟩
  · rw [hinf] at hsum
    cases hsum
  · rw [e1, le_def, le_finite_iff]
    exact e2

end Double
end cxx

namespace genie
namespace flux

open GBartolAtmoFlux

/-! ## `SelectNeutrino` in any arithmetic -/

/-- With four species histograms present, the first loop reads their four bin
contents. -/
theorem binFluxes_of_some {γ : Type} [Zero γ] [LT γ] [LE γ]
    [DecidableRel (fun a b : γ => a < b)] [DecidableRel (fun a b : γ => a ≤ b)]
    (s : GBartolAtmoFlux γ) (Ev costheta : γ) (h0 h1 h2 h3 : TH2D γ)
    (e0 : s.fFlux2D 0 = some h0) (e1 : s.fFlux2D 1 = some h1)
    (e2 : s.fFlux2D 2 = some h2) (e3 : s.fFlux2D 3 = some h3) :
    binFluxes s Ev costheta =
      some [h0.GetBinContent (h0.FindBin Ev costheta), h1.GetBinContent (h1.FindBin Ev costheta),
        h2.GetBinContent (h2.FindBin Ev costheta), h3.GetBinContent (h3.FindBin Ev costheta)] := by
  simp [binFluxes, binFluxesFrom, kNNu, e0, e1, e2, e3]

/-- The four bin contents of `binDriver`. -/
theorem binFluxes_binDriver {γ : Type} [Zero γ] [One γ] [LT γ] [LE γ]
    [DecidableRel (fun a b : γ => a < b)] [DecidableRel (fun a b : γ => a ≤ b)]
    (f0 f1 f2 f3 Ev costheta : γ) :
    binFluxes (binDriver f0 f1 f2 f3) Ev costheta = some [f0, f1, f2, f3] := by
  simp [binFluxes, binFluxesFrom, kNNu, binDriver, TH2D.GetBinContent]

section SelectArithmetic

variable {γ : Type} [Zero γ] [Add γ] [Mul γ] [LT γ] [LE γ]
  [DecidableRel (fun a b : γ => a < b)] [DecidableRel (fun a b : γ => a ≤ b)]

/-- The three loops of `SelectNeutrino` on four bin contents, unrolled: the running
sums are `0 + f0`, `0 + f0 + f1` and so on, as the second loop computes them,
and `R` is the product of the last one and the draw. -/
theorem SelectNeutrino_loops (s : GBartolAtmoFlux γ) (Ev costheta u f0 f1 f2 f3 : γ)
    (hbin : binFluxes s Ev costheta = some [f0, f1, f2, f3]) :
    SelectNeutrino s Ev costheta u =
      if (0 + f0 + f1 + f2 + f3) * u < 0 + f0 then .ok 0
      else if (0 + f0 + f1 + f2 + f3) * u < 0 + f0 + f1 then .ok 1
      else if (0 + f0 + f1 + f2 + f3) * u < 0 + f0 + f1 + f2 then .ok 2
      else if (0 + f0 + f1 + f2 + f3) * u < 0 + f0 + f1 + f2 + f3 then .ok 3
      else .error Abort.assertNoSpecies := by
  simp only [SelectNeutrino, hbin, fluxSum, runningSums, firstAbove, List.foldl]
  split_ifs <;> rfl

/-- The index `SelectNeutrino` returns is the first one whose running sum, as the
code computes it, is above `R = flux_sum * u`. -/
theorem SelectNeutrino_ok_iff (s : GBartolAtmoFlux γ) (Ev costheta u f0 f1 f2 f3 : γ)
    (hbin : binFluxes s Ev costheta = some [f0, f1, f2, f3]) (i : Nat) :
    SelectNeutrino s Ev costheta u = .ok i ↔
      i < 4 ∧ fluxSum [f0, f1, f2, f3] * u < fluxSum ([f0, f1, f2, f3].take (i + 1)) ∧
      ∀ j, j < i → ¬ (fluxSum [f0, f1, f2, f3] * u < fluxSum ([f0, f1, f2, f3].take (j + 1))) := by
  rw [SelectNeutrino_loops s Ev costheta u f0 f1 f2 f3 hbin]
  have e : fluxSum [f0, f1, f2, f3] = 0 + f0 + f1 + f2 + f3 := rfl
  have t0 : fluxSum ([f0, f1, f2, f3].take 1) = 0 + f0 := rfl
  have t1 : fluxSum ([f0, f1, f2, f3].take 2) = 0 + f0 + f1 := rfl
  have t2 : fluxSum ([f0, f1, f2, f3].take 3) = 0 + f0 + f1 + f2 := rfl
  have t3 : fluxSum ([f0, f1, f2, f3].take 4) = 0 + f0 + f1 + f2 + f3 := rfl
  rw [e]
  constructor
  · intro h
    split_ifs at h with c0 c1 c2 c3
    · simp only [Except.ok.injEq] at h
      subst h
      exact ⟨by norm_num, by rw [t0]; exact c0, fun j hj => by omega⟩
    · simp only [Except.ok.injEq] at h
      subst h
      refine ⟨by norm_num, by rw [t1]; exact c1, fun j hj => ?_⟩
      interval_cases j
      rw [t0]; exact c0
    · simp only [Except.ok.injEq] at h
      subst h
      refine ⟨by norm_num, by rw [t2]; exact c2, fun j hj => ?_⟩
      interval_cases j
      · rw [t0]; exact c0
      · rw [t1]; exact c1
    · simp only [Except.ok.injEq] at h
      subst h
      refine ⟨by norm_num, by rw [t3]; exact c3, fun j hj => ?_⟩
      interval_cases j
      · rw [t0]; exact c0
      · rw [t1]; exact c1
      · rw [t2]; exact c2
  · rintro ⟨hi, hlt, hfirst⟩
    interval_cases i
    · rw [t0] at hlt
      rw [if_pos hlt]
    · rw [t1] at hlt
      have c0 := hfirst 0 (by norm_num)
      rw [t0] at c0
      rw [if_neg c0, if_pos hlt]
    · rw [t2] at hlt
      have c0 := hfirst 0 (by norm_num)
      have c1 := hfirst 1 (by norm_num)
      rw [t0] at c0
      rw [t1] at c1
      rw [if_neg c0, if_neg c1, if_pos hlt]
    · rw [t3] at hlt
      have c0 := hfirst 0 (by norm_num)
      have c1 := hfirst 1 (by norm_num)
      have c2 := hfirst 2 (by norm_num)
      rw [t0] at c0
      rw [t1] at c1
      rw [t2] at c2
      rw [if_neg c0, if_neg c1, if_neg c2, if_pos hlt]

/-- The assertion of `SelectNeutrino` is reached exactly when no running sum, as the
code computes it, is above `R = flux_sum * u`. -/
theorem SelectNeutrino_assert_iff (s : GBartolAtmoFlux γ) (Ev costheta u f0 f1 f2 f3 : γ)
    (hbin : binFluxes s Ev costheta = some [f0, f1, f2, f3]) :
    SelectNeutrino s Ev costheta u = .error Abort.assertNoSpecies ↔
      ∀ j, j < 4 → ¬ (fluxSum [f0, f1, f2, f3] * u < fluxSum ([f0, f1, f2, f3].take (j + 1))) := by
  rw [SelectNeutrino_loops s Ev costheta u f0 f1 f2 f3 hbin]
  have e : fluxSum [f0, f1, f2, f3] = 0 + f0 + f1 + f2 + f3 := rfl
  have t0 : fluxSum ([f0, f1, f2, f3].take 1) = 0 + f0 := rfl
  have t1 : fluxSum ([f0, f1, f2, f3].take 2) = 0 + f0 + f1 := rfl
  have t2 : fluxSum ([f0, f1, f2, f3].take 3) = 0 + f0 + f1 + f2 := rfl
  have t3 : fluxSum ([f0, f1, f2, f3].take 4) = 0 + f0 + f1 + f2 + f3 := rfl
  rw [e]
  constructor
  · intro h j hj
    split_ifs at h with c0 c1 c2 c3
    interval_cases j
    · rw [t0]; exact c0
    · rw [t1]; exact c1
    · rw [t2]; exact c2
    · rw [t3]; exact c3
  · intro h
    have c0 := h 0 (by norm_num)
    have c1 := h 1 (by norm_num)
    have c2 := h 2 (by norm_num)
    have c3 := h 3 (by norm_num)
    rw [t0] at c0
    rw [t1] at c1
    rw [t2] at c2
    rw [t3] at c3
    rw [if_neg c0, if_neg c1, if_neg c2, if_neg c3]

end SelectArithmetic

/-! ## `SelectNeutrino` in the arithmetic of the code -/

section DoubleArithmetic

open cxx

/-- In the arithmetic of the code `0.0 * u` is never below `0.0`: it is a zero
or, for an infinite or NaN `u`, a NaN. -/
theorem zero_mul_not_lt_double (u : Double) : ¬ ((0 : Double) * u < 0) := by
  change ¬ (Double.lt (Double.mul (Double.finite false 0 0) u) (Double.finite false 0 0) = true)
  cases u with
  | finite neg m e =>
    cases neg <;> simp [Double.mul, Double.round, Double.lt, Double.signed]
  | inf neg => simp [Double.mul, Double.lt]
  | nan => simp [Double.mul, Double.lt]

/-- On an empty bin, in the arithmetic of the code, `SelectNeutrino` reaches its
assertion whatever the draw. -/
theorem SelectNeutrino_zero_bin_double (s : GBartolAtmoFlux Double) (Ev costheta u : Double)
    (hbin : binFluxes s Ev costheta = some [0, 0, 0, 0]) :
    SelectNeutrino s Ev costheta u = .error Abort.assertNoSpecies := by
  rw [SelectNeutrino_loops s Ev costheta u 0 0 0 0 hbin]
  have z : (0 + 0 : Double) = 0 := rfl
  simp only [z, if_neg (zero_mul_not_lt_double u)]

/-- A running sum of `SelectNeutrino`, when finite, fits in binary64. -/
theorem runningSum_shape (a b : Double) (s : Bool) (m : Nat) (e : Int)
    (h : a + b = Double.finite s m e) :
    m < 2 ^ 53 ∧ -1074 ≤ e ∧ (m : ℚ) * (2 : ℚ) ^ e < (2 : ℚ) ^ (1024 : ℤ) :=
  Double.add_shape a b s m e h

/-- In the arithmetic of the code, with a positive `flux_sum` and a draw that is not
negative, an index that `SelectNeutrino` returns is below 4 and the content of its
species in the bin is positive. -/
theorem SelectNeutrino_positive_content_double (s : GBartolAtmoFlux Double)
    (Ev costheta u d0 d1 d2 d3 : Double)
    (hbin : binFluxes s Ev costheta = some [d0, d1, d2, d3])
    (hS : 0 < fluxSum [d0, d1, d2, d3]) (hu0 : 0 ≤ u) (i : Nat)
    (h : SelectNeutrino s Ev costheta u = .ok i) :
    i < 4 ∧ 0 < [d0, d1, d2, d3].getD i 0 := by
  obtain ⟨hi, hlt, hfirst⟩ := (SelectNeutrino_ok_iff s Ev costheta u d0 d1 d2 d3 hbin i).1 h
  refine ⟨hi, ?_⟩
  by_contra hf
  have hzero : ∀ (sz : Bool) (m : Nat) (e : Int), (0 : Double) = Double.finite sz m e →
      m < 2 ^ 53 ∧ -1074 ≤ e ∧ (m : ℚ) * (2 : ℚ) ^ e < (2 : ℚ) ^ (1024 : ℤ) := by
    intro sz m e hz
    rw [Double.zero_def] at hz
    simp only [Double.finite.injEq] at hz
    obtain ⟨_, rfl, rfl⟩ := hz
    refine ⟨by norm_num, by norm_num, ?_⟩
    simp only [Nat.cast_zero, zero_mul]; positivity
  interval_cases i
  · have hlt0 : fluxSum [d0, d1, d2, d3] * u < 0 + d0 := hlt
    exact Double.mul_not_lt_zero _ _ hS hu0
      (Double.lt_of_lt_add_of_not_pos _ 0 d0 hzero hf hlt0)
  · have hlt1 : fluxSum [d0, d1, d2, d3] * u < 0 + d0 + d1 := hlt
    exact hfirst 0 (by norm_num)
      (Double.lt_of_lt_add_of_not_pos _ (0 + d0) d1 (runningSum_shape 0 d0) hf hlt1)
  · have hlt2 : fluxSum [d0, d1, d2, d3] * u < 0 + d0 + d1 + d2 := hlt
    exact hfirst 1 (by norm_num)
      (Double.lt_of_lt_add_of_not_pos _ (0 + d0 + d1) d2 (runningSum_shape (0 + d0) d1) hf hlt2)
  · have hlt3 : fluxSum [d0, d1, d2, d3] * u < 0 + d0 + d1 + d2 + d3 := hlt
    exact hfirst 2 (by norm_num)
      (Double.lt_of_lt_add_of_not_pos _ (0 + d0 + d1 + d2) d3
        (runningSum_shape (0 + d0 + d1) d2) hf hlt3)

/-- In the arithmetic of the code, with a finite `flux_sum` above `DBL_MIN` and a
binary64 draw in `[0, 1)`, the product `R = flux_sum * u` is below `flux_sum`, the
last running sum, and `SelectNeutrino` returns an index. -/
theorem SelectNeutrino_returns_double (s : GBartolAtmoFlux Double)
    (Ev costheta u d0 d1 d2 d3 : Double)
    (hbin : binFluxes s Ev costheta = some [d0, d1, d2, d3])
    (hmin : double_min < fluxSum [d0, d1, d2, d3])
    (hfin : fluxSum [d0, d1, d2, d3] < Double.inf false)
    (hu : u.isBinary64 = true) (hu0 : 0 ≤ u) (hu1 : u < 1) :
    fluxSum [d0, d1, d2, d3] * u < fluxSum [d0, d1, d2, d3] ∧
    ∃ i, i < 4 ∧ SelectNeutrino s Ev costheta u = .ok i := by
  have hshape : ∀ sz m e, fluxSum [d0, d1, d2, d3] = Double.finite sz m e →
      (m : ℚ) * (2 : ℚ) ^ e < (2 : ℚ) ^ (1024 : ℤ) :=
    fun sz m e hz => (runningSum_shape (0 + d0 + d1 + d2) d3 sz m e hz).2.2
  obtain ⟨mS, eS, sR, mR, eR, eS1, eR1, _, hlt⟩ :=
    Double.mul_draw (fluxSum [d0, d1, d2, d3]) u hshape hmin hfin hu hu0 hu1
  have hRS : fluxSum [d0, d1, d2, d3] * u < fluxSum [d0, d1, d2, d3] := by
    rw [eR1, eS1, Double.lt_def, Double.lt_finite_iff]
    exact hlt
  refine ⟨hRS, ?_⟩
  rw [SelectNeutrino_loops s Ev costheta u d0 d1 d2 d3 hbin]
  have e : fluxSum [d0, d1, d2, d3] = 0 + d0 + d1 + d2 + d3 := rfl
  rw [e] at hRS
  split_ifs
  · exact ⟨0, by norm_num, rfl⟩
  · exact ⟨1, by norm_num, rfl⟩
  · exact ⟨2, by norm_num, rfl⟩
  · exact ⟨3, by norm_num, rfl⟩

/-- Inverse sampling in the arithmetic of the code. With a finite `flux_sum` above
`DBL_MIN` and a binary64 draw in `[0, 1)`, `SelectNeutrino` returns the smallest index
`i < 4` with `R < c_i`, for the running sums `c_i` and the product `R = flux_sum * u` as
the code computes them, and `c_(i-1) <= R < c_i` for it (with `c_(-1) = 0`); for
contents that are not negative it returns `i` exactly when
`c_(i-1) <= R < c_i`. -/
theorem SelectNeutrino_inverse_sampling_double (s : GBartolAtmoFlux Double)
    (Ev costheta u d0 d1 d2 d3 : Double)
    (hbin : binFluxes s Ev costheta = some [d0, d1, d2, d3])
    (hmin : double_min < fluxSum [d0, d1, d2, d3])
    (hfin : fluxSum [d0, d1, d2, d3] < Double.inf false)
    (hu : u.isBinary64 = true) (hu0 : 0 ≤ u) (hu1 : u < 1) :
    (∃ i, i < 4 ∧ SelectNeutrino s Ev costheta u = .ok i ∧
      fluxSum [d0, d1, d2, d3] * u < fluxSum ([d0, d1, d2, d3].take (i + 1)) ∧
      (∀ j, j < i →
        ¬ (fluxSum [d0, d1, d2, d3] * u < fluxSum ([d0, d1, d2, d3].take (j + 1)))) ∧
      fluxSum ([d0, d1, d2, d3].take i) ≤ fluxSum [d0, d1, d2, d3] * u) ∧
    (0 ≤ d0 → 0 ≤ d1 → 0 ≤ d2 → 0 ≤ d3 → ∀ k, k < 4 →
      (SelectNeutrino s Ev costheta u = .ok k ↔
        fluxSum ([d0, d1, d2, d3].take k) ≤ fluxSum [d0, d1, d2, d3] * u ∧
          fluxSum [d0, d1, d2, d3] * u < fluxSum ([d0, d1, d2, d3].take (k + 1)))) := by
  have hshape : ∀ sz m e, fluxSum [d0, d1, d2, d3] = Double.finite sz m e →
      (m : ℚ) * (2 : ℚ) ^ e < (2 : ℚ) ^ (1024 : ℤ) :=
    fun sz m e hz => (runningSum_shape (0 + d0 + d1 + d2) d3 sz m e hz).2.2
  obtain ⟨mS, eS, sR, mR, eR, eS1, eR1, hR0, _⟩ :=
    Double.mul_draw (fluxSum [d0, d1, d2, d3]) u hshape hmin hfin hu hu0 hu1
  obtain ⟨_, i, hi, hsel⟩ :=
    SelectNeutrino_returns_double s Ev costheta u d0 d1 d2 d3 hbin hmin hfin hu hu0 hu1
  -- the running sums and `R` are finite
  have F3 : ∃ sz m e, (0 + d0 + d1 + d2 + d3 : Double) = Double.finite sz m e :=
    ⟨false, mS, eS, eS1⟩
  have F2 : ∃ sz m e, (0 + d0 + d1 + d2 : Double) = Double.finite sz m e := by
    obtain ⟨sz, m, e, h⟩ := F3
    exact (Double.finite_of_add _ _ sz m e h).1
  have F1 : ∃ sz m e, (0 + d0 + d1 : Double) = Double.finite sz m e := by
    obtain ⟨sz, m, e, h⟩ := F2
    exact (Double.finite_of_add _ _ sz m e h).1
  have F0 : ∃ sz m e, (0 + d0 : Double) = Double.finite sz m e := by
    obtain ⟨sz, m, e, h⟩ := F1
    exact (Double.finite_of_add _ _ sz m e h).1
  have FR : ∃ sz m e, fluxSum [d0, d1, d2, d3] * u = Double.finite sz m e := ⟨sR, mR, eR, eR1⟩
  have hzR : (0 : Double) ≤ fluxSum [d0, d1, d2, d3] * u := by
    rw [eR1, Double.le_def, Double.zero_def, Double.le_finite_iff, Double.toRat_zero]
    exact hR0
  have t0 : fluxSum ([d0, d1, d2, d3].take 0) = 0 := rfl
  have t1 : fluxSum ([d0, d1, d2, d3].take 1) = 0 + d0 := rfl
  have t2 : fluxSum ([d0, d1, d2, d3].take 2) = 0 + d0 + d1 := rfl
  have t3 : fluxSum ([d0, d1, d2, d3].take 3) = 0 + d0 + d1 + d2 := rfl
  have t4 : fluxSum ([d0, d1, d2, d3].take 4) = 0 + d0 + d1 + d2 + d3 := rfl
  have hprev : ∀ k, k < 4 →
      (∀ j, j < k →
        ¬ (fluxSum [d0, d1, d2, d3] * u < fluxSum ([d0, d1, d2, d3].take (j + 1)))) →
      fluxSum ([d0, d1, d2, d3].take k) ≤ fluxSum [d0, d1, d2, d3] * u := by
    intro k hk hfirst
    interval_cases k
    · rw [t0]; exact hzR
    · have := hfirst 0 (by norm_num)
      rw [t1] at this ⊢
      exact Double.le_of_not_lt _ _ FR F0 this
    · have := hfirst 1 (by norm_num)
      rw [t2] at this ⊢
      exact Double.le_of_not_lt _ _ FR F1 this
    · have := hfirst 2 (by norm_num)
      rw [t3] at this ⊢
      exact Double.le_of_not_lt _ _ FR F2 this
  constructor
  · obtain ⟨_, hlt, hfirst⟩ := (SelectNeutrino_ok_iff s Ev costheta u d0 d1 d2 d3 hbin i).1 hsel
    exact ⟨i, hi, hsel, hlt, hfirst, hprev i hi hfirst⟩
  · intro n0 n1 n2 n3 k hk
    have m01 : (0 + d0 : Double) ≤ 0 + d0 + d1 :=
      Double.le_add_of_nonneg _ _ (runningSum_shape 0 d0) n1 F1
    have m12 : (0 + d0 + d1 : Double) ≤ 0 + d0 + d1 + d2 :=
      Double.le_add_of_nonneg _ _ (runningSum_shape (0 + d0) d1) n2 F2
    have m02 : (0 + d0 : Double) ≤ 0 + d0 + d1 + d2 :=
      Double.le_trans_finite _ _ _ F0 F1 F2 m01 m12
    rw [SelectNeutrino_ok_iff s Ev costheta u d0 d1 d2 d3 hbin k]
    constructor
    · rintro ⟨_, hlt, hfirst⟩
      exact ⟨hprev k hk hfirst, hlt⟩
    · rintro ⟨hle, hlt⟩
      refine ⟨hk, hlt, ?_⟩
      intro j hj
      interval_cases k
      · omega
      · interval_cases j
        rw [t1] at hle ⊢
        exact Double.not_lt_of_le _ _ hle
      · rw [t2] at hle
        interval_cases j
        · rw [t1]
          exact Double.not_lt_of_le _ _ (Double.le_trans_finite _ _ _ F0 F1 FR m01 hle)
        · rw [t2]
          exact Double.not_lt_of_le _ _ hle
      · rw [t3] at hle
        interval_cases j
        · rw [t1]
          exact Double.not_lt_of_le _ _ (Double.le_trans_finite _ _ _ F0 F2 FR m02 hle)
        · rw [t2]
          exact Double.not_lt_of_le _ _ (Double.le_trans_finite _ _ _ F1 F2 FR m12 hle)
        · rw [t3]
          exact Double.not_lt_of_le _ _ hle

end DoubleArithmetic

/-! ## `LoadFluxData` and `GenerateNext` in any arithmetic -/

/-- The reading loop of `FillFluxHisto2D` keeps the name of the histogram. -/
theorem GBartolAtmoFlux.fillRows_fName {γ : Type} [Zero γ] [Add γ] [Div γ] [LT γ] [LE γ]
    [DecidableRel (fun a b : γ => a < b)] [DecidableRel (fun a b : γ => a ≤ b)]
    (stream : FluxStream γ) (kNLines : Nat) (h : TH2D γ) :
    (fillRows stream kNLines h).fName = h.fName := by
  unfold fillRows
  generalize List.range kNLines = ks
  induction ks generalizing h with
  | nil => rfl
  | cons k ks ih => rw [List.foldl_cons, ih]; rfl

section LoadArithmetic

variable {γ : Type} [Zero γ] [One γ] [Add γ] [Sub γ] [Div γ] [LT γ] [LE γ]
  [DecidableRel (fun a b : γ => a < b)] [DecidableRel (fun a b : γ => a ≤ b)] [OfNat γ 10000]

/-- Function `ZeroFluxHisto2D` keeps the name of the histogram. -/
theorem GBartolAtmoFlux.ZeroFluxHisto2D_fName (T : GBrtTables γ) (h : TH2D γ) :
    (ZeroFluxHisto2D T h).fName = h.fName := by
  unfold ZeroFluxHisto2D
  have inner : ∀ (cs : List γ) (e : γ) (g : TH2D γ),
      (cs.foldl (fun h c => h.Fill (e - 1 / 10000) (c - 1 / 10000) 0) g).fName = g.fName := by
    intro cs e
    induction cs with
    | nil => intro g; rfl
    | cons c cs ih => intro g; rw [List.foldl_cons, ih]; rfl
  generalize T.kGBrtEv = es
  induction es generalizing h with
  | nil => rfl
  | cons e es ih => rw [List.foldl_cons, ih, inner]

/-- Function `FillFluxHisto2D` touches no data member other than `fNSkipped`, and the
histogram it leaves has the name of the one it was given. -/
theorem GBartolAtmoFlux.FillFluxHisto2D_fName (T : GBrtTables γ) (fs : FileSystem γ)
    (s s' : GBartolAtmoFlux γ) (histo h' : Option (TH2D γ)) (filename : String) (l : Bool)
    (hcall : FillFluxHisto2D T fs s histo filename = .ok (l, s', h')) :
    s'.fFlux2D = s.fFlux2D ∧ s'.fFluxFile = s.fFluxFile ∧ s'.fPdgCList = s.fPdgCList ∧
    ∀ h, histo = some h → ∃ g, h' = some g ∧ g.fName = h.fName := by
  rcases histo with _ | h0
  · simp only [FillFluxHisto2D, Except.ok.injEq, Prod.mk.injEq] at hcall
    obtain ⟨_, hs, _⟩ := hcall
    subst hs
    exact ⟨rfl, rfl, rfl, fun h hh => by simp at hh⟩
  · unfold FillFluxHisto2D at hcall
    simp only at hcall
    by_cases he : filename.length = 0
    · rw [if_pos he] at hcall
      split_ifs at hcall
      simp only [Except.ok.injEq, Prod.mk.injEq] at hcall
      obtain ⟨_, hs, hh⟩ := hcall
      subst hs
      refine ⟨rfl, rfl, rfl, fun h hh0 => ?_⟩
      simp only [Option.some.injEq] at hh0
      subst hh0
      exact ⟨_, hh.symm, ZeroFluxHisto2D_fName T h0⟩
    · rw [if_neg he] at hcall
      cases hf : fs filename with
      | none =>
        rw [hf] at hcall
        simp only [Except.ok.injEq, Prod.mk.injEq] at hcall
        obtain ⟨_, hs, hh⟩ := hcall
        subst hs
        refine ⟨rfl, rfl, rfl, fun h hh0 => ?_⟩
        simp only [Option.some.injEq] at hh0
        subst hh0
        exact ⟨_, hh.symm, rfl⟩
      | some stream =>
        rw [hf] at hcall
        simp only [Except.ok.injEq, Prod.mk.injEq] at hcall
        obtain ⟨_, hs, hh⟩ := hcall
        subst hs
        refine ⟨rfl, rfl, rfl, fun h hh0 => ?_⟩
        simp only [Option.some.injEq] at hh0
        subst hh0
        exact ⟨_, hh.symm, fillRows_fName stream _ h0⟩

/-- The loop of `LoadFluxData` keeps the flux-particle list and the name of every
histogram. -/
theorem GBartolAtmoFlux.loadLoop_fName (T : GBrtTables γ) (fs : FileSystem γ) :
    ∀ (n iflux : Nat) (st : Bool) (s : GBartolAtmoFlux γ) (b : Bool) (s' : GBartolAtmoFlux γ),
      loadLoop T fs n iflux st s = .ok (b, s') →
      s'.fPdgCList = s.fPdgCList ∧
      ∀ j h, s.fFlux2D j = some h → ∃ g, s'.fFlux2D j = some g ∧ g.fName = h.fName := by
  intro n
  induction n with
  | zero =>
    intro iflux st s b s' h
    simp only [loadLoop, Except.ok.injEq, Prod.mk.injEq] at h
    obtain ⟨_, hs⟩ := h
    subst hs
    exact ⟨rfl, fun j h hj => ⟨h, hj, rfl⟩⟩
  | succ n ih =>
    intro iflux st s b s' h
    rw [loadLoop] at h
    cases hr : FillFluxHisto2D T fs s (s.fFlux2D iflux) (s.fFluxFile iflux) with
    | error e0 => rw [hr] at h; simp at h
    | ok r =>
      obtain ⟨l, s1, h1⟩ := r
      rw [hr] at h
      obtain ⟨hflux, _, hlist, hname⟩ := FillFluxHisto2D_fName T fs s s1 _ h1 _ l hr
      obtain ⟨hl', hn'⟩ := ih _ _ _ b s' h
      refine ⟨by rw [hl']; exact hlist, fun j g hj => ?_⟩
      by_cases hji : j = iflux
      · subst hji
        obtain ⟨g1, hg1, hn1⟩ := hname g hj
        obtain ⟨g2, hg2, hn2⟩ := hn' j g1 (by simp only [Function.update_same]; exact hg1)
        exact ⟨g2, hg2, by rw [hn2, hn1]⟩
      · exact hn' j g (by simp only [Function.update_noteq hji]; rw [hflux]; exact hj)

/-- The species histograms `LoadFluxData` leaves are named `numu`, `numubar`, `nue` and
`nuebar`, in this order, and the flux-particle list is not touched. -/
theorem GBartolAtmoFlux.LoadFluxData_fName (T : GBrtTables γ) (fs : FileSystem γ)
    (s : GBartolAtmoFlux γ) (b : Bool) (s' : GBartolAtmoFlux γ)
    (h : LoadFluxData T fs s = .ok (b, s')) :
    s'.fPdgCList = s.fPdgCList ∧
    ∀ j, j < 4 → ∃ g, s'.fFlux2D j = some g ∧
      ["numu", "numubar", "nue", "nuebar"].get? j = some g.fName := by
  unfold LoadFluxData at h
  simp only at h
  cases hr : loadLoop T fs kNNu 0 true (createFluxHistos T s) with
  | error e => rw [hr] at h; simp at h
  | ok r =>
    obtain ⟨st, s1⟩ := r
    rw [hr] at h
    simp only at h
    obtain ⟨hlist, hname⟩ := loadLoop_fName T fs kNNu 0 true _ st s1 hr
    have hs' : s'.fPdgCList = s1.fPdgCList ∧ s'.fFlux2D = s1.fFlux2D := by
      split_ifs at h <;>
        (simp only [Except.ok.injEq, Prod.mk.injEq] at h
         obtain ⟨_, hs⟩ := h
         subst hs
         exact ⟨rfl, rfl⟩)
    refine ⟨by rw [hs'.1, hlist]; rfl, fun j hj => ?_⟩
    rw [hs'.2]
    interval_cases j
    · obtain ⟨g, hg, hn⟩ := hname 0 (CreateFluxHisto2D T "numu" "GBartol 3D flux: numu")
        (by simp [createFluxHistos, Function.update])
      exact ⟨g, hg, by rw [hn]; rfl⟩
    · obtain ⟨g, hg, hn⟩ := hname 1 (CreateFluxHisto2D T "numubar" "GBartol 3D flux: numubar")
        (by simp [createFluxHistos, Function.update])
      exact ⟨g, hg, by rw [hn]; rfl⟩
    · obtain ⟨g, hg, hn⟩ := hname 2 (CreateFluxHisto2D T "nue" "GBartol 3D flux: nue")
        (by simp [createFluxHistos, Function.update])
      exact ⟨g, hg, by rw [hn]; rfl⟩
    · obtain ⟨g, hg, hn⟩ := hname 3 (CreateFluxHisto2D T "nuebar" "GBartol 3D flux: nuebar")
        (by simp [createFluxHistos, Function.update])
      exact ⟨g, hg, by rw [hn]; rfl⟩

end LoadArithmetic

section GenerateArithmetic

variable {γ : Type} [Zero γ] [One γ] [Add γ] [Sub γ] [Mul γ] [Div γ] [Neg γ] [LT γ] [LE γ]
  [DecidableEq γ] [DecidableRel (fun a b : γ => a < b)] [DecidableRel (fun a b : γ => a ≤ b)]
  [OfNat γ 2]

/-- Function `GenerateNext` when the combined histogram exists, a species is selected and
its code is in the list: the call returns true and stores the code, the
momentum and the displaced position. -/
theorem GBartolAtmoFlux.GenerateNext_returns (M : TMath γ) (kPi : γ) (s : GBartolAtmoFlux γ)
    (d : Draws γ) (hs : TH2D γ) (iflux : Nat) (pdgc : Int)
    (hsum : s.fFluxSum2D = some hs)
    (hsel : SelectNeutrino s d.aEv d.aCos8 d.rSel = .ok iflux)
    (hpdg : s.fPdgCList.get? iflux = some pdgc) :
    GenerateNext M kPi s d = .ok (true,
      { s with
        fgPdgC := pdgc
        fgP4 := ⟨momentum M kPi d, d.aEv⟩
        fgX4 := ⟨⟨(surfacePoint M kPi s d).fX + (displacement M kPi s d).fX,
                  (surfacePoint M kPi s d).fY + (displacement M kPi s d).fY,
                  (surfacePoint M kPi s d).fZ + (displacement M kPi s d).fZ⟩, 0⟩ }) := by
  have hsel0 : SelectNeutrino (ResetSelection s) d.aEv d.aCos8 d.rSel = .ok iflux := hsel
  unfold GenerateNext
  simp only [hsel0]
  simp only [ResetSelection, hsum, hpdg]
  rfl

/-- When `GenerateNext` returns, the combined histogram exists, `SelectNeutrino`
returned an index with a code in the list, the returned flag is true and the
driver is the reset one with the code, the momentum and the displaced position
stored. -/
theorem GBartolAtmoFlux.GenerateNext_ok_inv (M : TMath γ) (kPi : γ) (s : GBartolAtmoFlux γ)
    (d : Draws γ) (b : Bool) (s' : GBartolAtmoFlux γ)
    (h : GenerateNext M kPi s d = .ok (b, s')) :
    ∃ hs iflux pdgc, s.fFluxSum2D = some hs ∧
      SelectNeutrino s d.aEv d.aCos8 d.rSel = .ok iflux ∧
      s.fPdgCList.get? iflux = some pdgc ∧ b = true ∧
      s' = { ResetSelection s with
        fgPdgC := pdgc
        fgP4 := ⟨momentum M kPi d, d.aEv⟩
        fgX4 := ⟨⟨(surfacePoint M kPi s d).fX + (displacement M kPi s d).fX,
                  (surfacePoint M kPi s d).fY + (displacement M kPi s d).fY,
                  (surfacePoint M kPi s d).fZ + (displacement M kPi s d).fZ⟩, 0⟩ } := by
  cases hsum : s.fFluxSum2D with
  | none => simp [GenerateNext, ResetSelection, hsum] at h
  | some hs =>
    cases hsel : SelectNeutrino s d.aEv d.aCos8 d.rSel with
    | error e =>
      have hsel0 : SelectNeutrino (ResetSelection s) d.aEv d.aCos8 d.rSel = .error e := hsel
      unfold GenerateNext at h
      simp only [hsel0] at h
      simp [ResetSelection, hsum] at h
    | ok iflux =>
      cases hpdg : s.fPdgCList.get? iflux with
      | none =>
        have hsel0 : SelectNeutrino (ResetSelection s) d.aEv d.aCos8 d.rSel = .ok iflux := hsel
        unfold GenerateNext at h
        simp only [hsel0] at h
        simp only [ResetSelection, hsum, hpdg] at h
        cases h
      | some pdgc =>
        rw [GenerateNext_returns M kPi s d hs iflux pdgc hsum hsel hpdg] at h
        simp only [Except.ok.injEq, Prod.mk.injEq] at h
        exact ⟨hs, iflux, pdgc, rfl, rfl, hpdg, h.1.symm, h.2.symm⟩

end GenerateArithmetic

/-! ## `SelectNeutrino` in exact arithmetic -/

variable {α : Type} [LinearOrderedField α]

/-- The three loops of `SelectNeutrino` on four bin contents, unrolled. -/
theorem SelectNeutrino_unrolled (s : GBartolAtmoFlux α) (Ev costheta u f0 f1 f2 f3 : α)
    (hbin : binFluxes s Ev costheta = some [f0, f1, f2, f3]) :
    SelectNeutrino s Ev costheta u =
      if (f0 + f1 + f2 + f3) * u < f0 then .ok 0
      else if (f0 + f1 + f2 + f3) * u < f0 + f1 then .ok 1
      else if (f0 + f1 + f2 + f3) * u < f0 + f1 + f2 then .ok 2
      else if (f0 + f1 + f2 + f3) * u < f0 + f1 + f2 + f3 then .ok 3
      else .error Abort.assertNoSpecies := by
  simp only [SelectNeutrino, hbin, fluxSum, runningSums, firstAbove, List.foldl, zero_add]
  split_ifs <;> rfl

/-- Dividing the bounds of a cumulative interval by a positive total. -/
theorem interval_div_iff (S u a f : α) (hS : 0 < S) :
    (a / S ≤ u ∧ u < a / S + f / S) ↔ (a ≤ S * u ∧ S * u < a + f) := by
  rw [← add_div, div_le_iff₀ hS, lt_div_iff₀ hS, mul_comm u S]

/-- Inverse sampling in exact arithmetic. For four bin contents `f0 .. f3` with
sum `S > 0` and a draw `0 ≤ u < 1`, `SelectNeutrino` returns the smallest index
`i < 4` with `S*u < f0+...+fi`, and that index satisfies
`f0+...+f(i-1) ≤ S*u < f0+...+fi`. For non-negative contents it returns `i`
exactly when `f0+...+f(i-1) ≤ S*u < f0+...+fi`, that is exactly when `u` lies in
the interval that starts at `(f0+...+f(i-1))/S` and has length `fi/S`. -/
theorem SelectNeutrino_inverse_sampling_exact (s : GBartolAtmoFlux α)
    (Ev costheta u f0 f1 f2 f3 : α)
    (hbin : binFluxes s Ev costheta = some [f0, f1, f2, f3])
    (hS : 0 < f0 + f1 + f2 + f3) (hu0 : 0 ≤ u) (hu1 : u < 1) :
    (∃ i, i < 4 ∧ SelectNeutrino s Ev costheta u = .ok i ∧
      (f0 + f1 + f2 + f3) * u < cumFlux [f0, f1, f2, f3] (i + 1) ∧
      (∀ j, j < i → ¬ (f0 + f1 + f2 + f3) * u < cumFlux [f0, f1, f2, f3] (j + 1)) ∧
      cumFlux [f0, f1, f2, f3] i ≤ (f0 + f1 + f2 + f3) * u) ∧
    (0 ≤ f0 → 0 ≤ f1 → 0 ≤ f2 → 0 ≤ f3 → ∀ k, k < 4 →
      (SelectNeutrino s Ev costheta u = .ok k ↔
        cumFlux [f0, f1, f2, f3] k ≤ (f0 + f1 + f2 + f3) * u ∧
          (f0 + f1 + f2 + f3) * u < cumFlux [f0, f1, f2, f3] (k + 1)) ∧
      (SelectNeutrino s Ev costheta u = .ok k ↔
        cumFlux [f0, f1, f2, f3] k / (f0 + f1 + f2 + f3) ≤ u ∧
          u < cumFlux [f0, f1, f2, f3] k / (f0 + f1 + f2 + f3)
                + [f0, f1, f2, f3].getD k 0 / (f0 + f1 + f2 + f3))) := by
  have hlt : (f0 + f1 + f2 + f3) * u < f0 + f1 + f2 + f3 := by
    simpa using mul_lt_mul_of_pos_left hu1 hS
  have hge : 0 ≤ (f0 + f1 + f2 + f3) * u := mul_nonneg hS.le hu0
  rw [SelectNeutrino_unrolled s Ev costheta u f0 f1 f2 f3 hbin]
  constructor
  · by_cases h0 : (f0 + f1 + f2 + f3) * u < f0
    · refine ⟨0, by norm_num, by simp [h0], by simpa [cumFlux] using h0, ?_, by simpa [cumFlux] using hge⟩
      intro j hj
      omega
    by_cases h1 : (f0 + f1 + f2 + f3) * u < f0 + f1
    · refine ⟨1, by norm_num, by simp [h0, h1], by simpa [cumFlux] using h1, ?_,
        by simpa [cumFlux] using h0⟩
      intro j hj
      interval_cases j
      simpa [cumFlux] using h0
    by_cases h2 : (f0 + f1 + f2 + f3) * u < f0 + f1 + f2
    · refine ⟨2, by norm_num, by simp [h0, h1, h2], ?_, ?_, ?_⟩
      · simp only [cumFlux, List.take, List.sum_cons, List.sum_nil]
        linarith
      · intro j hj
        interval_cases j
        · simpa [cumFlux] using h0
        · simpa [cumFlux] using h1
      · simpa [cumFlux] using h1
    · refine ⟨3, by norm_num, by simp [h0, h1, h2, hlt], ?_, ?_, ?_⟩
      · simp only [cumFlux, List.take, List.sum_cons, List.sum_nil]
        linarith
      · intro j hj
        interval_cases j
        · simpa [cumFlux] using h0
        · simpa [cumFlux] using h1
        · simp only [cumFlux, List.take, List.sum_cons, List.sum_nil]
          intro h
          exact h2 (by linarith)
      · simp only [cumFlux, List.take, List.sum_cons, List.sum_nil]
        linarith [not_lt.mp h2]
  · intro n0 n1 n2 n3 k hk
    have key : ((if (f0 + f1 + f2 + f3) * u < f0 then (.ok 0 : Except Abort Nat)
          else if (f0 + f1 + f2 + f3) * u < f0 + f1 then .ok 1
          else if (f0 + f1 + f2 + f3) * u < f0 + f1 + f2 then .ok 2
          else if (f0 + f1 + f2 + f3) * u < f0 + f1 + f2 + f3 then .ok 3
          else .error Abort.assertNoSpecies) = .ok k ↔
        cumFlux [f0, f1, f2, f3] k ≤ (f0 + f1 + f2 + f3) * u ∧
          (f0 + f1 + f2 + f3) * u < cumFlux [f0, f1, f2, f3] k + [f0, f1, f2, f3].getD k 0) := by
      interval_cases k <;>
        simp only [cumFlux, List.take, List.sum_cons, List.sum_nil, List.getD_cons_zero,
          List.getD_cons_succ] <;>
        split_ifs <;>
        simp only [Except.ok.injEq, reduceCtorEq, false_iff, true_iff, not_and, not_lt,
          OfNat.ofNat_ne_zero, OfNat.zero_ne_ofNat, OfNat.ofNat_ne_one, OfNat.one_ne_ofNat,
          Nat.reduceEqDiff, zero_ne_one, one_ne_zero] <;>
        first
          | (constructor <;> linarith)
          | (intro _; linarith)
    refine ⟨?_, ?_⟩
    · rw [key]
      have e : cumFlux [f0, f1, f2, f3] (k + 1)
          = cumFlux [f0, f1, f2, f3] k + [f0, f1, f2, f3].getD k 0 := by
        interval_cases k <;> simp [cumFlux] <;> ring
      rw [e]
    · rw [key, interval_div_iff _ _ _ _ hS]

/-- C1 (as amended): `SelectNeutrino` is cumulative-sum inverse sampling on the
running sums the code computes. In any arithmetic, that of `double` included,
with `c_i` the value of `flux_sum` after pass `i` of the second loop and
`R = flux_sum*u`, it returns `i` exactly when `i` is the smallest index below 4
with `R < c_i`, and it reaches its assertion exactly when there is no such
index. In the arithmetic of the code, for four bin contents whose sum
`flux_sum` is finite and above `DBL_MIN = 2^-1022` and a binary64 draw `0 ≤ u < 1`,
there is such an index, and `c_(i-1) ≤ R < c_i` for it (with `c_(-1) = 0`); for
contents that are not negative `SelectNeutrino` returns `i` exactly when
`c_(i-1) ≤ R < c_i`. Over the reals (in exact arithmetic), for four bin contents
`f0 .. f3` with sum `S > 0` and a draw `0 ≤ u < 1`, the index returned is the
smallest `i < 4` with `S*u < f0+...+fi`, and it satisfies
`f0+...+f(i-1) ≤ S*u < f0+...+fi`; for non-negative contents `SelectNeutrino`
returns `i` exactly when `f0+...+f(i-1) ≤ S*u < f0+...+fi`, that is exactly when
`u` lies in the interval that starts at `(f0+...+f(i-1))/S` and has length
`fi/S`. -/
theorem C1_SelectNeutrino_inverse_sampling {γ : Type} [Zero γ] [Add γ] [Mul γ] [LT γ] [LE γ]
    [DecidableRel (fun a b : γ => a < b)] [DecidableRel (fun a b : γ => a ≤ b)]
    (t : GBartolAtmoFlux γ) (Et ct v g0 g1 g2 g3 : γ)
    (hbint : binFluxes t Et ct = some [g0, g1, g2, g3])
    (z : GBartolAtmoFlux cxx.Double) (Ez cz w d0 d1 d2 d3 : cxx.Double)
    (hbinz : binFluxes z Ez cz = some [d0, d1, d2, d3])
    (hmin : double_min < fluxSum [d0, d1, d2, d3])
    (hfin : fluxSum [d0, d1, d2, d3] < cxx.Double.inf false)
    (hw : w.isBinary64 = true) (hw0 : 0 ≤ w) (hw1 : w < 1)
    (s : GBartolAtmoFlux α) (Ev costheta u f0 f1 f2 f3 : α)
    (hbin : binFluxes s Ev costheta = some [f0, f1, f2, f3])
    (hS : 0 < f0 + f1 + f2 + f3) (hu0 : 0 ≤ u) (hu1 : u < 1) :
    ((∀ i, SelectNeutrino t Et ct v = .ok i ↔
        i < 4 ∧ fluxSum [g0, g1, g2, g3] * v < fluxSum ([g0, g1, g2, g3].take (i + 1)) ∧
        ∀ j, j < i →
          ¬ (fluxSum [g0, g1, g2, g3] * v < fluxSum ([g0, g1, g2, g3].take (j + 1)))) ∧
      (SelectNeutrino t Et ct v = .error Abort.assertNoSpecies ↔
        ∀ j, j < 4 →
          ¬ (fluxSum [g0, g1, g2, g3] * v < fluxSum ([g0, g1, g2, g3].take (j + 1))))) ∧
    ((∃ i, i < 4 ∧ SelectNeutrino z Ez cz w = .ok i ∧
        fluxSum [d0, d1, d2, d3] * w < fluxSum ([d0, d1, d2, d3].take (i + 1)) ∧
        (∀ j, j < i →
          ¬ (fluxSum [d0, d1, d2, d3] * w < fluxSum ([d0, d1, d2, d3].take (j + 1)))) ∧
        fluxSum ([d0, d1, d2, d3].take i) ≤ fluxSum [d0, d1, d2, d3] * w) ∧
      (0 ≤ d0 → 0 ≤ d1 → 0 ≤ d2 → 0 ≤ d3 → ∀ k, k < 4 →
        (SelectNeutrino z Ez cz w = .ok k ↔
          fluxSum ([d0, d1, d2, d3].take k) ≤ fluxSum [d0, d1, d2, d3] * w ∧
            fluxSum [d0, d1, d2, d3] * w < fluxSum ([d0, d1, d2, d3].take (k + 1))))) ∧
    (∃ i, i < 4 ∧ SelectNeutrino s Ev costheta u = .ok i ∧
      (f0 + f1 + f2 + f3) * u < cumFlux [f0, f1, f2, f3] (i + 1) ∧
      (∀ j, j < i → ¬ (f0 + f1 + f2 + f3) * u < cumFlux [f0, f1, f2, f3] (j + 1)) ∧
      cumFlux [f0, f1, f2, f3] i ≤ (f0 + f1 + f2 + f3) * u) ∧
    (0 ≤ f0 → 0 ≤ f1 → 0 ≤ f2 → 0 ≤ f3 → ∀ k, k < 4 →
      (SelectNeutrino s Ev costheta u = .ok k ↔
        cumFlux [f0, f1, f2, f3] k ≤ (f0 + f1 + f2 + f3) * u ∧
          (f0 + f1 + f2 + f3) * u < cumFlux [f0, f1, f2, f3] (k + 1)) ∧
      (SelectNeutrino s Ev costheta u = .ok k ↔
        cumFlux [f0, f1, f2, f3] k / (f0 + f1 + f2 + f3) ≤ u ∧
          u < cumFlux [f0, f1, f2, f3] k / (f0 + f1 + f2 + f3)
                + [f0, f1, f2, f3].getD k 0 / (f0 + f1 + f2 + f3))) :=
  ⟨⟨fun i => SelectNeutrino_ok_iff t Et ct v g0 g1 g2 g3 hbint i,
      SelectNeutrino_assert_iff t Et ct v g0 g1 g2 g3 hbint⟩,
    SelectNeutrino_inverse_sampling_double z Ez cz w d0 d1 d2 d3 hbinz hmin hfin hw hw0 hw1,
    SelectNeutrino_inverse_sampling_exact s Ev costheta u f0 f1 f2 f3 hbin hS hu0 hu1⟩

set_option maxRecDepth 100000 in
/-- C1, the claim as stated fails, in three ways. In the arithmetic of the code,
with the bin contents `(1e308, 1e308, 0, 0)`, of positive sum, and the draw `0.5`,
the running sums overflow to infinity, `R` is infinite too, and `SelectNeutrino`
reaches its assertion instead of returning an index. With the bin contents
`(0.1, 0.2, 0.3, 0)` and the draw `0.5` the code returns 2, although for these
very numbers `S*u < f0+f1`, so that 1 is the smallest index of the claim (and is
what exact arithmetic returns). And in exact arithmetic, for contents of mixed
sign the claim's equivalence fails: with bin contents `(2, -1, 1, 0)` (sum 2)
and the draw `u = 3/4`, the value `S*u = 3/2` lies in `[f0+f1, f0+f1+f2) = [1, 2)`,
yet `SelectNeutrino` returns 0, not 2. -/
theorem C1_counterexample :
    (double_1e308.isBinary64 = true ∧ double_0_5.isBinary64 = true ∧
      (0 : ℚ) < double_1e308.toRat + double_1e308.toRat + 0 + 0 ∧
      (0 : ℚ) ≤ double_0_5.toRat ∧ double_0_5.toRat < 1 ∧
      binFluxes (binDriver double_1e308 double_1e308 0 0) 1 1
        = some [double_1e308, double_1e308, 0, 0] ∧
      SelectNeutrino (binDriver double_1e308 double_1e308 0 0) 1 1 double_0_5
        = .error Abort.assertNoSpecies) ∧
    (double_0_1.isBinary64 = true ∧ double_0_2.isBinary64 = true ∧
      double_0_3.isBinary64 = true ∧
      |double_0_1.toRat - 1 / 10| < 1 / 2 ^ 57 ∧ |double_0_2.toRat - 2 / 10| < 1 / 2 ^ 56 ∧
      |double_0_3.toRat - 3 / 10| < 1 / 2 ^ 55 ∧
      SelectNeutrino (binDriver double_0_1 double_0_2 double_0_3 0) 1 1 double_0_5 = .ok 2 ∧
      (double_0_1.toRat + double_0_2.toRat + double_0_3.toRat + 0) * double_0_5.toRat
        < double_0_1.toRat + double_0_2.toRat ∧
      SelectNeutrino (binDriver double_0_1.toRat double_0_2.toRat double_0_3.toRat 0) 1 1
        double_0_5.toRat = .ok 1) ∧
    (binFluxes (binDriver (2 : ℚ) (-1) 1 0) 0 0 = some [2, -1, 1, 0] ∧
      (0 : ℚ) < 2 + -1 + 1 + 0 ∧ (0 : ℚ) ≤ 3 / 4 ∧ (3 / 4 : ℚ) < 1 ∧
      SelectNeutrino (binDriver (2 : ℚ) (-1) 1 0) 0 0 (3 / 4) = .ok 0 ∧
      ¬ (SelectNeutrino (binDriver (2 : ℚ) (-1) 1 0) 0 0 (3 / 4) = .ok 2 ↔
          cumFlux [(2 : ℚ), -1, 1, 0] 2 ≤ (2 + -1 + 1 + 0) * (3 / 4) ∧
            (2 + -1 + 1 + 0) * (3 / 4) < cumFlux [(2 : ℚ), -1, 1, 0] 3)) := by
  have hsel : SelectNeutrino (binDriver (2 : ℚ) (-1) 1 0) 0 0 (3 / 4) = .ok 0 := by
    rw [SelectNeutrino_unrolled _ 0 0 (3 / 4) 2 (-1) 1 0 (binFluxes_binDriver _ _ _ _ _ _)]
    norm_num
  have hexact : SelectNeutrino
      (binDriver double_0_1.toRat double_0_2.toRat double_0_3.toRat 0) 1 1
        double_0_5.toRat = .ok 1 := by
    rw [SelectNeutrino_unrolled _ 1 1 _ _ _ _ _ (binFluxes_binDriver _ _ _ _ _ _)]
    norm_num [cxx.Double.toRat, cxx.Double.signed, double_0_1, double_0_2, double_0_3,
      double_0_5]
  refine ⟨⟨rfl, rfl, ?_, ?_, ?_, binFluxes_binDriver _ _ _ _ _ _, rfl⟩,
    ⟨rfl, rfl, rfl, ?_, ?_, ?_, rfl, ?_, hexact⟩,
    ⟨binFluxes_binDriver _ _ _ _ _ _, by norm_num, by norm_num, by norm_num, hsel, ?_⟩⟩
  · norm_num [cxx.Double.toRat, cxx.Double.signed, double_1e308]
  · norm_num [cxx.Double.toRat, cxx.Double.signed, double_0_5]
  · norm_num [cxx.Double.toRat, cxx.Double.signed, double_0_5]
  · norm_num [cxx.Double.toRat, cxx.Double.signed, double_0_1, abs_lt]
  · norm_num [cxx.Double.toRat, cxx.Double.signed, double_0_2, abs_lt]
  · norm_num [cxx.Double.toRat, cxx.Double.signed, double_0_3, abs_lt]
  · norm_num [cxx.Double.toRat, cxx.Double.signed, double_0_1, double_0_2, double_0_3,
      double_0_5]
  · rw [hsel]
    simp only [cumFlux, List.take, List.sum_cons, List.sum_nil]
    norm_num

/-- C1, instances: the contents `(0.1, 0.2, 0.3, 0)` and the draw `0.5` in the
arithmetic of the code, where the index 2 is returned, with `c_1 ≤ R < c_2`, and
the equal contents `(1, 1, 1, 1)` and the draw `u = 1/2` in exact arithmetic. -/
theorem C1_witness :
    (binFluxes (binDriver double_0_1 double_0_2 double_0_3 0) 1 1
        = some [double_0_1, double_0_2, double_0_3, 0] ∧
      double_min < fluxSum [double_0_1, double_0_2, double_0_3, 0] ∧
      fluxSum [double_0_1, double_0_2, double_0_3, 0] < cxx.Double.inf false ∧
      double_0_5.isBinary64 = true ∧ (0 : cxx.Double) ≤ double_0_5 ∧ double_0_5 < 1 ∧
      (0 : cxx.Double) ≤ double_0_1 ∧ (0 : cxx.Double) ≤ double_0_2 ∧
      (0 : cxx.Double) ≤ double_0_3 ∧ (0 : cxx.Double) ≤ 0 ∧
      binFluxes (binDriver (1 : ℚ) 1 1 1) 0 0 = some [1, 1, 1, 1] ∧
      (0 : ℚ) < 1 + 1 + 1 + 1 ∧ (0 : ℚ) ≤ 1 / 2 ∧ (1 / 2 : ℚ) < 1) ∧
    (SelectNeutrino (binDriver double_0_1 double_0_2 double_0_3 0) 1 1 double_0_5 = .ok 2 ↔
      2 < 4 ∧
        fluxSum [double_0_1, double_0_2, double_0_3, 0] * double_0_5
          < fluxSum ([double_0_1, double_0_2, double_0_3, 0].take (2 + 1)) ∧
        ∀ j, j < 2 →
          ¬ (fluxSum [double_0_1, double_0_2, double_0_3, 0] * double_0_5
            < fluxSum ([double_0_1, double_0_2, double_0_3, 0].take (j + 1)))) ∧
    (SelectNeutrino (binDriver double_0_1 double_0_2 double_0_3 0) 1 1 double_0_5 = .ok 2 ↔
      fluxSum ([double_0_1, double_0_2, double_0_3, 0].take 2)
          ≤ fluxSum [double_0_1, double_0_2, double_0_3, 0] * double_0_5 ∧
        fluxSum [double_0_1, double_0_2, double_0_3, 0] * double_0_5
          < fluxSum ([double_0_1, double_0_2, double_0_3, 0].take (2 + 1))) ∧
    (SelectNeutrino (binDriver (1 : ℚ) 1 1 1) 0 0 (1 / 2) = .ok 2 ↔
      cumFlux [(1 : ℚ), 1, 1, 1] 2 / (1 + 1 + 1 + 1) ≤ 1 / 2 ∧
        (1 / 2 : ℚ) < cumFlux [(1 : ℚ), 1, 1, 1] 2 / (1 + 1 + 1 + 1)
          + [(1 : ℚ), 1, 1, 1].getD 2 0 / (1 + 1 + 1 + 1)) := by
  have h := C1_SelectNeutrino_inverse_sampling
    (binDriver double_0_1 double_0_2 double_0_3 0) 1 1
    double_0_5 double_0_1 double_0_2 double_0_3 0 (binFluxes_binDriver _ _ _ _ _ _)
    (binDriver double_0_1 double_0_2 double_0_3 0) 1 1
    double_0_5 double_0_1 double_0_2 double_0_3 0 (binFluxes_binDriver _ _ _ _ _ _)
    (by decide) (by decide) rfl (by decide) (by decide)
    (binDriver (1 : ℚ) 1 1 1) 0 0 (1 / 2) 1 1 1 1
    (binFluxes_binDriver _ _ _ _ _ _) (by norm_num) (by norm_num) (by norm_num)
  exact ⟨⟨binFluxes_binDriver _ _ _ _ _ _, by decide, by decide, rfl, by decide, by decide,
      by decide, by decide, by decide, by decide,
      binFluxes_binDriver _ _ _ _ _ _, by norm_num, by norm_num, by norm_num⟩,
    h.1.1 2,
    h.2.1.2 (by decide) (by decide) (by decide) (by decide) 2 (by norm_num),
    (h.2.2.2 (by norm_num) (by norm_num) (by norm_num) (by norm_num) 2 (by norm_num)).2⟩

/-! ## Loading the flux tables -/

/-- A `Fill` with weight 0 changes nothing. -/
theorem TH2D.Fill_zero_weight (h : TH2D α) (x y : α) : h.Fill x y 0 = h := by
  simp [TH2D.Fill]

/-- Function `ZeroFluxHisto2D` only fills with weight 0, so it returns its argument. -/
theorem GBartolAtmoFlux.ZeroFluxHisto2D_eq (T : GBrtTables α) (h : TH2D α) :
    ZeroFluxHisto2D T h = h := by
  unfold ZeroFluxHisto2D
  have inner : ∀ (cs : List α) (e : α) (g : TH2D α),
      cs.foldl (fun h c => h.Fill (e - 1 / 10000) (c - 1 / 10000) 0) g = g := by
    intro cs e
    induction cs with
    | nil => intro g; rfl
    | cons c cs ih => intro g; simp [List.foldl, TH2D.Fill_zero_weight, ih]
  generalize T.kGBrtEv = es
  induction es generalizing h with
  | nil => rfl
  | cons e es ih =>
    rw [List.foldl_cons, inner, ih]

/-- The cells of a histogram made by `CreateFluxHisto2D` are all 0. -/
theorem GBartolAtmoFlux.CreateFluxHisto2D_content (T : GBrtTables α) (name title : String)
    (bin : Nat) : (CreateFluxHisto2D T name title).GetBinContent bin = 0 := rfl

/-- The four assignments at the start of `LoadFluxData` give every species a
histogram `CreateFluxHisto2D` has just made. -/
theorem GBartolAtmoFlux.createFluxHistos_new (T : GBrtTables α) (s : GBartolAtmoFlux α)
    (i : Nat) (hi : i < 4) :
    ∃ name title, (createFluxHistos T s).fFlux2D i = some (CreateFluxHisto2D T name title) := by
  interval_cases i
  · exact ⟨"numu", "GBartol 3D flux: numu", by simp [createFluxHistos, Function.update]⟩
  · exact ⟨"numubar", "GBartol 3D flux: numubar", by simp [createFluxHistos, Function.update]⟩
  · exact ⟨"nue", "GBartol 3D flux: nue", by simp [createFluxHistos, Function.update]⟩
  · exact ⟨"nuebar", "GBartol 3D flux: nuebar", by simp [createFluxHistos, Function.update]⟩

@[simp]
theorem GBartolAtmoFlux.createFluxHistos_fNSkipped (T : GBrtTables α) (s : GBartolAtmoFlux α) :
    (createFluxHistos T s).fNSkipped = s.fNSkipped := rfl

@[simp]
theorem GBartolAtmoFlux.createFluxHistos_fFluxFile (T : GBrtTables α) (s : GBartolAtmoFlux α) :
    (createFluxHistos T s).fFluxFile = s.fFluxFile := rfl

@[simp]
theorem GBartolAtmoFlux.createFluxHistos_fFluxSum2D (T : GBrtTables α) (s : GBartolAtmoFlux α) :
    (createFluxHistos T s).fFluxSum2D = s.fFluxSum2D := rfl

@[simp]
theorem GBartolAtmoFlux.createFluxHistos_fPdgCList (T : GBrtTables α) (s : GBartolAtmoFlux α) :
    (createFluxHistos T s).fPdgCList = s.fPdgCList := rfl

/-- The four assignments at the start of `LoadFluxData` touch the species
histograms only. -/
theorem GBartolAtmoFlux.createFluxHistos_frame (T : GBrtTables α) (s : GBartolAtmoFlux α) :
    (createFluxHistos T s).fNSkipped = s.fNSkipped ∧
    (createFluxHistos T s).fFluxFile = s.fFluxFile ∧
    (createFluxHistos T s).fFluxSum2D = s.fFluxSum2D ∧
    (createFluxHistos T s).fPdgCList = s.fPdgCList ∧
    (createFluxHistos T s).fRl = s.fRl ∧ (createFluxHistos T s).fRt = s.fRt ∧
    ∀ i, 4 ≤ i → (createFluxHistos T s).fFlux2D i = s.fFlux2D i := by
  refine ⟨rfl, rfl, rfl, rfl, rfl, rfl, fun i hi => ?_⟩
  simp only [createFluxHistos]
  rw [Function.update_noteq (by omega), Function.update_noteq (by omega),
    Function.update_noteq (by omega), Function.update_noteq (by omega)]

/-- Function `FillFluxHisto2D` on an instantiated histogram and an empty file name. -/
theorem GBartolAtmoFlux.FillFluxHisto2D_skip (T : GBrtTables α) (fs : FileSystem α)
    (s : GBartolAtmoFlux α) (h : TH2D α) (filename : String) (he : filename.length = 0) :
    FillFluxHisto2D T fs s (some h) filename =
      if s.fNSkipped + 1 < 4 then .ok (true, { s with fNSkipped := s.fNSkipped + 1 }, some h)
      else .error Abort.assertSkipped := by
  simp [FillFluxHisto2D, he, ZeroFluxHisto2D_eq]

/-- Function `FillFluxHisto2D` on an instantiated histogram and a file that opens. -/
theorem GBartolAtmoFlux.FillFluxHisto2D_open (T : GBrtTables α) (fs : FileSystem α)
    (s : GBartolAtmoFlux α) (h : TH2D α) (filename : String) (stream : FluxStream α)
    (he : filename.length ≠ 0) (hf : fs filename = some stream) :
    FillFluxHisto2D T fs s (some h) filename =
      .ok (true, s, some (fillRows stream (T.kNGBrtCos * T.kNGBrtEv) h)) := by
  simp [FillFluxHisto2D, he, hf]

/-- Function `FillFluxHisto2D` on an instantiated histogram and a file that does not open. -/
theorem GBartolAtmoFlux.FillFluxHisto2D_missing (T : GBrtTables α) (fs : FileSystem α)
    (s : GBartolAtmoFlux α) (h : TH2D α) (filename : String)
    (he : filename.length ≠ 0) (hf : fs filename = none) :
    FillFluxHisto2D T fs s (some h) filename = .ok (false, s, some h) := by
  simp [FillFluxHisto2D, he, hf]

/-- Function `FillFluxHisto2D` returns false only for a null histogram or a file that
does not open. -/
theorem GBartolAtmoFlux.FillFluxHisto2D_false (T : GBrtTables α) (fs : FileSystem α)
    (s s' : GBartolAtmoFlux α) (histo h' : Option (TH2D α)) (filename : String)
    (h : FillFluxHisto2D T fs s histo filename = .ok (false, s', h')) :
    histo = none ∨ (filename.length ≠ 0 ∧ fs filename = none) := by
  rcases histo with _ | h0
  · exact Or.inl rfl
  · right
    by_cases he : filename.length = 0
    · rw [FillFluxHisto2D_skip T fs s h0 filename he] at h
      split_ifs at h
      simp at h
    · cases hf : fs filename with
      | none => exact ⟨he, rfl⟩
      | some stream =>
        rw [FillFluxHisto2D_open T fs s h0 filename stream he hf] at h
        simp at h

/-- Function `FillFluxHisto2D` fails to return only by the assertion `fNSkipped<4`, on an
instantiated histogram and an empty file name. -/
theorem GBartolAtmoFlux.FillFluxHisto2D_error (T : GBrtTables α) (fs : FileSystem α)
    (s : GBartolAtmoFlux α) (histo : Option (TH2D α)) (filename : String) (e : Abort)
    (h : FillFluxHisto2D T fs s histo filename = .error e) :
    e = Abort.assertSkipped ∧ histo ≠ none ∧ filename.length = 0 ∧ ¬ s.fNSkipped + 1 < 4 := by
  rcases histo with _ | h0
  · simp [FillFluxHisto2D] at h
  · by_cases he : filename.length = 0
    · rw [FillFluxHisto2D_skip T fs s h0 filename he] at h
      split_ifs at h with hlt
      simp only [Except.error.injEq] at h
      exact ⟨h.symm, by simp, he, hlt⟩
    · cases hf : fs filename with
      | none => rw [FillFluxHisto2D_missing T fs s h0 filename he hf] at h; simp at h
      | some stream => rw [FillFluxHisto2D_open T fs s h0 filename stream he hf] at h; simp at h

/-- Function `FillFluxHisto2D` changes no data member other than `fNSkipped`. -/
theorem GBartolAtmoFlux.FillFluxHisto2D_frame (T : GBrtTables α) (fs : FileSystem α)
    (s s' : GBartolAtmoFlux α) (histo h' : Option (TH2D α)) (filename : String) (l : Bool)
    (h : FillFluxHisto2D T fs s histo filename = .ok (l, s', h')) :
    s' = { s with fNSkipped := s'.fNSkipped } := by
  rcases histo with _ | h0
  · simp only [FillFluxHisto2D, Except.ok.injEq, Prod.mk.injEq] at h
    rw [← h.2.1]
  · by_cases he : filename.length = 0
    · rw [FillFluxHisto2D_skip T fs s h0 filename he] at h
      split_ifs at h
      simp only [Except.ok.injEq, Prod.mk.injEq] at h
      rw [← h.2.1]
    · cases hf : fs filename with
      | none =>
        rw [FillFluxHisto2D_missing T fs s h0 filename he hf] at h
        simp only [Except.ok.injEq, Prod.mk.injEq] at h
        rw [← h.2.1]
      | some stream =>
        rw [FillFluxHisto2D_open T fs s h0 filename stream he hf] at h
        simp only [Except.ok.injEq, Prod.mk.injEq] at h
        rw [← h.2.1]

/-- The loop of `LoadFluxData` fails to return only by the assertion
`fNSkipped<4`. -/
theorem GBartolAtmoFlux.loadLoop_error (T : GBrtTables α) (fs : FileSystem α) :
    ∀ (n iflux : Nat) (st : Bool) (s : GBartolAtmoFlux α) (e : Abort),
      loadLoop T fs n iflux st s = .error e → e = Abort.assertSkipped := by
  intro n
  induction n with
  | zero => intro iflux st s e h; simp [loadLoop] at h
  | succ n ih =>
    intro iflux st s e h
    rw [loadLoop] at h
    cases hr : FillFluxHisto2D T fs s (s.fFlux2D iflux) (s.fFluxFile iflux) with
    | error e0 =>
      rw [hr] at h
      simp only [Except.error.injEq] at h
      rw [← h]
      exact (FillFluxHisto2D_error T fs s _ _ e0 hr).1
    | ok r =>
      obtain ⟨l, s1, h1⟩ := r
      rw [hr] at h
      exact ih _ _ _ e h

/-- What the loop of `LoadFluxData` leaves when it returns: every pass in its
range was a call of `FillFluxHisto2D` on the histogram and file name of that
species, the returned status is the conjunction of the flags, and nothing
but `fNSkipped` and the histograms of the range is changed. -/
theorem GBartolAtmoFlux.loadLoop_ok (T : GBrtTables α) (fs : FileSystem α) :
    ∀ (n iflux : Nat) (st : Bool) (s : GBartolAtmoFlux α) (b : Bool) (s' : GBartolAtmoFlux α),
      loadLoop T fs n iflux st s = .ok (b, s') →
      s'.fFluxFile = s.fFluxFile ∧ s'.fFluxSum2D = s.fFluxSum2D ∧
      (∀ j, j < iflux ∨ iflux + n ≤ j → s'.fFlux2D j = s.fFlux2D j) ∧
      ∃ loaded : Nat → Bool,
        (b = true ↔ st = true ∧ ∀ j, iflux ≤ j → j < iflux + n → loaded j = true) ∧
        ∀ j, iflux ≤ j → j < iflux + n →
          ∃ t t0 : GBartolAtmoFlux α,
            FillFluxHisto2D T fs t (s.fFlux2D j) (s.fFluxFile j) = .ok (loaded j, t0, s'.fFlux2D j) := by
  intro n
  induction n with
  | zero =>
    intro iflux st s b s' h
    simp only [loadLoop, Except.ok.injEq, Prod.mk.injEq] at h
    obtain ⟨rfl, rfl⟩ := h
    refine ⟨rfl, rfl, fun _ _ => rfl, fun _ => true, ?_, ?_⟩
    · simp
    · intro j h1 h2
      omega
  | succ n ih =>
    intro iflux st s b s' h
    rw [loadLoop] at h
    cases hr : FillFluxHisto2D T fs s (s.fFlux2D iflux) (s.fFluxFile iflux) with
    | error e0 => rw [hr] at h; simp at h
    | ok r =>
      obtain ⟨l, s1, h1⟩ := r
      rw [hr] at h
      simp only at h
      have hf := FillFluxHisto2D_frame T fs s s1 _ h1 _ l hr
      obtain ⟨hfile, hsum, hother, loaded, hflag, hcalls⟩ := ih _ _ _ b s' h
      have hs1file : s1.fFluxFile = s.fFluxFile := by rw [hf]
      have hs1sum : s1.fFluxSum2D = s.fFluxSum2D := by rw [hf]
      have hs1flux : s1.fFlux2D = s.fFlux2D := by rw [hf]
      simp only at hfile hsum hother hcalls
      have hat : s'.fFlux2D iflux = h1 := by
        rw [hother iflux (Or.inl (Nat.lt_succ_self _))]
        simp
      refine ⟨hfile.trans hs1file, hsum.trans hs1sum, ?_, Function.update loaded iflux l, ?_, ?_⟩
      · intro j hj
        have hne : j ≠ iflux := by omega
        rw [hother j (by omega), Function.update_noteq hne, hs1flux]
      · rw [hflag]
        constructor
        · rintro ⟨hst, hall⟩
          simp only [Bool.and_eq_true] at hst
          refine ⟨hst.1, ?_⟩
          intro j h1 h2
          by_cases hji : j = iflux
          · subst hji; simpa using hst.2
          · rw [Function.update_noteq hji]
            exact hall j (by omega) (by omega)
        · rintro ⟨hst, hall⟩
          have hl : l = true := by
            have := hall iflux (le_refl _) (by omega)
            simpa using this
          refine ⟨by simp [hst, hl], ?_⟩
          intro j h1 h2
          have hne : j ≠ iflux := by omega
          have := hall j (by omega) (by omega)
          rwa [Function.update_noteq hne] at this
      · intro j h1 h2
        by_cases hji : j = iflux
        · subst hji
          refine ⟨s, s1, ?_⟩
          rw [hat]
          simpa using hr
        · obtain ⟨t, t0, hcall⟩ := hcalls j (by omega) (by omega)
          refine ⟨t, t0, ?_⟩
          rw [Function.update_noteq hji, hs1flux, hs1file] at hcall
          rw [Function.update_noteq hji]
          exact hcall

theorem numSkipped_eq {β : Type} (s : GBartolAtmoFlux β) :
    numSkipped s = skippedIn s.fFluxFile 4 0 := by
  simp only [numSkipped, kNNu, skippedIn, List.range, List.range.loop, List.countP_cons,
    List.countP_nil, decide_eq_true_eq, Nat.zero_add, Nat.reduceAdd]
  omega

/-- The loop of `LoadFluxData` when every histogram of its range is
instantiated and every non-empty file name opens: it trips `fNSkipped<4`
exactly when the skipped components bring `fNSkipped` to 4, and otherwise
returns with the status unchanged, `fNSkipped` raised by the number of empty
names and the histograms of the skipped species untouched. -/
theorem GBartolAtmoFlux.loadLoop_skips (T : GBrtTables α) (fs : FileSystem α) :
    ∀ (n iflux : Nat) (st : Bool) (s : GBartolAtmoFlux α),
      (∀ j, iflux ≤ j → j < iflux + n → ∃ h, s.fFlux2D j = some h) →
      (∀ j, iflux ≤ j → j < iflux + n → (s.fFluxFile j).length ≠ 0 →
        ∃ stream, fs (s.fFluxFile j) = some stream) →
      s.fNSkipped < 4 →
      (4 ≤ s.fNSkipped + skippedIn s.fFluxFile n iflux →
        loadLoop T fs n iflux st s = .error Abort.assertSkipped) ∧
      (s.fNSkipped + skippedIn s.fFluxFile n iflux < 4 →
        ∃ s', loadLoop T fs n iflux st s = .ok (st, s') ∧
          s'.fNSkipped = s.fNSkipped + skippedIn s.fFluxFile n iflux ∧
          ∀ j, iflux ≤ j → j < iflux + n → (s.fFluxFile j).length = 0 →
            s'.fFlux2D j = s.fFlux2D j) := by
  intro n
  induction n with
  | zero =>
    intro iflux st s _ _ hlt
    refine ⟨?_, ?_⟩
    · intro h
      simp only [skippedIn] at h
      omega
    · intro _
      exact ⟨s, rfl, by simp [skippedIn], fun _ _ _ _ => rfl⟩
  | succ n ih =>
    intro iflux st s hh hopen hlt
    obtain ⟨h, hh0⟩ := hh iflux (le_refl _) (by omega)
    by_cases he : (s.fFluxFile iflux).length = 0
    · -- the component is skipped
      have hstep := FillFluxHisto2D_skip T fs s h (s.fFluxFile iflux) he
      by_cases h4 : s.fNSkipped + 1 < 4
      · rw [if_pos h4] at hstep
        have hrec := ih (iflux + 1) st
          { s with fNSkipped := s.fNSkipped + 1, fFlux2D := Function.update s.fFlux2D iflux (some h) }
          (by
            intro j h1 h2
            have hne : j ≠ iflux := by omega
            simpa [Function.update_noteq hne] using hh j (by omega) (by omega))
          (by
            intro j h1 h2
            exact hopen j (by omega) (by omega))
          h4
        simp only at hrec
        have hloop : loadLoop T fs (n + 1) iflux st s = loadLoop T fs n (iflux + 1) st
            { s with fNSkipped := s.fNSkipped + 1,
                     fFlux2D := Function.update s.fFlux2D iflux (some h) } := by
          rw [loadLoop, hh0, hstep]
          simp
        rw [hloop]
        have hcount : skippedIn s.fFluxFile (n + 1) iflux
            = 1 + skippedIn s.fFluxFile n (iflux + 1) := by
          simp [skippedIn, he]
        rw [hcount]
        refine ⟨?_, ?_⟩
        · intro hge
          exact hrec.1 (by push_cast at hge ⊢; omega)
        · intro hl
          obtain ⟨s', hs', hskip, hkeep⟩ := hrec.2 (by push_cast at hl ⊢; omega)
          refine ⟨s', hs', by rw [hskip]; push_cast; ring, ?_⟩
          intro j h1 h2 hj
          by_cases hji : j = iflux
          · subst hji
            have := (loadLoop_ok T fs n (j + 1) st _ st s' hs').2.2.1 j (Or.inl (Nat.lt_succ_self _))
            rw [this, hh0]
            simp
          · rw [hkeep j (by omega) (by omega) hj]
            simp [Function.update_noteq hji]
      · rw [if_neg h4] at hstep
        have hloop : loadLoop T fs (n + 1) iflux st s = .error Abort.assertSkipped := by
          rw [loadLoop, hh0, hstep]
        rw [hloop]
        refine ⟨fun _ => rfl, ?_⟩
        intro hl
        have hcount : skippedIn s.fFluxFile (n + 1) iflux
            = 1 + skippedIn s.fFluxFile n (iflux + 1) := by
          simp [skippedIn, he]
        rw [hcount] at hl
        push_cast at hl
        omega
    · -- the file is read
      obtain ⟨stream, hf⟩ := hopen iflux (le_refl _) (by omega) he
      have hstep := FillFluxHisto2D_open T fs s h (s.fFluxFile iflux) stream he hf
      have hrec := ih (iflux + 1) st
        { s with fFlux2D := (Function.update s.fFlux2D iflux
            (some (fillRows stream (T.kNGBrtCos * T.kNGBrtEv) h))) }
        (by
          intro j h1 h2
          have hne : j ≠ iflux := by omega
          simpa [Function.update_noteq hne] using hh j (by omega) (by omega))
        (by
          intro j h1 h2
          exact hopen j (by omega) (by omega))
        hlt
      simp only at hrec
      have hloop : loadLoop T fs (n + 1) iflux st s = loadLoop T fs n (iflux + 1) st
          { s with fFlux2D := (Function.update s.fFlux2D iflux
              (some (fillRows stream (T.kNGBrtCos * T.kNGBrtEv) h))) } := by
        rw [loadLoop, hh0, hstep]
        simp
      rw [hloop]
      have hcount : skippedIn s.fFluxFile (n + 1) iflux = skippedIn s.fFluxFile n (iflux + 1) := by
        simp [skippedIn, he]
      rw [hcount]
      refine ⟨hrec.1, ?_⟩
      intro hl
      obtain ⟨s', hs', hskip, hkeep⟩ := hrec.2 hl
      refine ⟨s', hs', hskip, ?_⟩
      intro j h1 h2 hj
      have hji : j ≠ iflux := by
        intro hji
        rw [hji] at hj
        exact he hj
      rw [hkeep j (by omega) (by omega) hj]
      simp [Function.update_noteq hji]

theorem forall_lt_four (p : Nat → Prop) : (∀ i, i < 4 → p i) ↔ (p 0 ∧ p 1 ∧ p 2 ∧ p 3) := by
  constructor
  · intro h
    exact ⟨h 0 (by norm_num), h 1 (by norm_num), h 2 (by norm_num), h 3 (by norm_num)⟩
  · rintro ⟨h0, h1, h2, h3⟩ i hi
    interval_cases i <;> assumption

theorem numSkipped_le {β : Type} (s : GBartolAtmoFlux β) : numSkipped s ≤ 4 := by
  rw [numSkipped_eq]
  simp only [skippedIn]
  split_ifs <;> omega

theorem numSkipped_eq_four {β : Type} (s : GBartolAtmoFlux β) :
    numSkipped s = 4 ↔ ∀ i, i < 4 → (s.fFluxFile i).length = 0 := by
  rw [numSkipped_eq, forall_lt_four]
  simp only [skippedIn, Nat.zero_add, Nat.reduceAdd]
  split_ifs <;> simp_all

/-- Function `LoadFluxData` returns what its loop returns, with `AddAllFluxes` applied
when the status is true. -/
theorem GBartolAtmoFlux.LoadFluxData_ok (T : GBrtTables α) (fs : FileSystem α)
    (s : GBartolAtmoFlux α) (b : Bool) (s' : GBartolAtmoFlux α)
    (h : LoadFluxData T fs s = .ok (b, s')) :
    ∃ s1, loadLoop T fs kNNu 0 true
        (createFluxHistos T s)
          = .ok (b, s1) ∧
      s' = if b = true then AddAllFluxes T s1 else s1 := by
  unfold LoadFluxData at h
  simp only at h
  cases hr : loadLoop T fs kNNu 0 true
      (createFluxHistos T s) with
  | error e => rw [hr] at h; simp at h
  | ok r =>
    obtain ⟨st, s1⟩ := r
    rw [hr] at h
    simp only at h
    by_cases hst : st = true
    · rw [if_pos hst] at h
      simp only [Except.ok.injEq, Prod.mk.injEq] at h
      refine ⟨s1, ?_, ?_⟩
      · rw [← h.1, hst]
      · rw [← h.1, ← h.2]; simp
    · rw [if_neg hst] at h
      simp only [Except.ok.injEq, Prod.mk.injEq] at h
      refine ⟨s1, ?_, ?_⟩
      · rw [← h.1]; simp at hst; rw [hst]
      · rw [← h.1, ← h.2]; simp

/-- Skipping flux components: `LoadFluxData` on a driver with `fNSkipped = 0`
whose non-empty file names all open trips `fNSkipped<4` exactly when the four
names are empty, and otherwise returns true with the skipped histograms
empty. -/
theorem GBartolAtmoFlux.LoadFluxData_skipping (T : GBrtTables α) (fs : FileSystem α)
    (s : GBartolAtmoFlux α) (hinit : s.fNSkipped = 0)
    (hopen : ∀ i, i < 4 → (s.fFluxFile i).length ≠ 0 →
      ∃ stream, fs (s.fFluxFile i) = some stream) :
    (LoadFluxData T fs s = .error Abort.assertSkipped ↔
      ∀ i, i < 4 → (s.fFluxFile i).length = 0) ∧
    (numSkipped s < 4 →
      ∃ s', LoadFluxData T fs s = .ok (true, s') ∧ s'.fNSkipped = numSkipped s ∧
        ∀ i, i < 4 → (s.fFluxFile i).length = 0 →
          ∃ h, s'.fFlux2D i = some h ∧ ∀ bin, h.GetBinContent bin = 0) := by
  have hloop := loadLoop_skips T fs 4 0 true
    (createFluxHistos T s)
    (by
      intro j _ hj
      obtain ⟨name, title, hc⟩ := createFluxHistos_new T s j (by omega)
      exact ⟨_, hc⟩)
    (by
      intro j _ hj
      exact hopen j (by omega))
    (by simp [hinit])
  simp only [createFluxHistos_fNSkipped, createFluxHistos_fFluxFile, hinit, ← numSkipped_eq s,
    zero_add] at hloop
  obtain ⟨herr, hok⟩ := hloop
  have hret : numSkipped s < 4 →
      ∃ s', LoadFluxData T fs s = .ok (true, s') ∧ s'.fNSkipped = numSkipped s ∧
        ∀ i, i < 4 → (s.fFluxFile i).length = 0 →
          ∃ h, s'.fFlux2D i = some h ∧ ∀ bin, h.GetBinContent bin = 0 := by
    intro hlt
    obtain ⟨s1, hs1, hskip, hkeep⟩ := hok (by exact_mod_cast hlt)
    refine ⟨AddAllFluxes T s1, ?_, ?_, ?_⟩
    · unfold LoadFluxData
      simp only [kNNu, hinit, hs1, if_true]
    · simpa [AddAllFluxes] using hskip
    · intro i hi he
      obtain ⟨name, title, hc⟩ := createFluxHistos_new T s i hi
      refine ⟨CreateFluxHisto2D T name title, ?_, CreateFluxHisto2D_content T name title⟩
      have := hkeep i (Nat.zero_le _) (by omega) he
      simp only [AddAllFluxes]
      rw [this, hc]
  refine ⟨⟨?_, ?_⟩, hret⟩
  · intro h
    rw [← numSkipped_eq_four]
    by_contra hne
    have hlt : numSkipped s < 4 := lt_of_le_of_ne (numSkipped_le s) hne
    obtain ⟨s', hs', _⟩ := hret hlt
    rw [hs'] at h
    simp at h
  · intro hall
    have h4 := (numSkipped_eq_four s).2 hall
    have := herr (by rw [h4]; norm_num)
    unfold LoadFluxData
    simp only [kNNu, hinit, this]

/-- Function `SelectNeutrino` fails to return only by its assertion or on a null
histogram. -/
theorem GBartolAtmoFlux.SelectNeutrino_error (s : GBartolAtmoFlux α) (Ev costheta u : α)
    (e : Abort) (h : SelectNeutrino s Ev costheta u = .error e) :
    e = Abort.assertNoSpecies ∨ (e = Abort.badAccess ∧ ∃ i, i < 4 ∧ s.fFlux2D i = none) := by
  cases e0 : s.fFlux2D 0 with
  | none => right; simp [SelectNeutrino, binFluxes, binFluxesFrom, kNNu, e0] at h; exact ⟨h.symm, 0, by norm_num, e0⟩
  | some h0 =>
  cases e1 : s.fFlux2D 1 with
  | none => right; simp [SelectNeutrino, binFluxes, binFluxesFrom, kNNu, e0, e1] at h; exact ⟨h.symm, 1, by norm_num, e1⟩
  | some h1 =>
  cases e2 : s.fFlux2D 2 with
  | none => right; simp [SelectNeutrino, binFluxes, binFluxesFrom, kNNu, e0, e1, e2] at h; exact ⟨h.symm, 2, by norm_num, e2⟩
  | some h2 =>
  cases e3 : s.fFlux2D 3 with
  | none => right; simp [SelectNeutrino, binFluxes, binFluxesFrom, kNNu, e0, e1, e2, e3] at h; exact ⟨h.symm, 3, by norm_num, e3⟩
  | some h3 =>
    left
    rw [SelectNeutrino_unrolled s Ev costheta u _ _ _ _
      (binFluxes_of_some s Ev costheta h0 h1 h2 h3 e0 e1 e2 e3)] at h
    split_ifs at h
    simp only [Except.error.injEq] at h
    exact h.symm

/-- Function `LoadFluxData` returns false only when the file of some species does not
open. -/
theorem GBartolAtmoFlux.LoadFluxData_false (T : GBrtTables α) (fs : FileSystem α)
    (s s' : GBartolAtmoFlux α) (h : LoadFluxData T fs s = .ok (false, s')) :
    ∃ i, i < 4 ∧ (s.fFluxFile i).length ≠ 0 ∧ fs (s.fFluxFile i) = none := by
  obtain ⟨s1, hs1, _⟩ := LoadFluxData_ok T fs s false s' h
  obtain ⟨_, _, _, loaded, hflag, hcalls⟩ := loadLoop_ok T fs kNNu 0 true _ false s1 hs1
  simp only [kNNu, zero_add] at hflag hcalls
  have hex : ∃ j, j < 4 ∧ loaded j = false := by
    by_contra hno
    push_neg at hno
    have : (false = true) := hflag.2 ⟨by trivial, fun j _ hj => by simpa using hno j hj⟩
    simp at this
  obtain ⟨j, hj, hl⟩ := hex
  obtain ⟨t, t0, hcall⟩ := hcalls j (Nat.zero_le _) hj
  obtain ⟨name, title, hc⟩ := createFluxHistos_new T s j hj
  rw [hl, hc, createFluxHistos_fFluxFile] at hcall
  rcases FillFluxHisto2D_false T fs t t0 _ _ _ hcall with hnone | hfile
  · simp at hnone
  · exact ⟨j, hj, hfile⟩

/-- C2 (as amended): the failure conditions the flux driver handles are a null
histogram or a flux file that cannot be opened (early return of false), a
fourth skipped flux component (assertion `fNSkipped<4`) and no species selected
(assertion in `SelectNeutrino`). `FillFluxHisto2D` returns false only for a null
histogram or a file that cannot be opened; it fails to return only by the
assertion `fNSkipped<4`, on an empty file name that brings `fNSkipped` to 4 or
more; `LoadFluxData` returns false only when a file cannot be opened and fails
to return only by that same assertion; `SelectNeutrino` fails to return only by
its no-species assertion, or by reading a null histogram. -/
theorem C2_failure_conditions (T : GBrtTables α) (fs : FileSystem α) (s : GBartolAtmoFlux α)
    (histo : Option (TH2D α)) (filename : String) (Ev costheta u : α) :
    (∀ s' h', FillFluxHisto2D T fs s histo filename = .ok (false, s', h') →
      histo = none ∨ (filename.length ≠ 0 ∧ fs filename = none)) ∧
    (∀ e, FillFluxHisto2D T fs s histo filename = .error e →
      e = Abort.assertSkipped ∧ histo ≠ none ∧ filename.length = 0 ∧ ¬ s.fNSkipped + 1 < 4) ∧
    (∀ s', LoadFluxData T fs s = .ok (false, s') →
      ∃ i, i < 4 ∧ (s.fFluxFile i).length ≠ 0 ∧ fs (s.fFluxFile i) = none) ∧
    (∀ e, LoadFluxData T fs s = .error e → e = Abort.assertSkipped) ∧
    (∀ e, SelectNeutrino s Ev costheta u = .error e →
      e = Abort.assertNoSpecies ∨ (e = Abort.badAccess ∧ ∃ i, i < 4 ∧ s.fFlux2D i = none)) := by
  refine ⟨fun s' h' h => FillFluxHisto2D_false T fs s s' histo h' filename h,
    fun e h => FillFluxHisto2D_error T fs s histo filename e h,
    fun s' h => LoadFluxData_false T fs s s' h, ?_,
    fun e h => SelectNeutrino_error s Ev costheta u e h⟩
  intro e h
  unfold LoadFluxData at h
  simp only at h
  cases hr : loadLoop T fs kNNu 0 true
      (createFluxHistos T s) with
  | error e0 =>
    rw [hr] at h
    simp only [Except.error.injEq] at h
    rw [← h]
    exact loadLoop_error T fs _ _ _ _ e0 hr
  | ok r =>
    obtain ⟨st, s1⟩ := r
    rw [hr] at h
    simp only at h
    split_ifs at h

/-- C2, the claim as stated fails: `FillFluxHisto2D` returns false on a null
histogram although the file `numu.dat` opens, and `LoadFluxData` on a fresh
driver with four empty file names trips the assertion `fNSkipped<4`, which is
not the no-species assertion. -/
theorem C2_counterexample :
    (demoFiles "numu.dat" ≠ none ∧
      FillFluxHisto2D demoTables demoFiles (freshDriver fun _ => "numu.dat") none "numu.dat"
        = .ok (false, freshDriver fun _ => "numu.dat", none)) ∧
    LoadFluxData demoTables demoFiles (freshDriver fun _ => "") = .error Abort.assertSkipped := by
  refine ⟨⟨by simp [demoFiles], rfl⟩, ?_⟩
  exact (LoadFluxData_skipping demoTables demoFiles (freshDriver fun _ => "") rfl
    (by intro i _ h; simp [freshDriver] at h)).1.2 (by intro i _; rfl)

/-- C2, an instance: a file that does not open makes `FillFluxHisto2D` return
false. -/
theorem C2_witness :
    FillFluxHisto2D demoTables demoFiles (freshDriver fun _ => "nue.dat")
        (some (CreateFluxHisto2D demoTables "nue" "GBartol 3D flux: nue")) "nue.dat"
      = .ok (false, freshDriver fun _ => "nue.dat",
          some (CreateFluxHisto2D demoTables "nue" "GBartol 3D flux: nue")) ∧
    ((some (CreateFluxHisto2D demoTables "nue" "GBartol 3D flux: nue") : Option (TH2D ℚ)) = none ∨
      ("nue.dat".length ≠ 0 ∧ demoFiles "nue.dat" = none)) :=
  ⟨FillFluxHisto2D_missing _ _ _ _ _ (by decide) (by simp [demoFiles]),
    (C2_failure_conditions demoTables demoFiles (freshDriver fun _ => "nue.dat")
      (some (CreateFluxHisto2D demoTables "nue" "GBartol 3D flux: nue")) "nue.dat" 0 0 0).1 _ _
      (FillFluxHisto2D_missing _ _ _ _ _ (by decide) (by simp [demoFiles]))⟩

/-- C3: at least one flux file must be set, and any smaller number may be
skipped. On a driver with `fNSkipped = 0` (as `Initialize` leaves it) whose
non-empty file names all open, `LoadFluxData` trips the assertion `fNSkipped<4`
if and only if all four file names are empty; with fewer than four empty names
it returns true, `fNSkipped` is the number of empty names, and the histogram of
every skipped species has content 0 in every bin. -/
theorem C3_LoadFluxData_skipped_components (T : GBrtTables α) (fs : FileSystem α)
    (s : GBartolAtmoFlux α) (hinit : s.fNSkipped = 0)
    (hopen : ∀ i, i < 4 → (s.fFluxFile i).length ≠ 0 →
      ∃ stream, fs (s.fFluxFile i) = some stream) :
    (LoadFluxData T fs s = .error Abort.assertSkipped ↔
      ∀ i, i < 4 → (s.fFluxFile i).length = 0) ∧
    (numSkipped s < 4 →
      ∃ s', LoadFluxData T fs s = .ok (true, s') ∧ s'.fNSkipped = numSkipped s ∧
        ∀ i, i < 4 → (s.fFluxFile i).length = 0 →
          ∃ h, s'.fFlux2D i = some h ∧ ∀ bin, h.GetBinContent bin = 0) :=
  LoadFluxData_skipping T fs s hinit hopen

theorem demoNames_open : ∀ i, i < 4 → ((freshDriver demoNames).fFluxFile i).length ≠ 0 →
    ∃ stream, demoFiles ((freshDriver demoNames).fFluxFile i) = some stream := by
  intro i hi h
  interval_cases i
  · exact ⟨fun iline => (3 / 2, -1 / 2, iline), by simp [freshDriver, demoNames, demoFiles]⟩
  all_goals simp [freshDriver, demoNames] at h

/-- C3, an instance: one file set and three components skipped. -/
theorem C3_witness :
    ((freshDriver demoNames).fNSkipped = 0 ∧
      ∀ i, i < 4 → ((freshDriver demoNames).fFluxFile i).length ≠ 0 →
        ∃ stream, demoFiles ((freshDriver demoNames).fFluxFile i) = some stream) ∧
    ∃ s', LoadFluxData demoTables demoFiles (freshDriver demoNames) = .ok (true, s') ∧
      s'.fNSkipped = 3 := by
  refine ⟨⟨rfl, demoNames_open⟩, ?_⟩
  have hn : numSkipped (freshDriver demoNames) = 3 := by
    rfl
  obtain ⟨s', hs', hk, _⟩ :=
    (C3_LoadFluxData_skipped_components demoTables demoFiles (freshDriver demoNames) rfl
      demoNames_open).2 (by rw [hn]; norm_num)
  exact ⟨s', hs', by rw [hk, hn]; rfl⟩

/-- C4: `LoadFluxData` returns true if and only if `FillFluxHisto2D` returns true
for all four species, and all four fills are made whatever the earlier ones
returned: when the call returns `(b, s')`, each species histogram of `s'` is
the histogram a call of `FillFluxHisto2D` on a new histogram (the one the call
has just made for that species with `CreateFluxHisto2D`) and the file name of
that species left, with flag `loaded j`, and `b` is true exactly when the
four flags are. On true `AddAllFluxes` was run and the combined histogram
exists; on false `fFluxSum2D` keeps its previous value; so from a driver whose
`fFluxSum2D` is null (as after `Initialize`) the combined histogram exists after
the call if and only if it returned true. -/
theorem C4_LoadFluxData_status (T : GBrtTables α) (fs : FileSystem α)
    (s : GBartolAtmoFlux α) (b : Bool) (s' : GBartolAtmoFlux α)
    (h : LoadFluxData T fs s = .ok (b, s')) :
    (∃ loaded : Nat → Bool,
      (∀ j, j < 4 → ∃ (name title : String) (t t0 : GBartolAtmoFlux α),
        (createFluxHistos T s).fFlux2D j = some (CreateFluxHisto2D T name title) ∧
        FillFluxHisto2D T fs t (some (CreateFluxHisto2D T name title)) (s.fFluxFile j)
          = .ok (loaded j, t0, s'.fFlux2D j)) ∧
      (b = true ↔ ∀ j, j < 4 → loaded j = true)) ∧
    (b = true →
      s'.fFluxSum2D = (AddAllFluxes T s').fFluxSum2D ∧ ∃ hsum, s'.fFluxSum2D = some hsum) ∧
    (b = false → s'.fFluxSum2D = s.fFluxSum2D) ∧
    (s.fFluxSum2D = none → ((∃ hsum, s'.fFluxSum2D = some hsum) ↔ b = true)) := by
  obtain ⟨s1, hs1, hs'⟩ := LoadFluxData_ok T fs s b s' h
  obtain ⟨hfile, hsum, _, loaded, hflag, hcalls⟩ := loadLoop_ok T fs kNNu 0 true _ b s1 hs1
  simp only [kNNu, zero_add] at hflag hcalls hfile hsum
  have hflux : s'.fFlux2D = s1.fFlux2D := by
    rw [hs']
    split_ifs <;> rfl
  have htrue : b = true →
      s'.fFluxSum2D = (AddAllFluxes T s').fFluxSum2D ∧ ∃ hsum, s'.fFluxSum2D = some hsum := by
    intro hb
    rw [hs', if_pos hb]
    exact ⟨rfl, _, rfl⟩
  have hfalse : b = false → s'.fFluxSum2D = s.fFluxSum2D := by
    intro hb
    rw [hs', hb]
    simpa using hsum
  refine ⟨⟨loaded, ?_, ?_⟩, htrue, hfalse, ?_⟩
  · intro j hj
    obtain ⟨t, t0, hcall⟩ := hcalls j (Nat.zero_le _) hj
    obtain ⟨name, title, hc⟩ := createFluxHistos_new T s j hj
    rw [hc, createFluxHistos_fFluxFile] at hcall
    exact ⟨name, title, t, t0, hc, by rw [hflux]; exact hcall⟩
  · rw [hflag]
    constructor
    · rintro ⟨_, hall⟩ j hj
      exact hall j (Nat.zero_le _) hj
    · intro hall
      exact ⟨by trivial, fun j _ hj => hall j hj⟩
  · intro hnull
    constructor
    · rintro ⟨hsum', he⟩
      by_contra hb
      have hb' : b = false := by simpa using hb
      rw [hfalse hb', hnull] at he
      simp at he
    · intro hb
      exact (htrue hb).2

/-- C4, two instances: with one file set and three components skipped the call
returns true and the combined histogram exists; with a first file that does not
open the call returns false and `fFluxSum2D` stays null. -/
theorem C4_witness :
    (∃ s', LoadFluxData demoTables demoFiles (freshDriver demoNames) = .ok (true, s') ∧
      ∃ hsum, s'.fFluxSum2D = some hsum) ∧
    (∃ s', LoadFluxData demoTables demoFiles (freshDriver mixedNames) = .ok (false, s') ∧
      s'.fFluxSum2D = none) := by
  constructor
  · obtain ⟨s', hs', _⟩ :=
      (LoadFluxData_skipping demoTables demoFiles (freshDriver demoNames) rfl demoNames_open).2
        (by decide)
    exact ⟨s', hs', ((C4_LoadFluxData_status demoTables demoFiles _ true s' hs').2.1 rfl).2⟩
  · obtain ⟨s', hs'⟩ : ∃ s', LoadFluxData demoTables demoFiles (freshDriver mixedNames)
        = .ok (false, s') := ⟨_, rfl⟩
    exact ⟨s', hs', (C4_LoadFluxData_status demoTables demoFiles _ false s' hs').2.2.1 rfl⟩

/-! ## The combined flux -/

/-- C5: the histogram `(E, cos theta)` is drawn from is the sum of the species
histograms. With the four species histograms instantiated over the axes of
`CreateFluxHisto2D` (as `LoadFluxData` makes them), after `AddAllFluxes` the
content of every bin of the combined histogram is the sum of the contents of
that bin in the four species histograms, and the `flux_sum` that `SelectNeutrino`
computes at `(Ev, costheta)` is the content of the combined histogram in the bin
containing that pair. -/
theorem C5_AddAllFluxes_sum (T : GBrtTables α) (s : GBartolAtmoFlux α) (h0 h1 h2 h3 : TH2D α)
    (e0 : s.fFlux2D 0 = some h0) (e1 : s.fFlux2D 1 = some h1)
    (e2 : s.fFlux2D 2 = some h2) (e3 : s.fFlux2D 3 = some h3)
    (a0 : h0.fXaxis = T.kGBrtEv ∧ h0.fYaxis = T.kGBrtCos)
    (a1 : h1.fXaxis = T.kGBrtEv ∧ h1.fYaxis = T.kGBrtCos)
    (a2 : h2.fXaxis = T.kGBrtEv ∧ h2.fYaxis = T.kGBrtCos)
    (a3 : h3.fXaxis = T.kGBrtEv ∧ h3.fYaxis = T.kGBrtCos) :
    ∃ hsum, (AddAllFluxes T s).fFluxSum2D = some hsum ∧
      (∀ bin, hsum.GetBinContent bin =
        h0.GetBinContent bin + h1.GetBinContent bin + h2.GetBinContent bin
          + h3.GetBinContent bin) ∧
      ∀ Ev costheta,
        (binFluxes (AddAllFluxes T s) Ev costheta).map fluxSum
          = some (hsum.GetBinContent (hsum.FindBin Ev costheta)) := by
  refine ⟨_, rfl, ?_, ?_⟩
  · intro bin
    simp [kNNu, List.range, List.range.loop, e0, e1, e2, e3, TH2D.Add, CreateFluxHisto2D,
      TH2D.GetBinContent, TH2D.fNcells, TH2D.GetNbinsX, TH2D.GetNbinsY, a0.1, a0.2, a1.1, a1.2,
      a2.1, a2.2, a3.1, a3.2]
  · intro Ev costheta
    have hb := binFluxes_of_some (AddAllFluxes T s) Ev costheta h0 h1 h2 h3 e0 e1 e2 e3
    rw [hb]
    simp [kNNu, List.range, List.range.loop, e0, e1, e2, e3, TH2D.Add, CreateFluxHisto2D,
      TH2D.GetBinContent, TH2D.fNcells, TH2D.GetNbinsX, TH2D.GetNbinsY, TH2D.FindBin, fluxSum,
      a0.1, a0.2, a1.1, a1.2, a2.1, a2.2, a3.1, a3.2]

/-- C5, an instance: contents 1, 2, 3, 4 over one-bin axes. -/
theorem C5_witness :
    ∃ hsum, (AddAllFluxes ⟨[0, 1], [0, 1]⟩ (binDriver (1 : ℚ) 2 3 4)).fFluxSum2D = some hsum ∧
      hsum.GetBinContent (hsum.FindBin (1 / 2) (1 / 2)) = 10 := by
  obtain ⟨hsum, hs, hbins, _⟩ :=
    C5_AddAllFluxes_sum (⟨[0, 1], [0, 1]⟩ : GBrtTables ℚ) (binDriver (1 : ℚ) 2 3 4)
      _ _ _ _ rfl rfl rfl rfl ⟨rfl, rfl⟩ ⟨rfl, rfl⟩ ⟨rfl, rfl⟩ ⟨rfl, rfl⟩
  refine ⟨hsum, hs, ?_⟩
  rw [hbins]
  simp [TH2D.GetBinContent]
  norm_num

/-! ## Geometry of `GenerateNext` -/

/-- Method `TVector3::Orthogonal` returns a vector orthogonal to its argument. -/
theorem TVector3.Orthogonal_dot (v : TVector3 α) : v.Orthogonal.Dot v = 0 := by
  unfold TVector3.Orthogonal
  simp only []
  split_ifs <;> simp only [TVector3.Dot] <;> ring

/-- The absolute value as `TVector3::Orthogonal` computes it. -/
theorem ite_neg_eq_abs (a : α) : (if a < 0 then -a else a) = |a| := by
  split_ifs with h
  · exact (abs_of_neg h).symm
  · exact (abs_of_nonneg (not_lt.mp h)).symm

/-- Method `TVector3::Orthogonal` of a non-zero vector is not zero. -/
theorem TVector3.Orthogonal_Mag2_pos (v : TVector3 α) (hv : 0 < v.Mag2) :
    0 < v.Orthogonal.Mag2 := by
  unfold TVector3.Orthogonal
  simp only [ite_neg_eq_abs]
  have hx := abs_nonneg v.fX
  have hy := abs_nonneg v.fY
  have hz := abs_nonneg v.fZ
  have sqpos : ∀ a : α, 0 < |a| → 0 < a * a := by
    intro a ha
    exact mul_self_pos.mpr (abs_pos.mp ha)
  have sqnn : ∀ a : α, 0 ≤ a * a := fun a => mul_self_nonneg a
  split_ifs with h1 h2 h3
  · have := sqpos v.fY (lt_of_le_of_lt hx h1)
    simp only [TVector3.Mag2]
    nlinarith [sqnn v.fZ]
  · have := sqpos v.fY (lt_of_le_of_lt hx h1)
    simp only [TVector3.Mag2]
    nlinarith [sqnn v.fX]
  · have := sqpos v.fZ (lt_of_le_of_lt hy h3)
    simp only [TVector3.Mag2]
    nlinarith [sqnn v.fX]
  · have hxpos : 0 < |v.fX| := by
      by_contra hcon
      have hx0 : |v.fX| = 0 := le_antisymm (not_lt.mp hcon) hx
      have hy0 : |v.fY| = 0 := le_antisymm (by rw [← hx0]; exact not_lt.mp h1) hy
      have hz0 : |v.fZ| = 0 := le_antisymm (by rw [← hy0]; exact not_lt.mp h3) hz
      rw [abs_eq_zero] at hx0 hy0 hz0
      simp [TVector3.Mag2, hx0, hy0, hz0] at hv
    have := sqpos v.fX hxpos
    simp only [TVector3.Mag2]
    nlinarith [sqnn v.fY]

/-- The matrix of `TRotation::Rotate` about a unit axis `(dx, dy, dz)` keeps the
component along the axis. -/
theorem rotation_keeps_axis_component (ca sa dx dy dz ll vx vy vz : α)
    (hn : dx * dx + dy * dy + dz * dz = 1) :
    ((ca + (1 - ca) * dx * dx) * vx + ((1 - ca) * dx * dy - sa * dz) * vy
        + ((1 - ca) * dx * dz + sa * dy) * vz) * (dx * ll)
      + (((1 - ca) * dy * dx + sa * dz) * vx + (ca + (1 - ca) * dy * dy) * vy
        + ((1 - ca) * dy * dz - sa * dx) * vz) * (dy * ll)
      + (((1 - ca) * dz * dx - sa * dy) * vx + ((1 - ca) * dz * dy + sa * dx) * vy
        + (ca + (1 - ca) * dz * dz) * vz) * (dz * ll)
      = vx * (dx * ll) + vy * (dy * ll) + vz * (dz * ll) := by
  linear_combination (ll * (1 - ca) * (vx * dx + vy * dy + vz * dz)) * hn

/-- The matrix of `TRotation::Rotate` about a unit axis keeps the norm. -/
theorem rotation_keeps_norm (ca sa dx dy dz vx vy vz : α)
    (hn : dx * dx + dy * dy + dz * dz = 1) (hcs : sa * sa + ca * ca = 1) :
    ((ca + (1 - ca) * dx * dx) * vx + ((1 - ca) * dx * dy - sa * dz) * vy
        + ((1 - ca) * dx * dz + sa * dy) * vz)
      * ((ca + (1 - ca) * dx * dx) * vx + ((1 - ca) * dx * dy - sa * dz) * vy
        + ((1 - ca) * dx * dz + sa * dy) * vz)
      + (((1 - ca) * dy * dx + sa * dz) * vx + (ca + (1 - ca) * dy * dy) * vy
        + ((1 - ca) * dy * dz - sa * dx) * vz)
      * (((1 - ca) * dy * dx + sa * dz) * vx + (ca + (1 - ca) * dy * dy) * vy
        + ((1 - ca) * dy * dz - sa * dx) * vz)
      + (((1 - ca) * dz * dx - sa * dy) * vx + ((1 - ca) * dz * dy + sa * dx) * vy
        + (ca + (1 - ca) * dz * dz) * vz)
      * (((1 - ca) * dz * dx - sa * dy) * vx + ((1 - ca) * dz * dy + sa * dx) * vy
        + (ca + (1 - ca) * dz * dz) * vz)
      = vx * vx + vy * vy + vz * vz := by
  linear_combination
    (sa * sa * (vx * vx + vy * vy + vz * vz)
        + (1 - ca) * (1 - ca) * ((dx * vx + dy * vy + dz * vz) * (dx * vx + dy * vy + dz * vz))) * hn
      + (vx * vx + vy * vy + vz * vz
        - (dx * vx + dy * vy + dz * vz) * (dx * vx + dy * vy + dz * vz)) * hcs

/-- Method `TVector3::Rotate` about a non-zero axis, over the reals: the component
along the axis and the norm are kept. -/
theorem TVector3.Rotate_real (v axis : TVector3 ℝ) (angle : ℝ) (hax : 0 < axis.Mag2) :
    (v.Rotate ⟨Real.sqrt, Real.cos, Real.sin⟩ angle axis).Dot axis = v.Dot axis ∧
    (v.Rotate ⟨Real.sqrt, Real.cos, Real.sin⟩ angle axis).Mag2 = v.Mag2 := by
  unfold TVector3.Rotate
  by_cases ha : angle = 0
  · simp [ha]
  · have hll : Real.sqrt axis.Mag2 ≠ 0 := (Real.sqrt_pos.2 hax).ne'
    simp only [ne_eq, ha, not_false_eq_true, if_true, TVector3.Mag, hll, if_false]
    have hx : axis.fX = axis.fX / Real.sqrt axis.Mag2 * Real.sqrt axis.Mag2 := by field_simp
    have hy : axis.fY = axis.fY / Real.sqrt axis.Mag2 * Real.sqrt axis.Mag2 := by field_simp
    have hz : axis.fZ = axis.fZ / Real.sqrt axis.Mag2 * Real.sqrt axis.Mag2 := by field_simp
    have hn : axis.fX / Real.sqrt axis.Mag2 * (axis.fX / Real.sqrt axis.Mag2)
        + axis.fY / Real.sqrt axis.Mag2 * (axis.fY / Real.sqrt axis.Mag2)
        + axis.fZ / Real.sqrt axis.Mag2 * (axis.fZ / Real.sqrt axis.Mag2) = 1 := by
      field_simp
      rfl
    have hcs : Real.sin angle * Real.sin angle + Real.cos angle * Real.cos angle = 1 := by
      have := Real.sin_sq_add_cos_sq angle
      nlinarith [this]
    constructor
    · have key := rotation_keeps_axis_component (Real.cos angle) (Real.sin angle)
        (axis.fX / Real.sqrt axis.Mag2) (axis.fY / Real.sqrt axis.Mag2)
        (axis.fZ / Real.sqrt axis.Mag2) (Real.sqrt axis.Mag2) v.fX v.fY v.fZ hn
      rw [← hx, ← hy, ← hz] at key
      simpa only [TVector3.Dot] using key
    · have key := rotation_keeps_norm (Real.cos angle) (Real.sin angle)
        (axis.fX / Real.sqrt axis.Mag2) (axis.fY / Real.sqrt axis.Mag2)
        (axis.fZ / Real.sqrt axis.Mag2) v.fX v.fY v.fZ hn hcs
      simpa only [TVector3.Mag2] using key

/-- Method `TVector3::SetMag` on a non-zero vector, over the reals: the direction is
kept and the squared norm is the square of the argument. -/
theorem TVector3.SetMag_real (v w : TVector3 ℝ) (ma : ℝ) (hv : 0 < v.Mag2) :
    (v.SetMag ⟨Real.sqrt, Real.cos, Real.sin⟩ ma).Dot w = ma / Real.sqrt v.Mag2 * v.Dot w ∧
    (v.SetMag ⟨Real.sqrt, Real.cos, Real.sin⟩ ma).Mag2 = ma * ma := by
  have hll : Real.sqrt v.Mag2 ≠ 0 := (Real.sqrt_pos.2 hv).ne'
  have hsq : Real.sqrt v.Mag2 * Real.sqrt v.Mag2 = v.Mag2 := Real.mul_self_sqrt hv.le
  unfold TVector3.SetMag
  simp only [TVector3.Mag, hll, if_false]
  constructor
  · simp only [TVector3.Dot]
    ring
  · have e : (v.fX * (ma / Real.sqrt v.Mag2)) * (v.fX * (ma / Real.sqrt v.Mag2))
        + (v.fY * (ma / Real.sqrt v.Mag2)) * (v.fY * (ma / Real.sqrt v.Mag2))
        + (v.fZ * (ma / Real.sqrt v.Mag2)) * (v.fZ * (ma / Real.sqrt v.Mag2))
        = ma * ma * (v.Mag2 / (Real.sqrt v.Mag2 * Real.sqrt v.Mag2)) := by
      simp only [TVector3.Mag2]
      field_simp
      ring
    rw [hsq, div_self hv.ne', mul_one] at e
    simpa only [TVector3.Mag2] using e

/-- The point `GenerateNext` selects on the sphere, over the reals: its squared
norm is `fRl^2`. -/
theorem GBartolAtmoFlux.surfacePoint_real (kPi : ℝ) (s : GBartolAtmoFlux ℝ) (d : Draws ℝ)
    (hc : -1 ≤ d.aCos8 ∧ d.aCos8 ≤ 1) :
    (surfacePoint ⟨Real.sqrt, Real.cos, Real.sin⟩ kPi s d).Mag2 = s.fRl * s.fRl := by
  have h0 : 0 ≤ 1 - d.aCos8 * d.aCos8 := by nlinarith [hc.1, hc.2]
  have hs := Real.mul_self_sqrt h0
  have ht := Real.sin_sq_add_cos_sq (2 * kPi * d.rPhi)
  simp only [surfacePoint, TVector3.Mag2]
  linear_combination
    (s.fRl * s.fRl * (Real.sin (2 * kPi * d.rPhi) ^ 2 + Real.cos (2 * kPi * d.rPhi) ^ 2)) * hs
      + (s.fRl * s.fRl * (1 - d.aCos8 * d.aCos8)) * ht

/-- With the draw 0 the first species of `readyDriver` is selected. -/
theorem SelectNeutrino_readyDriver (Rl Rt Ev costheta : α) :
    SelectNeutrino (readyDriver Rl Rt) Ev costheta 0 = .ok 0 := by
  rw [SelectNeutrino_unrolled (readyDriver Rl Rt) Ev costheta 0 1 1 1 1
    (binFluxes_binDriver 1 1 1 1 Ev costheta)]
  simp

/-- C6: the generated 4-momentum is the Cartesian form of the sampled spherical
triple and is on the massless shell. Over the reals, for `-1 ≤ cos8 ≤ 1`, when
`GenerateNext` selects a species it returns true with
`(px, py, pz, E) = (-Ev*s*sin(phi), -Ev*s*cos(phi), -Ev*cos8, Ev)`, where
`s = sqrt(1 - cos8^2)` and `phi = 2*kPi*r`, and `px^2 + py^2 + pz^2 = E^2`. -/
theorem C6_momentum_on_massless_shell (kPi : ℝ) (s : GBartolAtmoFlux ℝ) (d : Draws ℝ)
    (hs : TH2D ℝ) (iflux : Nat) (pdgc : Int)
    (hsum : s.fFluxSum2D = some hs)
    (hsel : SelectNeutrino s d.aEv d.aCos8 d.rSel = .ok iflux)
    (hpdg : s.fPdgCList.get? iflux = some pdgc)
    (hc : -1 ≤ d.aCos8 ∧ d.aCos8 ≤ 1) :
    ∃ s', GenerateNext ⟨Real.sqrt, Real.cos, Real.sin⟩ kPi s d = .ok (true, s') ∧
      s'.fgP4.fP.fX = -d.aEv * Real.sqrt (1 - d.aCos8 ^ 2) * Real.sin (2 * kPi * d.rPhi) ∧
      s'.fgP4.fP.fY = -d.aEv * Real.sqrt (1 - d.aCos8 ^ 2) * Real.cos (2 * kPi * d.rPhi) ∧
      s'.fgP4.fP.fZ = -d.aEv * d.aCos8 ∧
      s'.fgP4.fE = d.aEv ∧
      s'.fgP4.fP.fX ^ 2 + s'.fgP4.fP.fY ^ 2 + s'.fgP4.fP.fZ ^ 2 = s'.fgP4.fE ^ 2 := by
  refine ⟨_, GenerateNext_returns _ kPi s d hs iflux pdgc hsum hsel hpdg, ?_, ?_, ?_, rfl, ?_⟩
  · simp only [momentum]
    rw [sq]
    ring
  · simp only [momentum]
    rw [sq]
    ring
  · simp only [momentum]
    ring
  · have h0 : 0 ≤ 1 - d.aCos8 * d.aCos8 := by nlinarith [hc.1, hc.2]
    have hsq := Real.mul_self_sqrt h0
    have ht := Real.sin_sq_add_cos_sq (2 * kPi * d.rPhi)
    simp only [momentum]
    linear_combination
      (d.aEv ^ 2 * (Real.sin (2 * kPi * d.rPhi) ^ 2 + Real.cos (2 * kPi * d.rPhi) ^ 2)) * hsq
        + (d.aEv ^ 2 * (1 - d.aCos8 * d.aCos8)) * ht

/-- C6, an instance: `Ev = 2`, `cos8 = 1/2`. -/
theorem C6_witness :
    ((readyDriver (1 : ℝ) 1).fFluxSum2D ≠ none ∧
      SelectNeutrino (readyDriver (1 : ℝ) 1) 2 (1 / 2) 0 = .ok 0 ∧
      (readyDriver (1 : ℝ) 1).fPdgCList.get? 0 = some 14 ∧
      (-1 : ℝ) ≤ 1 / 2 ∧ (1 / 2 : ℝ) ≤ 1) ∧
    ∃ s', GenerateNext ⟨Real.sqrt, Real.cos, Real.sin⟩ Real.pi (readyDriver (1 : ℝ) 1)
        ⟨2, 1 / 2, 1 / 4, 0, 1 / 4, 1 / 2⟩ = .ok (true, s') ∧
      s'.fgP4.fE = 2 ∧
      s'.fgP4.fP.fX ^ 2 + s'.fgP4.fP.fY ^ 2 + s'.fgP4.fP.fZ ^ 2 = s'.fgP4.fE ^ 2 := by
  refine ⟨⟨by simp [readyDriver, SetRadii, AddAllFluxes], SelectNeutrino_readyDriver _ _ _ _, rfl,
    by norm_num, by norm_num⟩, ?_⟩
  obtain ⟨s', h1, _, _, _, h5, h6⟩ :=
    C6_momentum_on_massless_shell Real.pi (readyDriver (1 : ℝ) 1)
      ⟨2, 1 / 2, 1 / 4, 0, 1 / 4, 1 / 2⟩ _ 0 14 rfl (SelectNeutrino_readyDriver _ _ _ _) rfl
      ⟨by norm_num, by norm_num⟩
  exact ⟨s', h1, h5, h6⟩

/-- C7: the generated momentum is directed inward, towards the detector at the
origin. Over the reals, for `-1 ≤ cos8 ≤ 1`, when `GenerateNext` selects a
species it returns true, and the momentum 3-vector `p` it stores and the
undisplaced surface point `x0 = fRl*(s*sin(phi), s*cos(phi), cos8)` satisfy
`fRl*p = -Ev*x0` and `p.x0 = -Ev*fRl`, which is at most 0 whenever `Ev ≥ 0` and
`fRl ≥ 0`. -/
theorem C7_momentum_directed_inward (kPi : ℝ) (s : GBartolAtmoFlux ℝ) (d : Draws ℝ)
    (hs : TH2D ℝ) (iflux : Nat) (pdgc : Int)
    (hsum : s.fFluxSum2D = some hs)
    (hsel : SelectNeutrino s d.aEv d.aCos8 d.rSel = .ok iflux)
    (hpdg : s.fPdgCList.get? iflux = some pdgc)
    (hc : -1 ≤ d.aCos8 ∧ d.aCos8 ≤ 1) :
    ∃ s', GenerateNext ⟨Real.sqrt, Real.cos, Real.sin⟩ kPi s d = .ok (true, s') ∧
      surfacePoint ⟨Real.sqrt, Real.cos, Real.sin⟩ kPi s d
        = ⟨s.fRl * Real.sqrt (1 - d.aCos8 * d.aCos8) * Real.sin (2 * kPi * d.rPhi),
           s.fRl * Real.sqrt (1 - d.aCos8 * d.aCos8) * Real.cos (2 * kPi * d.rPhi),
           s.fRl * d.aCos8⟩ ∧
      s.fRl * s'.fgP4.fP.fX
        = -d.aEv * (surfacePoint ⟨Real.sqrt, Real.cos, Real.sin⟩ kPi s d).fX ∧
      s.fRl * s'.fgP4.fP.fY
        = -d.aEv * (surfacePoint ⟨Real.sqrt, Real.cos, Real.sin⟩ kPi s d).fY ∧
      s.fRl * s'.fgP4.fP.fZ
        = -d.aEv * (surfacePoint ⟨Real.sqrt, Real.cos, Real.sin⟩ kPi s d).fZ ∧
      s'.fgP4.fP.Dot (surfacePoint ⟨Real.sqrt, Real.cos, Real.sin⟩ kPi s d)
        = -d.aEv * s.fRl ∧
      (0 ≤ d.aEv → 0 ≤ s.fRl →
        s'.fgP4.fP.Dot (surfacePoint ⟨Real.sqrt, Real.cos, Real.sin⟩ kPi s d) ≤ 0) := by
  have h0 : 0 ≤ 1 - d.aCos8 * d.aCos8 := by nlinarith [hc.1, hc.2]
  have hsq := Real.mul_self_sqrt h0
  have ht := Real.sin_sq_add_cos_sq (2 * kPi * d.rPhi)
  have hdot : (momentum ⟨Real.sqrt, Real.cos, Real.sin⟩ kPi d).Dot
      (surfacePoint ⟨Real.sqrt, Real.cos, Real.sin⟩ kPi s d) = -d.aEv * s.fRl := by
    simp only [momentum, surfacePoint, TVector3.Dot]
    linear_combination
      (-d.aEv * s.fRl * (Real.sin (2 * kPi * d.rPhi) ^ 2 + Real.cos (2 * kPi * d.rPhi) ^ 2)) * hsq
        + (-d.aEv * s.fRl * (1 - d.aCos8 * d.aCos8)) * ht
  refine ⟨_, GenerateNext_returns _ kPi s d hs iflux pdgc hsum hsel hpdg, rfl, ?_, ?_, ?_, hdot, ?_⟩
  · simp only [momentum, surfacePoint]
    ring
  · simp only [momentum, surfacePoint]
    ring
  · simp only [momentum, surfacePoint]
    ring
  · intro hE hR
    show (momentum ⟨Real.sqrt, Real.cos, Real.sin⟩ kPi d).Dot
      (surfacePoint ⟨Real.sqrt, Real.cos, Real.sin⟩ kPi s d) ≤ 0
    rw [hdot]
    nlinarith [mul_nonneg hE hR]

/-- C7, an instance: `Ev = 2`, `cos8 = 1/2`, `fRl = 3`. -/
theorem C7_witness :
    ((readyDriver (3 : ℝ) 1).fFluxSum2D ≠ none ∧
      SelectNeutrino (readyDriver (3 : ℝ) 1) 2 (1 / 2) 0 = .ok 0 ∧
      (readyDriver (3 : ℝ) 1).fPdgCList.get? 0 = some 14 ∧
      (-1 : ℝ) ≤ 1 / 2 ∧ (1 / 2 : ℝ) ≤ 1) ∧
    ∃ s', GenerateNext ⟨Real.sqrt, Real.cos, Real.sin⟩ Real.pi (readyDriver (3 : ℝ) 1)
        ⟨2, 1 / 2, 1 / 4, 0, 1 / 4, 1 / 2⟩ = .ok (true, s') ∧
      s'.fgP4.fP.Dot (surfacePoint ⟨Real.sqrt, Real.cos, Real.sin⟩ Real.pi
        (readyDriver (3 : ℝ) 1) ⟨2, 1 / 2, 1 / 4, 0, 1 / 4, 1 / 2⟩) = -2 * 3 := by
  refine ⟨⟨by simp [readyDriver, SetRadii, AddAllFluxes], SelectNeutrino_readyDriver _ _ _ _, rfl,
    by norm_num, by norm_num⟩, ?_⟩
  obtain ⟨s', h1, _, _, _, _, h6, _⟩ :=
    C7_momentum_directed_inward Real.pi (readyDriver (3 : ℝ) 1)
      ⟨2, 1 / 2, 1 / 4, 0, 1 / 4, 1 / 2⟩ _ 0 14 rfl (SelectNeutrino_readyDriver _ _ _ _) rfl
      ⟨by norm_num, by norm_num⟩
  exact ⟨s', h1, h6⟩

/-- The displacement of `GenerateNext` for a non-zero `fRl`, over the reals. -/
theorem GBartolAtmoFlux.displacement_real_ne (kPi : ℝ) (s : GBartolAtmoFlux ℝ) (d : Draws ℝ)
    (hRl : s.fRl ≠ 0) (hc : -1 ≤ d.aCos8 ∧ d.aCos8 ≤ 1) :
    (displacement ⟨Real.sqrt, Real.cos, Real.sin⟩ kPi s d).Dot
        (surfacePoint ⟨Real.sqrt, Real.cos, Real.sin⟩ kPi s d) = 0 ∧
    (displacement ⟨Real.sqrt, Real.cos, Real.sin⟩ kPi s d).Mag2
      = (s.fRt * d.rRt) * (s.fRt * d.rRt) := by
  have hvec : 0 < (surfacePoint ⟨Real.sqrt, Real.cos, Real.sin⟩ kPi s d).Mag2 := by
    rw [surfacePoint_real kPi s d hc]
    exact mul_self_pos.mpr hRl
  have horth := TVector3.Orthogonal_Mag2_pos _ hvec
  have hrot := TVector3.Rotate_real
    (surfacePoint ⟨Real.sqrt, Real.cos, Real.sin⟩ kPi s d).Orthogonal
    (surfacePoint ⟨Real.sqrt, Real.cos, Real.sin⟩ kPi s d) (2 * kPi * d.rPsi) hvec
  have hrotpos : 0 < ((surfacePoint ⟨Real.sqrt, Real.cos, Real.sin⟩ kPi s d).Orthogonal.Rotate
      ⟨Real.sqrt, Real.cos, Real.sin⟩ (2 * kPi * d.rPsi)
      (surfacePoint ⟨Real.sqrt, Real.cos, Real.sin⟩ kPi s d)).Mag2 := by
    rw [hrot.2]
    exact horth
  have hset := TVector3.SetMag_real _
    (surfacePoint ⟨Real.sqrt, Real.cos, Real.sin⟩ kPi s d) (s.fRt * d.rRt) hrotpos
  simp only [displacement]
  refine ⟨?_, hset.2⟩
  rw [hset.1, hrot.1, TVector3.Orthogonal_dot, mul_zero]

/-- C8: the position is displaced by a random offset inside a transverse disk.
Over the reals, for `fRl > 0`, `fRt ≥ 0`, `-1 ≤ cos8 ≤ 1` and draws in `[0,1)`
for `psi` and `Rt`, when `GenerateNext` selects a species it returns true, and the
difference between the position it stores and the surface point `x0` is
perpendicular to `x0` and has norm `fRt*r`, which is less than or equal to
`fRt`. -/
theorem C8_displacement_in_transverse_disk (kPi : ℝ) (s : GBartolAtmoFlux ℝ) (d : Draws ℝ)
    (hs : TH2D ℝ) (iflux : Nat) (pdgc : Int)
    (hsum : s.fFluxSum2D = some hs)
    (hsel : SelectNeutrino s d.aEv d.aCos8 d.rSel = .ok iflux)
    (hpdg : s.fPdgCList.get? iflux = some pdgc)
    (hRl : 0 < s.fRl) (hRt : 0 ≤ s.fRt)
    (hc : -1 ≤ d.aCos8 ∧ d.aCos8 ≤ 1)
    (_hpsi : 0 ≤ d.rPsi ∧ d.rPsi < 1) (hr : 0 ≤ d.rRt ∧ d.rRt < 1) :
    ∃ s', GenerateNext ⟨Real.sqrt, Real.cos, Real.sin⟩ kPi s d = .ok (true, s') ∧
      (TVector3.mk
        (s'.fgX4.fP.fX - (surfacePoint ⟨Real.sqrt, Real.cos, Real.sin⟩ kPi s d).fX)
        (s'.fgX4.fP.fY - (surfacePoint ⟨Real.sqrt, Real.cos, Real.sin⟩ kPi s d).fY)
        (s'.fgX4.fP.fZ - (surfacePoint ⟨Real.sqrt, Real.cos, Real.sin⟩ kPi s d).fZ)).Dot
          (surfacePoint ⟨Real.sqrt, Real.cos, Real.sin⟩ kPi s d) = 0 ∧
      (TVector3.mk
        (s'.fgX4.fP.fX - (surfacePoint ⟨Real.sqrt, Real.cos, Real.sin⟩ kPi s d).fX)
        (s'.fgX4.fP.fY - (surfacePoint ⟨Real.sqrt, Real.cos, Real.sin⟩ kPi s d).fY)
        (s'.fgX4.fP.fZ - (surfacePoint ⟨Real.sqrt, Real.cos, Real.sin⟩ kPi s d).fZ)).Mag
          ⟨Real.sqrt, Real.cos, Real.sin⟩ = s.fRt * d.rRt ∧
      s.fRt * d.rRt ≤ s.fRt := by
  obtain ⟨hperp, hnorm⟩ := displacement_real_ne kPi s d hRl.ne' hc
  have hdiff : ∀ a b : ℝ, a + b - a = b := fun a b => by ring
  refine ⟨_, GenerateNext_returns _ kPi s d hs iflux pdgc hsum hsel hpdg, ?_, ?_, ?_⟩
  · simp only [hdiff]
    exact hperp
  · simp only [hdiff, TVector3.Mag]
    have e : (TVector3.mk (displacement ⟨Real.sqrt, Real.cos, Real.sin⟩ kPi s d).fX
        (displacement ⟨Real.sqrt, Real.cos, Real.sin⟩ kPi s d).fY
        (displacement ⟨Real.sqrt, Real.cos, Real.sin⟩ kPi s d).fZ)
        = displacement ⟨Real.sqrt, Real.cos, Real.sin⟩ kPi s d := rfl
    rw [e, hnorm]
    exact Real.sqrt_mul_self (mul_nonneg hRt hr.1)
  · nlinarith [hr.1, hr.2]

/-- C8, an instance: radii `fRl = 3`, `fRt = 2` and the draw `1/2` for `Rt`. -/
theorem C8_witness :
    ((readyDriver (3 : ℝ) 2).fFluxSum2D ≠ none ∧
      SelectNeutrino (readyDriver (3 : ℝ) 2) 2 (1 / 2) 0 = .ok 0 ∧
      (readyDriver (3 : ℝ) 2).fPdgCList.get? 0 = some 14 ∧
      (0 : ℝ) < 3 ∧ (0 : ℝ) ≤ 2 ∧ (-1 : ℝ) ≤ 1 / 2 ∧ (1 / 2 : ℝ) ≤ 1 ∧
      (0 : ℝ) ≤ 1 / 4 ∧ (1 / 4 : ℝ) < 1 ∧ (0 : ℝ) ≤ 1 / 2 ∧ (1 / 2 : ℝ) < 1) ∧
    ∃ s', GenerateNext ⟨Real.sqrt, Real.cos, Real.sin⟩ Real.pi (readyDriver (3 : ℝ) 2)
        ⟨2, 1 / 2, 1 / 4, 0, 1 / 4, 1 / 2⟩ = .ok (true, s') ∧
      (TVector3.mk
        (s'.fgX4.fP.fX - (surfacePoint ⟨Real.sqrt, Real.cos, Real.sin⟩ Real.pi
          (readyDriver (3 : ℝ) 2) ⟨2, 1 / 2, 1 / 4, 0, 1 / 4, 1 / 2⟩).fX)
        (s'.fgX4.fP.fY - (surfacePoint ⟨Real.sqrt, Real.cos, Real.sin⟩ Real.pi
          (readyDriver (3 : ℝ) 2) ⟨2, 1 / 2, 1 / 4, 0, 1 / 4, 1 / 2⟩).fY)
        (s'.fgX4.fP.fZ - (surfacePoint ⟨Real.sqrt, Real.cos, Real.sin⟩ Real.pi
          (readyDriver (3 : ℝ) 2) ⟨2, 1 / 2, 1 / 4, 0, 1 / 4, 1 / 2⟩).fZ)).Mag
          ⟨Real.sqrt, Real.cos, Real.sin⟩ = 2 * (1 / 2) := by
  refine ⟨⟨by simp [readyDriver, SetRadii, AddAllFluxes], SelectNeutrino_readyDriver _ _ _ _, rfl,
    by norm_num, by norm_num, by norm_num, by norm_num, by norm_num, by norm_num, by norm_num,
    by norm_num⟩, ?_⟩
  obtain ⟨s', h1, _, h3, _⟩ :=
    C8_displacement_in_transverse_disk Real.pi (readyDriver (3 : ℝ) 2)
      ⟨2, 1 / 2, 1 / 4, 0, 1 / 4, 1 / 2⟩ _ 0 14 rfl (SelectNeutrino_readyDriver _ _ _ _) rfl
      (by simp [readyDriver, SetRadii]) (by simp [readyDriver, SetRadii])
      ⟨by norm_num, by norm_num⟩ ⟨by norm_num, by norm_num⟩ ⟨by norm_num, by norm_num⟩
  exact ⟨s', h1, h3⟩

/-- The no-species assertion in exact arithmetic. If the four bin contents at
`(Ev, costheta)` are all zero then, for every draw, `SelectNeutrino` returns no
index and reaches its assertion; for contents with positive sum and a draw `u`
in `[0,1)` it returns an index below 4, so the assertion is not reached. Hence
for non-negative contents and a draw in `[0,1)` the assertion is reached exactly
when the bin is empty. -/
theorem no_species_assertion_exact (s : GBartolAtmoFlux α) (Ev costheta u f0 f1 f2 f3 : α)
    (hbin : binFluxes s Ev costheta = some [f0, f1, f2, f3]) :
    (f0 = 0 → f1 = 0 → f2 = 0 → f3 = 0 →
      SelectNeutrino s Ev costheta u = .error Abort.assertNoSpecies) ∧
    (0 < f0 + f1 + f2 + f3 → 0 ≤ u → u < 1 →
      ∃ i, i < 4 ∧ SelectNeutrino s Ev costheta u = .ok i) ∧
    (0 ≤ f0 → 0 ≤ f1 → 0 ≤ f2 → 0 ≤ f3 → 0 ≤ u → u < 1 →
      (SelectNeutrino s Ev costheta u = .error Abort.assertNoSpecies ↔
        f0 = 0 ∧ f1 = 0 ∧ f2 = 0 ∧ f3 = 0)) := by
  rw [SelectNeutrino_unrolled s Ev costheta u f0 f1 f2 f3 hbin]
  have hpos : 0 < f0 + f1 + f2 + f3 → u < 1 →
      ∃ i, i < 4 ∧
        (if (f0 + f1 + f2 + f3) * u < f0 then (.ok 0 : Except Abort Nat)
          else if (f0 + f1 + f2 + f3) * u < f0 + f1 then .ok 1
          else if (f0 + f1 + f2 + f3) * u < f0 + f1 + f2 then .ok 2
          else if (f0 + f1 + f2 + f3) * u < f0 + f1 + f2 + f3 then .ok 3
          else .error Abort.assertNoSpecies) = .ok i := by
    intro hS hu1
    have hlt : (f0 + f1 + f2 + f3) * u < f0 + f1 + f2 + f3 := by
      simpa using mul_lt_mul_of_pos_left hu1 hS
    split_ifs
    · exact ⟨0, by norm_num, rfl⟩
    · exact ⟨1, by norm_num, rfl⟩
    · exact ⟨2, by norm_num, rfl⟩
    · exact ⟨3, by norm_num, rfl⟩
  have hzero : f0 = 0 → f1 = 0 → f2 = 0 → f3 = 0 →
      (if (f0 + f1 + f2 + f3) * u < f0 then (.ok 0 : Except Abort Nat)
        else if (f0 + f1 + f2 + f3) * u < f0 + f1 then .ok 1
        else if (f0 + f1 + f2 + f3) * u < f0 + f1 + f2 then .ok 2
        else if (f0 + f1 + f2 + f3) * u < f0 + f1 + f2 + f3 then .ok 3
        else .error Abort.assertNoSpecies) = .error Abort.assertNoSpecies := by
    intro h0 h1 h2 h3
    simp [h0, h1, h2, h3]
  refine ⟨hzero, fun hS _ hu1 => hpos hS hu1, ?_⟩
  intro n0 n1 n2 n3 _ hu1
  constructor
  · intro herr
    by_contra hne
    have hS : 0 < f0 + f1 + f2 + f3 := by
      rcases (lt_or_eq_of_le (by linarith : (0 : α) ≤ f0 + f1 + f2 + f3)) with h | h
      · exact h
      · exfalso
        apply hne
        exact ⟨by linarith, by linarith, by linarith, by linarith⟩
    obtain ⟨i, _, hi⟩ := hpos hS hu1
    rw [hi] at herr
    simp at herr
  · rintro ⟨h0, h1, h2, h3⟩
    exact hzero h0 h1 h2 h3

/-- C10 (as amended): the no-species error and the empty bin. In any
arithmetic, that of `double` included, `SelectNeutrino` reaches its assertion
exactly when no running sum `c_i`, as the code computes it, is above
`R = flux_sum*u`. If the four bin contents at `(Ev, costheta)` are all zero this
is so for every draw, in the arithmetic of the code and in exact arithmetic
alike: no index is returned and the assertion is reached. In the arithmetic
of the code, for contents whose sum `flux_sum` is finite and above
`DBL_MIN = 2^-1022` and a binary64 draw `u` in `[0,1)`, `R` is below `flux_sum`, an index
below 4 is returned and the assertion is not reached. Over the reals (in
exact arithmetic) this holds for all contents with positive sum and every draw
`u` in `[0,1)`, and for non-negative contents and a draw in `[0,1)` the assertion
is reached exactly when the bin is empty. -/
theorem C10_no_species_assertion {γ : Type} [Zero γ] [Add γ] [Mul γ] [LT γ] [LE γ]
    [DecidableRel (fun a b : γ => a < b)] [DecidableRel (fun a b : γ => a ≤ b)]
    (t : GBartolAtmoFlux γ) (Et ct v g0 g1 g2 g3 : γ)
    (hbint : binFluxes t Et ct = some [g0, g1, g2, g3])
    (z : GBartolAtmoFlux cxx.Double) (Ez cz w d0 d1 d2 d3 : cxx.Double)
    (hbinz : binFluxes z Ez cz = some [d0, d1, d2, d3])
    (hmin : double_min < fluxSum [d0, d1, d2, d3])
    (hfin : fluxSum [d0, d1, d2, d3] < cxx.Double.inf false)
    (hw : w.isBinary64 = true) (hw0 : 0 ≤ w) (hw1 : w < 1)
    (s : GBartolAtmoFlux α) (Ev costheta u f0 f1 f2 f3 : α)
    (hbin : binFluxes s Ev costheta = some [f0, f1, f2, f3]) :
    (SelectNeutrino t Et ct v = .error Abort.assertNoSpecies ↔
      ∀ j, j < 4 →
        ¬ (fluxSum [g0, g1, g2, g3] * v < fluxSum ([g0, g1, g2, g3].take (j + 1)))) ∧
    (∀ (e : GBartolAtmoFlux cxx.Double) (Ee ce r : cxx.Double),
      binFluxes e Ee ce = some [0, 0, 0, 0] →
      SelectNeutrino e Ee ce r = .error Abort.assertNoSpecies) ∧
    (fluxSum [d0, d1, d2, d3] * w < fluxSum [d0, d1, d2, d3] ∧
      (∃ i, i < 4 ∧ SelectNeutrino z Ez cz w = .ok i) ∧
      SelectNeutrino z Ez cz w ≠ .error Abort.assertNoSpecies) ∧
    (f0 = 0 → f1 = 0 → f2 = 0 → f3 = 0 →
      SelectNeutrino s Ev costheta u = .error Abort.assertNoSpecies) ∧
    (0 < f0 + f1 + f2 + f3 → 0 ≤ u → u < 1 →
      ∃ i, i < 4 ∧ SelectNeutrino s Ev costheta u = .ok i) ∧
    (0 ≤ f0 → 0 ≤ f1 → 0 ≤ f2 → 0 ≤ f3 → 0 ≤ u → u < 1 →
      (SelectNeutrino s Ev costheta u = .error Abort.assertNoSpecies ↔
        f0 = 0 ∧ f1 = 0 ∧ f2 = 0 ∧ f3 = 0)) := by
  obtain ⟨hlt, i, hi, hsel⟩ :=
    SelectNeutrino_returns_double z Ez cz w d0 d1 d2 d3 hbinz hmin hfin hw hw0 hw1
  refine ⟨SelectNeutrino_assert_iff t Et ct v g0 g1 g2 g3 hbint,
    fun e Ee ce r he => SelectNeutrino_zero_bin_double e Ee ce r he,
    ⟨hlt, ⟨i, hi, hsel⟩, ?_⟩,
    no_species_assertion_exact s Ev costheta u f0 f1 f2 f3 hbin⟩
  rw [hsel]
  exact fun h => by cases h

/-- C10, the claim as stated fails in the arithmetic of the code: contents with
positive sum and a draw in `[0,1)` that reach the assertion. With the contents
`(5e-324, 0, 0, 0)` and the draw `0.75` the product `R = 5e-324 * 0.75` rounds to
`5e-324`, which no running sum exceeds; with the contents `(inf, 1, 1, 1)`, an
infinite content being what a table row with energy 0 leaves in its bin, and
the draw `0.5`, the sum and `R` are infinite. -/
theorem C10_counterexample :
    (double_5e_324.isBinary64 = true ∧ double_0_75.isBinary64 = true ∧
      (0 : ℚ) < double_5e_324.toRat + 0 + 0 + 0 ∧
      (0 : ℚ) ≤ double_0_75.toRat ∧ double_0_75.toRat < 1 ∧
      (0 : cxx.Double) < fluxSum [double_5e_324, 0, 0, 0] ∧
      (0 : cxx.Double) ≤ double_0_75 ∧ double_0_75 < 1 ∧
      double_5e_324 * double_0_75 = double_5e_324 ∧
      binFluxes (binDriver double_5e_324 0 0 0) 1 1 = some [double_5e_324, 0, 0, 0] ∧
      SelectNeutrino (binDriver double_5e_324 0 0 0) 1 1 double_0_75
        = .error Abort.assertNoSpecies) ∧
    ((0 : cxx.Double) < fluxSum [cxx.Double.inf false, 1, 1, 1] ∧
      (0 : cxx.Double) ≤ double_0_5 ∧ double_0_5 < 1 ∧
      binFluxes (binDriver (cxx.Double.inf false) 1 1 1) 1 1
        = some [cxx.Double.inf false, 1, 1, 1] ∧
      SelectNeutrino (binDriver (cxx.Double.inf false) 1 1 1) 1 1 double_0_5
        = .error Abort.assertNoSpecies) := by
  refine ⟨⟨rfl, rfl, ?_, ?_, ?_, by decide, by decide, by decide, rfl,
      binFluxes_binDriver _ _ _ _ _ _, rfl⟩,
    ⟨by decide, by decide, by decide, binFluxes_binDriver _ _ _ _ _ _, rfl⟩⟩
  · norm_num [cxx.Double.toRat, cxx.Double.signed, double_5e_324]
  · norm_num [cxx.Double.toRat, cxx.Double.signed, double_0_75]
  · norm_num [cxx.Double.toRat, cxx.Double.signed, double_0_75]

/-- C10, instances: in the arithmetic of the code, an empty bin with the draw
`0.5`, and the contents `(0.1, 0.2, 0.3, 0)` with the same draw; in exact
arithmetic, an empty bin with the draw `1/2`, and the contents `(0, 0, 1, 0)` with
the same draw. -/
theorem C10_witness :
    (binFluxes (binDriver (0 : cxx.Double) 0 0 0) 1 1 = some [0, 0, 0, 0] ∧
      SelectNeutrino (binDriver (0 : cxx.Double) 0 0 0) 1 1 double_0_5
        = .error Abort.assertNoSpecies) ∧
    (binFluxes (binDriver double_0_1 double_0_2 double_0_3 0) 1 1
        = some [double_0_1, double_0_2, double_0_3, 0] ∧
      double_min < fluxSum [double_0_1, double_0_2, double_0_3, 0] ∧
      fluxSum [double_0_1, double_0_2, double_0_3, 0] < cxx.Double.inf false ∧
      double_0_5.isBinary64 = true ∧ (0 : cxx.Double) ≤ double_0_5 ∧ double_0_5 < 1 ∧
      ∃ i, i < 4 ∧
        SelectNeutrino (binDriver double_0_1 double_0_2 double_0_3 0) 1 1 double_0_5 = .ok i) ∧
    (binFluxes (binDriver (0 : ℚ) 0 0 0) 1 1 = some [0, 0, 0, 0] ∧
      SelectNeutrino (binDriver (0 : ℚ) 0 0 0) 1 1 (1 / 2) = .error Abort.assertNoSpecies) ∧
    (binFluxes (binDriver (0 : ℚ) 0 1 0) 1 1 = some [0, 0, 1, 0] ∧
      ∃ i, i < 4 ∧ SelectNeutrino (binDriver (0 : ℚ) 0 1 0) 1 1 (1 / 2) = .ok i) := by
  have h0 := C10_no_species_assertion
    (binDriver (0 : cxx.Double) 0 0 0) 1 1 double_0_5 0 0 0 0
    (binFluxes_binDriver _ _ _ _ _ _)
    (binDriver double_0_1 double_0_2 double_0_3 0) 1 1
    double_0_5 double_0_1 double_0_2 double_0_3 0 (binFluxes_binDriver _ _ _ _ _ _)
    (by decide) (by decide) rfl (by decide) (by decide)
    (binDriver (0 : ℚ) 0 0 0) 1 1 (1 / 2) 0 0 0 0 (binFluxes_binDriver _ _ _ _ _ _)
  have h1 := C10_no_species_assertion
    (binDriver (0 : cxx.Double) 0 0 0) 1 1 double_0_5 0 0 0 0
    (binFluxes_binDriver _ _ _ _ _ _)
    (binDriver double_0_1 double_0_2 double_0_3 0) 1 1
    double_0_5 double_0_1 double_0_2 double_0_3 0 (binFluxes_binDriver _ _ _ _ _ _)
    (by decide) (by decide) rfl (by decide) (by decide)
    (binDriver (0 : ℚ) 0 1 0) 1 1 (1 / 2) 0 0 1 0 (binFluxes_binDriver _ _ _ _ _ _)
  exact ⟨⟨binFluxes_binDriver _ _ _ _ _ _,
      h0.2.1 _ 1 1 double_0_5 (binFluxes_binDriver _ _ _ _ _ _)⟩,
    ⟨binFluxes_binDriver _ _ _ _ _ _, by decide, by decide, rfl, by decide, by decide,
      h0.2.2.1.2.1⟩,
    ⟨binFluxes_binDriver _ _ _ _ _ _, h0.2.2.2.1 rfl rfl rfl rfl⟩,
    ⟨binFluxes_binDriver _ _ _ _ _ _,
      h1.2.2.2.2.1 (by norm_num) (by norm_num) (by norm_num)⟩⟩

/-! ## The selected species -/

/-- When `SelectNeutrino` returns an index, the four histograms are there, the
index is below 4, it is the first whose running sum exceeds `R = flux_sum*u`,
and the content of that species in the bin exceeds what is left of `R` above
the previous running sum. -/
theorem GBartolAtmoFlux.SelectNeutrino_ok_inv (s : GBartolAtmoFlux α) (Ev costheta u : α)
    (i : Nat) (h : SelectNeutrino s Ev costheta u = .ok i) :
    ∃ f0 f1 f2 f3, binFluxes s Ev costheta = some [f0, f1, f2, f3] ∧ i < 4 ∧
      (f0 + f1 + f2 + f3) * u < cumFlux [f0, f1, f2, f3] (i + 1) ∧
      (∀ j, j < i → cumFlux [f0, f1, f2, f3] (j + 1) ≤ (f0 + f1 + f2 + f3) * u) ∧
      (0 ≤ (f0 + f1 + f2 + f3) * u → cumFlux [f0, f1, f2, f3] i ≤ (f0 + f1 + f2 + f3) * u) ∧
      (0 ≤ (f0 + f1 + f2 + f3) * u → 0 < [f0, f1, f2, f3].getD i 0) := by
  cases e0 : s.fFlux2D 0 with
  | none => simp [SelectNeutrino, binFluxes, binFluxesFrom, kNNu, e0] at h
  | some h0 =>
  cases e1 : s.fFlux2D 1 with
  | none => simp [SelectNeutrino, binFluxes, binFluxesFrom, kNNu, e0, e1] at h
  | some h1 =>
  cases e2 : s.fFlux2D 2 with
  | none => simp [SelectNeutrino, binFluxes, binFluxesFrom, kNNu, e0, e1, e2] at h
  | some h2 =>
  cases e3 : s.fFlux2D 3 with
  | none => simp [SelectNeutrino, binFluxes, binFluxesFrom, kNNu, e0, e1, e2, e3] at h
  | some h3 =>
    have hbin := binFluxes_of_some s Ev costheta h0 h1 h2 h3 e0 e1 e2 e3
    refine ⟨_, _, _, _, hbin, ?_⟩
    rw [SelectNeutrino_unrolled s Ev costheta u _ _ _ _ hbin] at h
    generalize h0.GetBinContent (h0.FindBin Ev costheta) = f0 at h
    generalize h1.GetBinContent (h1.FindBin Ev costheta) = f1 at h
    generalize h2.GetBinContent (h2.FindBin Ev costheta) = f2 at h
    generalize h3.GetBinContent (h3.FindBin Ev costheta) = f3 at h
    split_ifs at h with c0 c1 c2 c3
    · simp only [Except.ok.injEq] at h
      subst h
      refine ⟨by norm_num, by simpa [cumFlux] using c0, fun j hj => by omega,
        fun hR => by simpa [cumFlux] using hR, fun hR => ?_⟩
      simp only [List.getD_cons_zero]
      linarith
    · simp only [Except.ok.injEq] at h
      subst h
      refine ⟨by norm_num, by simpa [cumFlux] using c1, ?_, fun _ => by
        simpa [cumFlux] using not_lt.mp c0, fun _ => ?_⟩
      · intro j hj
        interval_cases j
        simpa [cumFlux] using not_lt.mp c0
      · simp only [List.getD_cons_succ, List.getD_cons_zero]
        linarith [not_lt.mp c0]
    · simp only [Except.ok.injEq] at h
      subst h
      refine ⟨by norm_num, ?_, ?_, fun _ => ?_, fun _ => ?_⟩
      · simp only [cumFlux, List.take, List.sum_cons, List.sum_nil]
        linarith
      · intro j hj
        interval_cases j
        · simpa [cumFlux] using not_lt.mp c0
        · simpa [cumFlux] using not_lt.mp c1
      · simpa [cumFlux] using not_lt.mp c1
      · simp only [List.getD_cons_succ, List.getD_cons_zero]
        linarith [not_lt.mp c1]
    · simp only [Except.ok.injEq] at h
      subst h
      refine ⟨by norm_num, ?_, ?_, fun _ => ?_, fun _ => ?_⟩
      · simp only [cumFlux, List.take, List.sum_cons, List.sum_nil]
        linarith
      · intro j hj
        interval_cases j
        · simpa [cumFlux] using not_lt.mp c0
        · simpa [cumFlux] using not_lt.mp c1
        · simp only [cumFlux, List.take, List.sum_cons, List.sum_nil]
          linarith [not_lt.mp c2]
      · simp only [cumFlux, List.take, List.sum_cons, List.sum_nil]
        linarith [not_lt.mp c2]
      · simp only [List.getD_cons_succ, List.getD_cons_zero]
        linarith [not_lt.mp c2]

/-- For a positive sum of bin contents and a draw below 1, `SelectNeutrino`
returns an index. -/
theorem GBartolAtmoFlux.SelectNeutrino_returns (s : GBartolAtmoFlux α)
    (Ev costheta u f0 f1 f2 f3 : α)
    (hbin : binFluxes s Ev costheta = some [f0, f1, f2, f3])
    (hS : 0 < f0 + f1 + f2 + f3) (hu1 : u < 1) :
    ∃ i, SelectNeutrino s Ev costheta u = .ok i := by
  rw [SelectNeutrino_unrolled s Ev costheta u f0 f1 f2 f3 hbin]
  have hlt : (f0 + f1 + f2 + f3) * u < f0 + f1 + f2 + f3 := by
    simpa using mul_lt_mul_of_pos_left hu1 hS
  split_ifs
  · exact ⟨0, rfl⟩
  · exact ⟨1, rfl⟩
  · exact ⟨2, rfl⟩
  · exact ⟨3, rfl⟩

/-- C12: the generated PDG code names the species whose histogram was selected,
in any arithmetic: the statement is made for every type with the operations
the driver uses, and its running sums and product are the ones the code
computes. On a driver whose flux-particle
list is the one `Initialize` builds and whose species histograms are those a
returned `LoadFluxData` left, the list and the histograms use the same order:
entry `j` of the list is the code of the species histogram `j` is named after
(0 `numu`, 1 `numubar`, 2 `nue`, 3 `nuebar`). For every call of `GenerateNext` that
returns on such a driver, `SelectNeutrino` returned an index `i < 4`, the stored
code is the entry `i` of the list, hence one of the four codes and the code of
the species histogram `i` is named after, and that species is the one whose
bin content spans the selected cumulative interval: the running sum `c_i` is
the previous running sum plus the content of the bin of `(Ev, cos8)` in
histogram `i`, the value `R = flux_sum*u` is below `c_i` and is not below any
earlier running sum. -/
theorem C12_pdg_code_of_selected_species {γ : Type} [Zero γ] [One γ] [Add γ] [Sub γ] [Mul γ]
    [Div γ] [Neg γ] [LT γ] [LE γ] [DecidableEq γ] [DecidableRel (fun a b : γ => a < b)]
    [DecidableRel (fun a b : γ => a ≤ b)] [OfNat γ 2] [OfNat γ 10000]
    (M : TMath γ) (kPi : γ) (T : GBrtTables γ) (P : PDGCodes) (fs : FileSystem γ)
    (s0 sL s1 s : GBartolAtmoFlux γ) (d : Draws γ) (bL b : Bool) (s' : GBartolAtmoFlux γ)
    (hlist : s.fPdgCList = (Initialize T P s0).fPdgCList)
    (hload : LoadFluxData T fs sL = .ok (bL, s1))
    (hflux : s.fFlux2D = s1.fFlux2D)
    (h : GenerateNext M kPi s d = .ok (b, s')) :
    (∀ j, j < 4 → ∃ hj code, s.fFlux2D j = some hj ∧ s.fPdgCList.get? j = some code ∧
      [("numu", P.kPdgNuMu), ("numubar", P.kPdgAntiNuMu), ("nue", P.kPdgNuE),
        ("nuebar", P.kPdgAntiNuE)].get? j = some (hj.fName, code)) ∧
    ∃ i hi f0 f1 f2 f3, i < 4 ∧
      SelectNeutrino s d.aEv d.aCos8 d.rSel = .ok i ∧
      s.fPdgCList.get? i = some s'.fgPdgC ∧
      s'.fgPdgC ∈ [P.kPdgNuMu, P.kPdgAntiNuMu, P.kPdgNuE, P.kPdgAntiNuE] ∧
      s.fFlux2D i = some hi ∧
      [("numu", P.kPdgNuMu), ("numubar", P.kPdgAntiNuMu), ("nue", P.kPdgNuE),
        ("nuebar", P.kPdgAntiNuE)].get? i = some (hi.fName, s'.fgPdgC) ∧
      binFluxes s d.aEv d.aCos8 = some [f0, f1, f2, f3] ∧
      [f0, f1, f2, f3].get? i = some (hi.GetBinContent (hi.FindBin d.aEv d.aCos8)) ∧
      fluxSum ([f0, f1, f2, f3].take (i + 1))
        = fluxSum ([f0, f1, f2, f3].take i) + hi.GetBinContent (hi.FindBin d.aEv d.aCos8) ∧
      fluxSum [f0, f1, f2, f3] * d.rSel < fluxSum ([f0, f1, f2, f3].take (i + 1)) ∧
      ∀ j, j < i →
        ¬ (fluxSum [f0, f1, f2, f3] * d.rSel < fluxSum ([f0, f1, f2, f3].take (j + 1))) := by
  have hl : s.fPdgCList = [P.kPdgNuMu, P.kPdgAntiNuMu, P.kPdgNuE, P.kPdgAntiNuE] := hlist
  obtain ⟨_, hname⟩ := LoadFluxData_fName T fs sL bL s1 hload
  obtain ⟨g0, e0, n0⟩ := hname 0 (by norm_num)
  obtain ⟨g1, e1, n1⟩ := hname 1 (by norm_num)
  obtain ⟨g2, e2, n2⟩ := hname 2 (by norm_num)
  obtain ⟨g3, e3, n3⟩ := hname 3 (by norm_num)
  rw [← hflux] at e0 e1 e2 e3
  simp only [List.get?_cons_zero, List.get?_cons_succ, Option.some.injEq] at n0 n1 n2 n3
  have horder : ∀ j, j < 4 → ∃ hj code, s.fFlux2D j = some hj ∧ s.fPdgCList.get? j = some code ∧
      [("numu", P.kPdgNuMu), ("numubar", P.kPdgAntiNuMu), ("nue", P.kPdgNuE),
        ("nuebar", P.kPdgAntiNuE)].get? j = some (hj.fName, code) := by
    intro j hj
    rw [hl]
    interval_cases j
    · exact ⟨g0, _, e0, rfl, by rw [← n0]; rfl⟩
    · exact ⟨g1, _, e1, rfl, by rw [← n1]; rfl⟩
    · exact ⟨g2, _, e2, rfl, by rw [← n2]; rfl⟩
    · exact ⟨g3, _, e3, rfl, by rw [← n3]; rfl⟩
  refine ⟨horder, ?_⟩
  obtain ⟨hs, i, pdgc, _, hsel, hpdg, _, hs'⟩ := GenerateNext_ok_inv M kPi s d b s' h
  have hbin := binFluxes_of_some s d.aEv d.aCos8 g0 g1 g2 g3 e0 e1 e2 e3
  obtain ⟨hi, hlt, hfirst⟩ := (SelectNeutrino_ok_iff s d.aEv d.aCos8 d.rSel _ _ _ _ hbin i).1 hsel
  have hcode : s'.fgPdgC = pdgc := by rw [hs']
  rw [hcode]
  rw [hl] at hpdg
  have hmem : pdgc ∈ [P.kPdgNuMu, P.kPdgAntiNuMu, P.kPdgNuE, P.kPdgAntiNuE] :=
    List.get?_mem hpdg
  interval_cases i
  · simp only [List.get?_cons_zero, Option.some.injEq] at hpdg
    exact ⟨0, g0, _, _, _, _, by norm_num, hsel, by rw [hl, ← hpdg]; rfl, hmem, e0,
      by rw [← n0, ← hpdg]; rfl, hbin, rfl, rfl, hlt, hfirst⟩
  · simp only [List.get?_cons_zero, List.get?_cons_succ, Option.some.injEq] at hpdg
    exact ⟨1, g1, _, _, _, _, by norm_num, hsel, by rw [hl, ← hpdg]; rfl, hmem, e1,
      by rw [← n1, ← hpdg]; rfl, hbin, rfl, rfl, hlt, hfirst⟩
  · simp only [List.get?_cons_zero, List.get?_cons_succ, Option.some.injEq] at hpdg
    exact ⟨2, g2, _, _, _, _, by norm_num, hsel, by rw [hl, ← hpdg]; rfl, hmem, e2,
      by rw [← n2, ← hpdg]; rfl, hbin, rfl, rfl, hlt, hfirst⟩
  · simp only [List.get?_cons_zero, List.get?_cons_succ, Option.some.injEq] at hpdg
    exact ⟨3, g3, _, _, _, _, by norm_num, hsel, by rw [hl, ← hpdg]; rfl, hmem, e3,
      by rw [← n3, ← hpdg]; rfl, hbin, rfl, rfl, hlt, hfirst⟩

/-- A driver loaded from the flux file `numu.dat` alone, of nine rows
`(3/2, -1/2, k)`, generates: the pair `(3/2, -1/2)` is sampled and the draw `1/2`
selects the first species. -/
theorem GenerateNext_after_load :
    ∃ s1 s',
      LoadFluxData (⟨[1, 2, 3], [-1, 0, 1]⟩ : GBrtTables ℝ)
          (fun name => if name = "numu.dat"
            then some (fun iline => ((3 / 2 : ℝ), (-1 / 2 : ℝ), (iline : ℝ))) else none)
          { Initialize (⟨[1, 2, 3], [-1, 0, 1]⟩ : GBrtTables ℝ) demoCodes (binDriver 0 0 0 0) with
            fFluxFile := demoNames } = .ok (true, s1) ∧
      GenerateNext ⟨Real.sqrt, Real.cos, Real.sin⟩ Real.pi (SetRadii s1 3 2)
        ⟨3 / 2, -1 / 2, 1 / 4, 1 / 2, 1 / 4, 1 / 2⟩ = .ok (true, s') ∧
      s'.fgPdgC = demoCodes.kPdgNuMu := by
  have hc : (fillRows (fun iline : Nat => ((3 / 2 : ℝ), (-1 / 2 : ℝ), (iline : ℝ))) 9
        (CreateFluxHisto2D (⟨[1, 2, 3], [-1, 0, 1]⟩ : GBrtTables ℝ) "numu"
          "GBartol 3D flux: numu")).GetBinContent
      ((fillRows (fun iline : Nat => ((3 / 2 : ℝ), (-1 / 2 : ℝ), (iline : ℝ))) 9
        (CreateFluxHisto2D (⟨[1, 2, 3], [-1, 0, 1]⟩ : GBrtTables ℝ) "numu"
          "GBartol 3D flux: numu")).FindBin (3 / 2) (-1 / 2)) = 30 := by
    simp [fillRows, List.range, List.range.loop, TH2D.Fill, TH2D.FindBin, TAxis.FindBin,
      TH2D.GetBinContent, TH2D.fNcells, TH2D.GetNbinsX, TH2D.GetNbinsY, CreateFluxHisto2D,
      Function.update]
    norm_num
  have hz : ∀ (name title : String) (bin : Nat),
      (ZeroFluxHisto2D (⟨[1, 2, 3], [-1, 0, 1]⟩ : GBrtTables ℝ)
        (CreateFluxHisto2D (⟨[1, 2, 3], [-1, 0, 1]⟩ : GBrtTables ℝ) name title)).GetBinContent bin
        = 0 := by
    intro name title bin
    rw [ZeroFluxHisto2D_eq]
    rfl
  refine ⟨_, _, rfl, GenerateNext_returns _ _ _ _ _ 0 14 rfl ?_ rfl, rfl⟩
  rw [SelectNeutrino_unrolled _ _ _ _ _ _ _ _
    (binFluxes_of_some _ _ _ _ _ _ _ (rfl : _ = some (fillRows
        (fun iline : Nat => ((3 / 2 : ℝ), (-1 / 2 : ℝ), (iline : ℝ))) 9
        (CreateFluxHisto2D (⟨[1, 2, 3], [-1, 0, 1]⟩ : GBrtTables ℝ) "numu"
          "GBartol 3D flux: numu")))
      (rfl : _ = some (ZeroFluxHisto2D (⟨[1, 2, 3], [-1, 0, 1]⟩ : GBrtTables ℝ)
        (CreateFluxHisto2D (⟨[1, 2, 3], [-1, 0, 1]⟩ : GBrtTables ℝ) "numubar"
          "GBartol 3D flux: numubar")))
      (rfl : _ = some (ZeroFluxHisto2D (⟨[1, 2, 3], [-1, 0, 1]⟩ : GBrtTables ℝ)
        (CreateFluxHisto2D (⟨[1, 2, 3], [-1, 0, 1]⟩ : GBrtTables ℝ) "nue"
          "GBartol 3D flux: nue")))
      (rfl : _ = some (ZeroFluxHisto2D (⟨[1, 2, 3], [-1, 0, 1]⟩ : GBrtTables ℝ)
        (CreateFluxHisto2D (⟨[1, 2, 3], [-1, 0, 1]⟩ : GBrtTables ℝ) "nuebar"
          "GBartol 3D flux: nuebar"))))]
  simp only [SetRadii]
  rw [hc, hz, hz, hz]
  norm_num

/-- C12, an instance: a driver initialised, loaded from the flux file `numu.dat`
alone and given its radii; the call of `GenerateNext` that samples `(3/2, -1/2)`
with the draw `1/2` stores the first code of the list, that of the species the
histogram `numu` is named after. -/
theorem C12_witness :
    ∃ s1 s',
      (SetRadii s1 (3 : ℝ) 2).fPdgCList
        = (Initialize (⟨[1, 2, 3], [-1, 0, 1]⟩ : GBrtTables ℝ) demoCodes
            (binDriver 0 0 0 0)).fPdgCList ∧
      LoadFluxData (⟨[1, 2, 3], [-1, 0, 1]⟩ : GBrtTables ℝ)
          (fun name => if name = "numu.dat"
            then some (fun iline => ((3 / 2 : ℝ), (-1 / 2 : ℝ), (iline : ℝ))) else none)
          { Initialize (⟨[1, 2, 3], [-1, 0, 1]⟩ : GBrtTables ℝ) demoCodes (binDriver 0 0 0 0) with
            fFluxFile := demoNames } = .ok (true, s1) ∧
      (SetRadii s1 (3 : ℝ) 2).fFlux2D = s1.fFlux2D ∧
      GenerateNext ⟨Real.sqrt, Real.cos, Real.sin⟩ Real.pi (SetRadii s1 3 2)
        ⟨3 / 2, -1 / 2, 1 / 4, 1 / 2, 1 / 4, 1 / 2⟩ = .ok (true, s') ∧
      s'.fgPdgC = demoCodes.kPdgNuMu ∧
      ∃ i hi, i < 4 ∧ (SetRadii s1 (3 : ℝ) 2).fFlux2D i = some hi ∧
        [("numu", demoCodes.kPdgNuMu), ("numubar", demoCodes.kPdgAntiNuMu),
          ("nue", demoCodes.kPdgNuE), ("nuebar", demoCodes.kPdgAntiNuE)].get? i
            = some (hi.fName, s'.fgPdgC) := by
  obtain ⟨s1, s', hload, hgen, hcode⟩ := GenerateNext_after_load
  have hlist : (SetRadii s1 (3 : ℝ) 2).fPdgCList
      = (Initialize (⟨[1, 2, 3], [-1, 0, 1]⟩ : GBrtTables ℝ) demoCodes
          (binDriver 0 0 0 0)).fPdgCList := (LoadFluxData_fName _ _ _ _ _ hload).1
  obtain ⟨_, i, hi, _, _, _, _, hi4, _, _, _, hflux, hpair, _⟩ :=
    C12_pdg_code_of_selected_species ⟨Real.sqrt, Real.cos, Real.sin⟩ Real.pi
      (⟨[1, 2, 3], [-1, 0, 1]⟩ : GBrtTables ℝ) demoCodes _ (binDriver 0 0 0 0) _ s1
      (SetRadii s1 3 2) ⟨3 / 2, -1 / 2, 1 / 4, 1 / 2, 1 / 4, 1 / 2⟩ true true s'
      hlist hload rfl hgen
  exact ⟨s1, s', hlist, hload, rfl, hgen, hcode, i, hi, hi4, hflux, hpair⟩

/-- C13: `GenerateNext` has no memory of the previous neutrino, in any arithmetic.
`ResetSelection` sets the stored code, 4-momentum and 4-position to zero, whatever
they were, and `GenerateNext` starts with it: a run gives the outcome of the run
from the reset driver, and a run from a driver that differs only in the stored
code, 4-momentum and 4-position gives the same outcome. The call returns, and
returns true, whenever the combined histogram exists, `SelectNeutrino` returns an
index and the code list has an entry there; whenever the call returns it
returns true, the time component of the position is 0, the energy component
is the sampled `Ev`, and the driver it leaves is the reset driver with the new
code, 4-momentum and 4-position. On two drivers with the same flux
histograms, code list and radii, the same draws leave the same code,
4-momentum and 4-position. -/
theorem C13_GenerateNext_memoryless {γ : Type} [Zero γ] [One γ] [Add γ] [Sub γ] [Mul γ]
    [Div γ] [Neg γ] [LT γ] [LE γ] [DecidableEq γ] [DecidableRel (fun a b : γ => a < b)]
    [DecidableRel (fun a b : γ => a ≤ b)] [OfNat γ 2]
    (M : TMath γ) (kPi : γ) (s : GBartolAtmoFlux γ) (d : Draws γ) :
    ((ResetSelection s).fgPdgC = 0 ∧ (ResetSelection s).fgP4 = ⟨⟨0, 0, 0⟩, 0⟩ ∧
      (ResetSelection s).fgX4 = ⟨⟨0, 0, 0⟩, 0⟩ ∧
      ∀ (c : Int) (p x : TLorentzVector γ),
        ResetSelection { s with fgPdgC := c, fgP4 := p, fgX4 := x } = ResetSelection s) ∧
    GenerateNext M kPi s d = GenerateNext M kPi (ResetSelection s) d ∧
    (∀ (c : Int) (p x : TLorentzVector γ),
      GenerateNext M kPi { s with fgPdgC := c, fgP4 := p, fgX4 := x } d = GenerateNext M kPi s d) ∧
    (∀ (hs : TH2D γ) (i : Nat) (pdgc : Int), s.fFluxSum2D = some hs →
      SelectNeutrino s d.aEv d.aCos8 d.rSel = .ok i → s.fPdgCList.get? i = some pdgc →
      ∃ s', GenerateNext M kPi s d = .ok (true, s') ∧ s'.fgPdgC = pdgc) ∧
    (∀ b s', GenerateNext M kPi s d = .ok (b, s') →
      b = true ∧ s'.fgX4.fE = 0 ∧ s'.fgP4.fE = d.aEv ∧
      s' = { ResetSelection s with fgPdgC := s'.fgPdgC, fgP4 := s'.fgP4, fgX4 := s'.fgX4 }) ∧
    (∀ (t : GBartolAtmoFlux γ) b s', t.fFlux2D = s.fFlux2D → t.fFluxSum2D = s.fFluxSum2D →
      t.fPdgCList = s.fPdgCList → t.fRl = s.fRl → t.fRt = s.fRt →
      GenerateNext M kPi s d = .ok (b, s') →
      ∃ t', GenerateNext M kPi t d = .ok (b, t') ∧
        t'.fgPdgC = s'.fgPdgC ∧ t'.fgP4 = s'.fgP4 ∧ t'.fgX4 = s'.fgX4) := by
  refine ⟨⟨rfl, rfl, rfl, fun c p x => rfl⟩, rfl, fun c p x => rfl, ?_, ?_, ?_⟩
  · intro hs i pdgc hsum hsel hpdg
    exact ⟨_, GenerateNext_returns M kPi s d hs i pdgc hsum hsel hpdg, rfl⟩
  · intro b s' h
    obtain ⟨_, _, _, _, _, _, hb, hs'⟩ := GenerateNext_ok_inv M kPi s d b s' h
    subst hs'
    exact ⟨hb, rfl, rfl, rfl⟩
  · intro t b s' hflux hsum hlist hRl hRt h
    obtain ⟨hs, i, pdgc, hsum', hsel, hpdg, hb, hs'⟩ := GenerateNext_ok_inv M kPi s d b s' h
    have hselt : SelectNeutrino t d.aEv d.aCos8 d.rSel = .ok i := by
      rw [← hsel]
      simp only [SelectNeutrino, binFluxes, binFluxesFrom, hflux]
    have hret := GenerateNext_returns M kPi t d hs i pdgc (by rw [hsum, hsum']) hselt
      (by rw [hlist]; exact hpdg)
    refine ⟨_, by rw [hb]; exact hret, ?_, ?_, ?_⟩
    · rw [hs']
    · rw [hs']
    · rw [hs']
      simp only [surfacePoint, displacement, hRl, hRt]

/-- C13, an instance: a driver that holds a previously generated neutrino. -/
theorem C13_witness :
    (ResetSelection { readyDriver (3 : ℝ) 2 with
        fgPdgC := 12, fgP4 := ⟨⟨1, 2, 3⟩, 4⟩, fgX4 := ⟨⟨5, 6, 7⟩, 8⟩ }).fgPdgC = 0 ∧
    (ResetSelection { readyDriver (3 : ℝ) 2 with
        fgPdgC := 12, fgP4 := ⟨⟨1, 2, 3⟩, 4⟩, fgX4 := ⟨⟨5, 6, 7⟩, 8⟩ }).fgP4 = ⟨⟨0, 0, 0⟩, 0⟩ ∧
    (ResetSelection { readyDriver (3 : ℝ) 2 with
        fgPdgC := 12, fgP4 := ⟨⟨1, 2, 3⟩, 4⟩, fgX4 := ⟨⟨5, 6, 7⟩, 8⟩ }).fgX4 = ⟨⟨0, 0, 0⟩, 0⟩ ∧
    ∃ s', GenerateNext ⟨Real.sqrt, Real.cos, Real.sin⟩ Real.pi
        { readyDriver (3 : ℝ) 2 with fgPdgC := 12, fgP4 := ⟨⟨1, 2, 3⟩, 4⟩, fgX4 := ⟨⟨5, 6, 7⟩, 8⟩ }
        ⟨2, 1 / 2, 1 / 4, 0, 1 / 4, 1 / 2⟩ = .ok (true, s') ∧
      s'.fgPdgC = 14 ∧ s'.fgX4.fE = 0 ∧ s'.fgP4.fE = 2 := by
  have hret := GenerateNext_returns ⟨Real.sqrt, Real.cos, Real.sin⟩ Real.pi (readyDriver (3 : ℝ) 2)
    ⟨2, 1 / 2, 1 / 4, 0, 1 / 4, 1 / 2⟩ _ 0 14 rfl (SelectNeutrino_readyDriver _ _ _ _) rfl
  have hmem := C13_GenerateNext_memoryless ⟨Real.sqrt, Real.cos, Real.sin⟩ Real.pi
    (readyDriver (3 : ℝ) 2) ⟨2, 1 / 2, 1 / 4, 0, 1 / 4, 1 / 2⟩
  have hold := C13_GenerateNext_memoryless ⟨Real.sqrt, Real.cos, Real.sin⟩ Real.pi
    { readyDriver (3 : ℝ) 2 with fgPdgC := 12, fgP4 := ⟨⟨1, 2, 3⟩, 4⟩, fgX4 := ⟨⟨5, 6, 7⟩, 8⟩ }
    ⟨2, 1 / 2, 1 / 4, 0, 1 / 4, 1 / 2⟩
  refine ⟨hold.1.1, hold.1.2.1, hold.1.2.2.1, _,
    (hmem.2.2.1 12 ⟨⟨1, 2, 3⟩, 4⟩ ⟨⟨5, 6, 7⟩, 8⟩).trans hret, rfl, ?_, ?_⟩
  · exact (hmem.2.2.2.2.1 _ _ hret).2.1
  · exact (hmem.2.2.2.2.1 _ _ hret).2.2.1

/-- A species with no flux in the sampled bin is never generated in exact
arithmetic. With the four species histograms present, a positive sum of their
contents in the bin of `(Ev, costheta)` and a draw `u` in `[0,1)`, `SelectNeutrino`
returns an index whose species has a strictly positive content in that bin; in
particular it never returns the index of a species whose histogram is zero in
every bin, as that of a skipped flux component is. -/
theorem selected_species_has_flux_exact (s : GBartolAtmoFlux α) (Ev costheta u : α)
    (H : Nat → TH2D α) (hH : ∀ i, i < 4 → s.fFlux2D i = some (H i))
    (hS : 0 < (H 0).GetBinContent ((H 0).FindBin Ev costheta)
      + (H 1).GetBinContent ((H 1).FindBin Ev costheta)
      + (H 2).GetBinContent ((H 2).FindBin Ev costheta)
      + (H 3).GetBinContent ((H 3).FindBin Ev costheta))
    (hu0 : 0 ≤ u) (hu1 : u < 1) :
    ∃ i, i < 4 ∧ SelectNeutrino s Ev costheta u = .ok i ∧
      0 < (H i).GetBinContent ((H i).FindBin Ev costheta) ∧
      ∀ k, k < 4 → (∀ bin, (H k).GetBinContent bin = 0) →
        SelectNeutrino s Ev costheta u ≠ .ok k := by
  have hbin := binFluxes_of_some s Ev costheta (H 0) (H 1) (H 2) (H 3)
    (hH 0 (by norm_num)) (hH 1 (by norm_num)) (hH 2 (by norm_num)) (hH 3 (by norm_num))
  obtain ⟨i, hsel⟩ := SelectNeutrino_returns s Ev costheta u _ _ _ _ hbin hS hu1
  obtain ⟨f0, f1, f2, f3, hbin', hi, _, _, _, hpos⟩ := SelectNeutrino_ok_inv s Ev costheta u i hsel
  rw [hbin] at hbin'
  simp only [Option.some.injEq, List.cons.injEq, and_true] at hbin'
  obtain ⟨e0, e1, e2, e3⟩ := hbin'
  have hR : 0 ≤ (f0 + f1 + f2 + f3) * u := by
    rw [← e0, ← e1, ← e2, ← e3]
    exact mul_nonneg hS.le hu0
  have hposi : 0 < (H i).GetBinContent ((H i).FindBin Ev costheta) := by
    have := hpos hR
    rw [← e0, ← e1, ← e2, ← e3] at this
    interval_cases i <;> simpa using this
  refine ⟨i, hi, hsel, hposi, ?_⟩
  intro k _ hzero hk
  rw [hsel] at hk
  simp only [Except.ok.injEq] at hk
  subst hk
  rw [hzero] at hposi
  exact lt_irrefl _ hposi

/-- C16 (as amended): a species with no flux in the sampled bin is never
generated. In any arithmetic, that of `double` included, an index `i` that
`SelectNeutrino` returns is below 4 and is one at which the content `g_i` of species
`i` in the sampled bin lifts the running sum above `R = flux_sum*u`: `R` is below
`c_(i-1) + g_i` and not below `c_(i-1)`. In the arithmetic of the code, with the four
species histograms present, a positive sum `flux_sum` of their contents in the
bin of `(Ev, costheta)` and a draw `u` in `[0,1)`, an index that `SelectNeutrino`
returns is that of a species with a strictly positive content in that bin, it
is never the index of a species whose histogram is zero in every bin, as that
of a skipped flux component is, and an index is returned when `flux_sum` is
finite and above `DBL_MIN = 2^-1022` and `u` is a binary64 number. Over the reals (in
exact arithmetic) an index is returned for every positive sum and every draw
in `[0,1)`, with a strictly positive content in that bin, and never that of a
species whose histogram is zero in every bin. -/
theorem C16_selected_species_has_flux {γ : Type} [Zero γ] [Add γ] [Mul γ] [LT γ] [LE γ]
    [DecidableRel (fun a b : γ => a < b)] [DecidableRel (fun a b : γ => a ≤ b)]
    (t : GBartolAtmoFlux γ) (Et ct v g0 g1 g2 g3 : γ)
    (hbint : binFluxes t Et ct = some [g0, g1, g2, g3])
    (z : GBartolAtmoFlux cxx.Double) (Ez cz w : cxx.Double)
    (D : Nat → TH2D cxx.Double) (hD : ∀ i, i < 4 → z.fFlux2D i = some (D i))
    (hSz : 0 < fluxSum [(D 0).GetBinContent ((D 0).FindBin Ez cz),
      (D 1).GetBinContent ((D 1).FindBin Ez cz), (D 2).GetBinContent ((D 2).FindBin Ez cz),
      (D 3).GetBinContent ((D 3).FindBin Ez cz)])
    (hw0 : 0 ≤ w) (hw1 : w < 1)
    (s : GBartolAtmoFlux α) (Ev costheta u : α)
    (H : Nat → TH2D α) (hH : ∀ i, i < 4 → s.fFlux2D i = some (H i))
    (hS : 0 < (H 0).GetBinContent ((H 0).FindBin Ev costheta)
      + (H 1).GetBinContent ((H 1).FindBin Ev costheta)
      + (H 2).GetBinContent ((H 2).FindBin Ev costheta)
      + (H 3).GetBinContent ((H 3).FindBin Ev costheta))
    (hu0 : 0 ≤ u) (hu1 : u < 1) :
    (∀ i, SelectNeutrino t Et ct v = .ok i →
      i < 4 ∧
      fluxSum [g0, g1, g2, g3] * v
        < fluxSum ([g0, g1, g2, g3].take i) + [g0, g1, g2, g3].getD i 0 ∧
      (0 < i → ¬ (fluxSum [g0, g1, g2, g3] * v < fluxSum ([g0, g1, g2, g3].take i)))) ∧
    ((∀ i, SelectNeutrino z Ez cz w = .ok i →
        i < 4 ∧ 0 < (D i).GetBinContent ((D i).FindBin Ez cz)) ∧
      (∀ k, k < 4 → (∀ bin, (D k).GetBinContent bin = 0) →
        SelectNeutrino z Ez cz w ≠ .ok k) ∧
      (double_min < fluxSum [(D 0).GetBinContent ((D 0).FindBin Ez cz),
          (D 1).GetBinContent ((D 1).FindBin Ez cz), (D 2).GetBinContent ((D 2).FindBin Ez cz),
          (D 3).GetBinContent ((D 3).FindBin Ez cz)] →
        fluxSum [(D 0).GetBinContent ((D 0).FindBin Ez cz),
          (D 1).GetBinContent ((D 1).FindBin Ez cz), (D 2).GetBinContent ((D 2).FindBin Ez cz),
          (D 3).GetBinContent ((D 3).FindBin Ez cz)] < cxx.Double.inf false →
        w.isBinary64 = true →
        ∃ i, i < 4 ∧ SelectNeutrino z Ez cz w = .ok i ∧
          0 < (D i).GetBinContent ((D i).FindBin Ez cz))) ∧
    ∃ i, i < 4 ∧ SelectNeutrino s Ev costheta u = .ok i ∧
      0 < (H i).GetBinContent ((H i).FindBin Ev costheta) ∧
      ∀ k, k < 4 → (∀ bin, (H k).GetBinContent bin = 0) →
        SelectNeutrino s Ev costheta u ≠ .ok k := by
  have hbinz := binFluxes_of_some z Ez cz (D 0) (D 1) (D 2) (D 3)
    (hD 0 (by norm_num)) (hD 1 (by norm_num)) (hD 2 (by norm_num)) (hD 3 (by norm_num))
  have hpos : ∀ i, SelectNeutrino z Ez cz w = .ok i →
      i < 4 ∧ 0 < (D i).GetBinContent ((D i).FindBin Ez cz) := by
    intro i hsel
    obtain ⟨hi, hc⟩ :=
      SelectNeutrino_positive_content_double z Ez cz w _ _ _ _ hbinz hSz hw0 i hsel
    refine ⟨hi, ?_⟩
    interval_cases i <;> exact hc
  refine ⟨fun i hsel => ?_, ⟨hpos, ?_, ?_⟩,
    selected_species_has_flux_exact s Ev costheta u H hH hS hu0 hu1⟩
  · obtain ⟨hi, hlt, hfirst⟩ := (SelectNeutrino_ok_iff t Et ct v g0 g1 g2 g3 hbint i).1 hsel
    refine ⟨hi, ?_, fun hpos => ?_⟩
    · interval_cases i <;> exact hlt
    · have := hfirst (i - 1) (by omega)
      have e : i - 1 + 1 = i := by omega
      rw [e] at this
      exact this
  · intro k _ hzero hsel
    have := (hpos k hsel).2
    rw [hzero] at this
    exact absurd this (by decide)
  · intro hmin hfin hw
    obtain ⟨_, i, hi, hsel⟩ :=
      SelectNeutrino_returns_double z Ez cz w _ _ _ _ hbinz hmin hfin hw hw0 hw1
    exact ⟨i, hi, hsel, (hpos i hsel).2⟩

set_option maxRecDepth 100000 in
/-- C16, the claim as stated fails in the arithmetic of the code: with the bin
contents `(1e308, 0, 1e308, 0)`, of positive sum, and the draw `0.75`, the third
running sum overflows to infinity, `R` is infinite too, and `SelectNeutrino`
reaches its assertion: no index is returned, so none with a positive
content. -/
theorem C16_counterexample :
    double_1e308.isBinary64 = true ∧ double_0_75.isBinary64 = true ∧
    (0 : ℚ) < double_1e308.toRat + 0 + double_1e308.toRat + 0 ∧
    (0 : ℚ) ≤ double_0_75.toRat ∧ double_0_75.toRat < 1 ∧
    (0 : cxx.Double) < fluxSum [double_1e308, 0, double_1e308, 0] ∧
    (0 : cxx.Double) ≤ double_0_75 ∧ double_0_75 < 1 ∧
    binFluxes (binDriver double_1e308 0 double_1e308 0) 1 1
      = some [double_1e308, 0, double_1e308, 0] ∧
    SelectNeutrino (binDriver double_1e308 0 double_1e308 0) 1 1 double_0_75
      = .error Abort.assertNoSpecies ∧
    ¬ ∃ i, SelectNeutrino (binDriver double_1e308 0 double_1e308 0) 1 1 double_0_75 = .ok i := by
  have hsel : SelectNeutrino (binDriver double_1e308 0 double_1e308 0) 1 1 double_0_75
      = .error Abort.assertNoSpecies := rfl
  refine ⟨rfl, rfl, ?_, ?_, ?_, by decide, by decide, by decide,
    binFluxes_binDriver _ _ _ _ _ _, hsel, ?_⟩
  · norm_num [cxx.Double.toRat, cxx.Double.signed, double_1e308]
  · norm_num [cxx.Double.toRat, cxx.Double.signed, double_0_75]
  · norm_num [cxx.Double.toRat, cxx.Double.signed, double_0_75]
  · rintro ⟨i, hi⟩
    rw [hsel] at hi
    cases hi

/-- C16, instances: in the arithmetic of the code, the contents
`(0.1, 0.2, 0.3, 0)` and the draw `0.5`, where the index 2 is returned, a species with
a positive content, and not the index 3 of the species with no flux; in exact
arithmetic, a driver whose second and fourth species have no flux, where the
draw `1/2` selects the third. -/
theorem C16_witness :
    (binFluxes (binDriver double_0_1 double_0_2 double_0_3 0) 1 1
        = some [double_0_1, double_0_2, double_0_3, 0] ∧
      (0 : cxx.Double) < fluxSum [double_0_1, double_0_2, double_0_3, 0] ∧
      (0 : cxx.Double) ≤ double_0_5 ∧ double_0_5 < 1 ∧
      double_min < fluxSum [double_0_1, double_0_2, double_0_3, 0] ∧
      fluxSum [double_0_1, double_0_2, double_0_3, 0] < cxx.Double.inf false ∧
      double_0_5.isBinary64 = true ∧
      ∀ i, i < 4 → (binDriver (1 : ℚ) 0 2 0).fFlux2D i
        = some ⟨if i = 0 then "numu" else if i = 1 then "numubar"
            else if i = 2 then "nue" else "nuebar", "", [0, 1], [0, 1],
            fun _ => if i = 0 then 1 else if i = 1 then 0 else if i = 2 then 2 else 0⟩) ∧
    (SelectNeutrino (binDriver double_0_1 double_0_2 double_0_3 0) 1 1 double_0_5 = .ok 2 ∧
      fluxSum [double_0_1, double_0_2, double_0_3, 0] * double_0_5
        < fluxSum ([double_0_1, double_0_2, double_0_3, 0].take 2)
          + [double_0_1, double_0_2, double_0_3, 0].getD 2 0 ∧
      (0 : cxx.Double) < double_0_3 ∧
      SelectNeutrino (binDriver double_0_1 double_0_2 double_0_3 0) 1 1 double_0_5 ≠ .ok 3 ∧
      ∃ i, i < 4 ∧
        SelectNeutrino (binDriver double_0_1 double_0_2 double_0_3 0) 1 1 double_0_5 = .ok i) ∧
    ∃ i, i < 4 ∧ SelectNeutrino (binDriver (1 : ℚ) 0 2 0) 1 1 (1 / 2) = .ok i ∧
      SelectNeutrino (binDriver (1 : ℚ) 0 2 0) 1 1 (1 / 2) ≠ .ok 1 ∧
      SelectNeutrino (binDriver (1 : ℚ) 0 2 0) 1 1 (1 / 2) ≠ .ok 3 := by
  have hd : SelectNeutrino (binDriver double_0_1 double_0_2 double_0_3 0) 1 1 double_0_5
      = .ok 2 := rfl
  obtain ⟨hany, ⟨hpos, hzero, hret⟩, i, hi, hsel, _, hnever⟩ :=
    C16_selected_species_has_flux (binDriver double_0_1 double_0_2 double_0_3 0) 1 1
      double_0_5 double_0_1 double_0_2 double_0_3 0 (binFluxes_binDriver _ _ _ _ _ _)
      (binDriver double_0_1 double_0_2 double_0_3 0) 1 1 double_0_5
      (fun i => ⟨if i = 0 then "numu" else if i = 1 then "numubar"
            else if i = 2 then "nue" else "nuebar", "", [0, 1], [0, 1],
        fun _ => if i = 0 then double_0_1 else if i = 1 then double_0_2
          else if i = 2 then double_0_3 else 0⟩)
      (fun i _ => rfl) (by decide) (by decide) (by decide)
      (binDriver (1 : ℚ) 0 2 0) 1 1 (1 / 2)
      (fun i => ⟨if i = 0 then "numu" else if i = 1 then "numubar"
            else if i = 2 then "nue" else "nuebar", "", [0, 1], [0, 1],
        fun _ => if i = 0 then 1 else if i = 1 then 0 else if i = 2 then 2 else 0⟩)
      (fun i _ => rfl) (by norm_num [TH2D.GetBinContent]) (by norm_num) (by norm_num)
  obtain ⟨j, hj, hselj, _⟩ := hret (by decide) (by decide) rfl
  exact ⟨⟨binFluxes_binDriver _ _ _ _ _ _, by decide, by decide, by decide, by decide,
      by decide, rfl, fun i _ => rfl⟩,
    ⟨hd, (hany 2 hd).2.1, (hpos 2 hd).2, hzero 3 (by norm_num) (fun bin => rfl),
      j, hj, hselj⟩,
    i, hi, hsel, hnever 1 (by norm_num) (fun bin => by simp [TH2D.GetBinContent]),
    hnever 3 (by norm_num) (fun bin => by simp [TH2D.GetBinContent])⟩

/-! ## Zeroing and filling a flux histogram -/

/-- A `Fill` keeps the axes, so it keeps the bin of every point. -/
theorem TH2D.Fill_FindBin (g : TH2D α) (x y w a b : α) :
    (g.Fill x y w).FindBin a b = g.FindBin a b := rfl

/-- Cell contents after a sequence of fills of weight `flux/energy`: each cell
gains the weights of the rows that fall in it. -/
theorem TH2D.foldl_Fill_content (rows : List (α × α × α)) :
    ∀ (g : TH2D α) (bin : Nat),
      (rows.foldl (fun g r => g.Fill r.1 r.2.1 (r.2.2 / r.1)) g).fArray bin
        = g.fArray bin
          + ((rows.filter (fun r => decide (g.FindBin r.1 r.2.1 = bin))).map
              (fun r => r.2.2 / r.1)).sum := by
  induction rows with
  | nil => intro g bin; simp
  | cons r rows ih =>
    intro g bin
    rw [List.foldl_cons, ih]
    simp only [TH2D.Fill_FindBin]
    by_cases hb : g.FindBin r.1 r.2.1 = bin
    · simp only [List.filter_cons, hb, decide_True, if_true, List.map_cons, List.sum_cons]
      simp only [TH2D.Fill, ← hb, Function.update_same]
      ring
    · have hb' : bin ≠ g.FindBin r.1 r.2.1 := fun e => hb e.symm
      simp only [List.filter_cons, hb, decide_False, Bool.false_eq_true, if_false]
      simp only [TH2D.Fill, Function.update_noteq hb']

/-- A sequence of fills keeps the axes, hence the number of cells. -/
theorem TH2D.foldl_Fill_fNcells (rows : List (α × α × α)) :
    ∀ (g : TH2D α), (rows.foldl (fun g r => g.Fill r.1 r.2.1 (r.2.2 / r.1)) g).fNcells
      = g.fNcells := by
  induction rows with
  | nil => intro g; rfl
  | cons r rows ih =>
    intro g
    rw [List.foldl_cons, ih]
    rfl

/-- C15: `FillFluxHisto2D` builds the weighted table from the file rows with the
logarithmic-unit compensation. For a non-empty file name that opens, with
`rows` the `N = kNGBrtCos*kNGBrtEv` rows `(energy, cos theta, flux)` read after the
comment line, all with `energy ≠ 0`, it returns true and leaves the histogram
made by exactly `N` fills, row `k` adding the weight `flux_k/energy_k` to the bin
containing `(energy_k, cos theta_k)`; so every cell gains the sum of `flux/energy`
over the rows that fall in it, and on an initially empty histogram the content
of each bin is that sum. -/
theorem C15_FillFluxHisto2D_weighted_table (T : GBrtTables α) (fs : FileSystem α)
    (s : GBartolAtmoFlux α) (h : TH2D α) (filename : String) (stream : FluxStream α)
    (rows : List (α × α × α))
    (hname : filename.length ≠ 0) (hopen : fs filename = some stream)
    (hrows : rows = (List.range (T.kNGBrtCos * T.kNGBrtEv)).map (fun k => stream (k + 1)))
    (_hE : ∀ r, r ∈ rows → r.1 ≠ 0) :
    ∃ h', FillFluxHisto2D T fs s (some h) filename = .ok (true, s, some h') ∧
      rows.length = T.kNGBrtCos * T.kNGBrtEv ∧
      h' = rows.foldl (fun g r => g.Fill r.1 r.2.1 (r.2.2 / r.1)) h ∧
      (∀ bin, h'.fArray bin = h.fArray bin
        + ((rows.filter (fun r => decide (h.FindBin r.1 r.2.1 = bin))).map
            (fun r => r.2.2 / r.1)).sum) ∧
      ((∀ bin, h.fArray bin = 0) → ∀ bin, bin < h.fNcells →
        h'.GetBinContent bin
          = ((rows.filter (fun r => decide (h.FindBin r.1 r.2.1 = bin))).map
              (fun r => r.2.2 / r.1)).sum) := by
  have hfold : fillRows stream (T.kNGBrtCos * T.kNGBrtEv) h
      = rows.foldl (fun g r => g.Fill r.1 r.2.1 (r.2.2 / r.1)) h := by
    rw [hrows, List.foldl_map]
    rfl
  refine ⟨_, FillFluxHisto2D_open T fs s h filename stream hname hopen, ?_, hfold, ?_, ?_⟩
  · rw [hrows]
    simp
  · intro bin
    rw [hfold]
    exact TH2D.foldl_Fill_content rows h bin
  · intro hzero bin hbin
    rw [hfold]
    have hmin : min bin ((rows.foldl (fun g r => g.Fill r.1 r.2.1 (r.2.2 / r.1)) h).fNcells - 1)
        = bin := by
      rw [TH2D.foldl_Fill_fNcells]
      omega
    rw [TH2D.GetBinContent, hmin, TH2D.foldl_Fill_content rows h bin, hzero, zero_add]

/-- C15, an instance: the file `numu.dat` of `demoFiles`, nine rows with energy
`3/2`, read into a new histogram over `demoTables`. -/
theorem C15_witness :
    ("numu.dat".length ≠ 0 ∧
      demoFiles "numu.dat"
        = some (fun iline : Nat => ((3 / 2 : ℚ), (-1 / 2 : ℚ), (iline : ℚ))) ∧
      demoRows = (List.range (demoTables.kNGBrtCos * demoTables.kNGBrtEv)).map
        (fun k => (fun iline : Nat => ((3 / 2 : ℚ), (-1 / 2 : ℚ), (iline : ℚ))) (k + 1)) ∧
      ∀ r, r ∈ demoRows → r.1 ≠ 0) ∧
    ∃ h', FillFluxHisto2D demoTables demoFiles (freshDriver demoNames)
        (some (CreateFluxHisto2D demoTables "numu" "GBartol 3D flux: numu")) "numu.dat"
          = .ok (true, freshDriver demoNames, some h') ∧
      demoRows.length = 9 ∧
      h' = demoRows.foldl (fun g r => g.Fill r.1 r.2.1 (r.2.2 / r.1))
        (CreateFluxHisto2D demoTables "numu" "GBartol 3D flux: numu") := by
  have hE : ∀ r, r ∈ demoRows → r.1 ≠ 0 := by
    intro r hr
    simp only [demoRows, List.mem_map] at hr
    obtain ⟨k, _, rfl⟩ := hr
    norm_num
  refine ⟨⟨by decide, by simp [demoFiles], rfl, hE⟩, ?_⟩
  obtain ⟨h', h1, h2, h3, _⟩ :=
    C15_FillFluxHisto2D_weighted_table demoTables demoFiles (freshDriver demoNames)
      (CreateFluxHisto2D demoTables "numu" "GBartol 3D flux: numu") "numu.dat"
      (fun iline : Nat => ((3 / 2 : ℚ), (-1 / 2 : ℚ), (iline : ℚ))) demoRows
      (by decide) (by simp [demoFiles]) rfl hE
  exact ⟨h', h1, h2, h3⟩

/-! ## The miss distance -/

/-- The cross product of the displaced position with the momentum, for a
displacement `(d1, d2, d3)` orthogonal to the surface point and of norm `Rt`:
its squared norm is `(Ev*Rt)^2`, and the squared norm of the momentum is
`Ev^2`. -/
theorem cross_position_momentum (Ev fRl s8 sphi cphi c d1 d2 d3 Rt : α)
    (hs : s8 * s8 = 1 - c * c) (ht : sphi ^ 2 + cphi ^ 2 = 1) (hRl : fRl ≠ 0)
    (hperp : d1 * (fRl * s8 * sphi) + d2 * (fRl * s8 * cphi) + d3 * (fRl * c) = 0)
    (hn : d1 * d1 + d2 * d2 + d3 * d3 = Rt * Rt) :
    (TVector3.Cross ⟨fRl * s8 * sphi + d1, fRl * s8 * cphi + d2, fRl * c + d3⟩
        ⟨-1 * Ev * s8 * sphi, -1 * Ev * s8 * cphi, -1 * Ev * c⟩).Mag2 = (Ev * Rt) * (Ev * Rt) ∧
    (TVector3.mk (-1 * Ev * s8 * sphi) (-1 * Ev * s8 * cphi) (-1 * Ev * c)).Mag2 = Ev * Ev := by
  have hq : d1 * (s8 * sphi) + d2 * (s8 * cphi) + d3 * c = 0 := by
    have h0 : fRl * (d1 * (s8 * sphi) + d2 * (s8 * cphi) + d3 * c) = 0 := by
      linear_combination hperp
    exact (mul_eq_zero.mp h0).resolve_left hRl
  have hu : (s8 * sphi) * (s8 * sphi) + (s8 * cphi) * (s8 * cphi) + c * c = 1 := by
    linear_combination (sphi ^ 2 + cphi ^ 2) * hs + (1 - c * c) * ht
  constructor
  · simp only [TVector3.Cross, TVector3.Mag2]
    linear_combination
      (Ev * Ev * (d1 * d1 + d2 * d2 + d3 * d3)) * hu + (Ev * Ev) * hn
        - (Ev * Ev * (d1 * (s8 * sphi) + d2 * (s8 * cphi) + d3 * c)) * hq
  · simp only [TVector3.Mag2]
    linear_combination (Ev * Ev) * hu

/-- A vector of squared norm 0 is the zero vector. -/
theorem TVector3.eq_zero_of_Mag2 (v : TVector3 α) (h : v.Mag2 = 0) : v = ⟨0, 0, 0⟩ := by
  obtain ⟨a, b, c⟩ := v
  simp only [TVector3.Mag2] at h
  have ha : a = 0 := by
    have : a * a ≤ 0 := by nlinarith [mul_self_nonneg b, mul_self_nonneg c]
    exact mul_self_eq_zero.mp (le_antisymm this (mul_self_nonneg a))
  have hb : b = 0 := by
    have : b * b ≤ 0 := by nlinarith [mul_self_nonneg a, mul_self_nonneg c]
    exact mul_self_eq_zero.mp (le_antisymm this (mul_self_nonneg b))
  have hc : c = 0 := by
    have : c * c ≤ 0 := by nlinarith [mul_self_nonneg a, mul_self_nonneg b]
    exact mul_self_eq_zero.mp (le_antisymm this (mul_self_nonneg c))
  rw [ha, hb, hc]

/-- C17: the transverse radius bounds the miss distance of the neutrino. Over the
reals, for `fRl > 0`, `Ev > 0`, `fRt ≥ 0`, `-1 ≤ cos8 ≤ 1` and draws in `[0,1)`, when
`GenerateNext` selects a species it returns true, and the straight line through
the stored position along the stored momentum has distance `fRt*r` from the
origin, with `r` the draw for `Rt`; this is at most `fRt`, and it is 0 exactly when
the displacement is the zero vector. -/
theorem C17_miss_distance (kPi : ℝ) (s : GBartolAtmoFlux ℝ) (d : Draws ℝ)
    (hs : TH2D ℝ) (iflux : Nat) (pdgc : Int)
    (hsum : s.fFluxSum2D = some hs)
    (hsel : SelectNeutrino s d.aEv d.aCos8 d.rSel = .ok iflux)
    (hpdg : s.fPdgCList.get? iflux = some pdgc)
    (hRl : 0 < s.fRl) (hEv : 0 < d.aEv) (hRt : 0 ≤ s.fRt)
    (hc : -1 ≤ d.aCos8 ∧ d.aCos8 ≤ 1)
    (_hphi : 0 ≤ d.rPhi ∧ d.rPhi < 1) (_hpsi : 0 ≤ d.rPsi ∧ d.rPsi < 1)
    (hr : 0 ≤ d.rRt ∧ d.rRt < 1) :
    ∃ s', GenerateNext ⟨Real.sqrt, Real.cos, Real.sin⟩ kPi s d = .ok (true, s') ∧
      missDistance ⟨Real.sqrt, Real.cos, Real.sin⟩ s'.fgX4.fP s'.fgP4.fP = s.fRt * d.rRt ∧
      missDistance ⟨Real.sqrt, Real.cos, Real.sin⟩ s'.fgX4.fP s'.fgP4.fP ≤ s.fRt ∧
      (missDistance ⟨Real.sqrt, Real.cos, Real.sin⟩ s'.fgX4.fP s'.fgP4.fP = 0 ↔
        displacement ⟨Real.sqrt, Real.cos, Real.sin⟩ kPi s d = ⟨0, 0, 0⟩) := by
  obtain ⟨hperp, hnorm⟩ := displacement_real_ne kPi s d hRl.ne' hc
  have h0 : 0 ≤ 1 - d.aCos8 * d.aCos8 := by nlinarith [hc.1, hc.2]
  have hsq := Real.mul_self_sqrt h0
  have ht := Real.sin_sq_add_cos_sq (2 * kPi * d.rPhi)
  have hRtr : 0 ≤ s.fRt * d.rRt := mul_nonneg hRt hr.1
  have hcross := cross_position_momentum d.aEv s.fRl (Real.sqrt (1 - d.aCos8 * d.aCos8))
    (Real.sin (2 * kPi * d.rPhi)) (Real.cos (2 * kPi * d.rPhi)) d.aCos8
    (displacement ⟨Real.sqrt, Real.cos, Real.sin⟩ kPi s d).fX
    (displacement ⟨Real.sqrt, Real.cos, Real.sin⟩ kPi s d).fY
    (displacement ⟨Real.sqrt, Real.cos, Real.sin⟩ kPi s d).fZ
    (s.fRt * d.rRt) hsq ht hRl.ne' hperp hnorm
  have hdist : missDistance ⟨Real.sqrt, Real.cos, Real.sin⟩
      ⟨(surfacePoint ⟨Real.sqrt, Real.cos, Real.sin⟩ kPi s d).fX
          + (displacement ⟨Real.sqrt, Real.cos, Real.sin⟩ kPi s d).fX,
        (surfacePoint ⟨Real.sqrt, Real.cos, Real.sin⟩ kPi s d).fY
          + (displacement ⟨Real.sqrt, Real.cos, Real.sin⟩ kPi s d).fY,
        (surfacePoint ⟨Real.sqrt, Real.cos, Real.sin⟩ kPi s d).fZ
          + (displacement ⟨Real.sqrt, Real.cos, Real.sin⟩ kPi s d).fZ⟩
      (momentum ⟨Real.sqrt, Real.cos, Real.sin⟩ kPi d) = s.fRt * d.rRt := by
    have e1 : ∀ v p : TVector3 ℝ, missDistance ⟨Real.sqrt, Real.cos, Real.sin⟩ v p
        = Real.sqrt (v.Cross p).Mag2 / Real.sqrt p.Mag2 := fun _ _ => rfl
    rw [e1]
    have e2 : (TVector3.Cross
        ⟨(surfacePoint ⟨Real.sqrt, Real.cos, Real.sin⟩ kPi s d).fX
          + (displacement ⟨Real.sqrt, Real.cos, Real.sin⟩ kPi s d).fX,
        (surfacePoint ⟨Real.sqrt, Real.cos, Real.sin⟩ kPi s d).fY
          + (displacement ⟨Real.sqrt, Real.cos, Real.sin⟩ kPi s d).fY,
        (surfacePoint ⟨Real.sqrt, Real.cos, Real.sin⟩ kPi s d).fZ
          + (displacement ⟨Real.sqrt, Real.cos, Real.sin⟩ kPi s d).fZ⟩
        (momentum ⟨Real.sqrt, Real.cos, Real.sin⟩ kPi d)).Mag2
        = (d.aEv * (s.fRt * d.rRt)) * (d.aEv * (s.fRt * d.rRt)) := hcross.1
    have e3 : (momentum ⟨Real.sqrt, Real.cos, Real.sin⟩ kPi d).Mag2 = d.aEv * d.aEv := hcross.2
    rw [e2, e3, Real.sqrt_mul_self (mul_nonneg hEv.le hRtr), Real.sqrt_mul_self hEv.le]
    field_simp
  refine ⟨_, GenerateNext_returns _ kPi s d hs iflux pdgc hsum hsel hpdg, hdist, ?_, ?_⟩
  · show missDistance _ _ _ ≤ _
    rw [hdist]
    nlinarith [hr.1, hr.2]
  · show missDistance _ _ _ = 0 ↔ _
    rw [hdist]
    constructor
    · intro hz
      rw [hz, mul_zero] at hnorm
      exact TVector3.eq_zero_of_Mag2 _ hnorm
    · intro hz
      have hm : (displacement ⟨Real.sqrt, Real.cos, Real.sin⟩ kPi s d).Mag2 = 0 := by
        rw [hz]
        simp [TVector3.Mag2]
      rw [hm] at hnorm
      exact (mul_self_eq_zero.mp hnorm.symm)

/-- C17, an instance: radii `fRl = 3`, `fRt = 2`, `Ev = 2` and the draw `1/2` for `Rt`:
the miss distance is 1. -/
theorem C17_witness :
    ((readyDriver (3 : ℝ) 2).fFluxSum2D ≠ none ∧
      SelectNeutrino (readyDriver (3 : ℝ) 2) 2 (1 / 2) 0 = .ok 0 ∧
      (readyDriver (3 : ℝ) 2).fPdgCList.get? 0 = some 14 ∧
      (0 : ℝ) < 3 ∧ (0 : ℝ) < 2 ∧ (0 : ℝ) ≤ 2 ∧ (-1 : ℝ) ≤ 1 / 2 ∧ (1 / 2 : ℝ) ≤ 1 ∧
      (0 : ℝ) ≤ 1 / 4 ∧ (1 / 4 : ℝ) < 1 ∧ (0 : ℝ) ≤ 1 / 2 ∧ (1 / 2 : ℝ) < 1) ∧
    ∃ s', GenerateNext ⟨Real.sqrt, Real.cos, Real.sin⟩ Real.pi (readyDriver (3 : ℝ) 2)
        ⟨2, 1 / 2, 1 / 4, 0, 1 / 4, 1 / 2⟩ = .ok (true, s') ∧
      missDistance ⟨Real.sqrt, Real.cos, Real.sin⟩ s'.fgX4.fP s'.fgP4.fP = 2 * (1 / 2) := by
  refine ⟨⟨by simp [readyDriver, SetRadii, AddAllFluxes], SelectNeutrino_readyDriver _ _ _ _, rfl,
    by norm_num, by norm_num, by norm_num, by norm_num, by norm_num, by norm_num, by norm_num,
    by norm_num, by norm_num⟩, ?_⟩
  obtain ⟨s', h1, h2, _⟩ :=
    C17_miss_distance Real.pi (readyDriver (3 : ℝ) 2)
      ⟨2, 1 / 2, 1 / 4, 0, 1 / 4, 1 / 2⟩ _ 0 14 rfl (SelectNeutrino_readyDriver _ _ _ _) rfl
      (by simp [readyDriver, SetRadii]) (by norm_num) (by simp [readyDriver, SetRadii])
      ⟨by norm_num, by norm_num⟩ ⟨by norm_num, by norm_num⟩ ⟨by norm_num, by norm_num⟩
      ⟨by norm_num, by norm_num⟩
  exact ⟨s', h1, h2⟩

/-! ## The skipped-component counter across loads -/

/-- A returning `FillFluxHisto2D` never lowers `fNSkipped`. -/
theorem GBartolAtmoFlux.FillFluxHisto2D_fNSkipped_le (T : GBrtTables α) (fs : FileSystem α)
    (s s' : GBartolAtmoFlux α) (histo h' : Option (TH2D α)) (filename : String) (l : Bool)
    (h : FillFluxHisto2D T fs s histo filename = .ok (l, s', h')) :
    s.fNSkipped ≤ s'.fNSkipped := by
  rcases histo with _ | h0
  · simp only [FillFluxHisto2D, Except.ok.injEq, Prod.mk.injEq] at h
    rw [← h.2.1]
  · by_cases he : filename.length = 0
    · rw [FillFluxHisto2D_skip T fs s h0 filename he] at h
      split_ifs at h
      simp only [Except.ok.injEq, Prod.mk.injEq] at h
      rw [← h.2.1]
      simp
    · cases hf : fs filename with
      | none =>
        rw [FillFluxHisto2D_missing T fs s h0 filename he hf] at h
        simp only [Except.ok.injEq, Prod.mk.injEq] at h
        rw [← h.2.1]
      | some stream =>
        rw [FillFluxHisto2D_open T fs s h0 filename stream he hf] at h
        simp only [Except.ok.injEq, Prod.mk.injEq] at h
        rw [← h.2.1]

/-- The loop of `LoadFluxData` never lowers `fNSkipped`. -/
theorem GBartolAtmoFlux.loadLoop_fNSkipped_le (T : GBrtTables α) (fs : FileSystem α) :
    ∀ (n iflux : Nat) (st : Bool) (s : GBartolAtmoFlux α) (b : Bool) (s' : GBartolAtmoFlux α),
      loadLoop T fs n iflux st s = .ok (b, s') → s.fNSkipped ≤ s'.fNSkipped := by
  intro n
  induction n with
  | zero =>
    intro iflux st s b s' h
    simp only [loadLoop, Except.ok.injEq, Prod.mk.injEq] at h
    rw [← h.2]
  | succ n ih =>
    intro iflux st s b s' h
    rw [loadLoop] at h
    cases hr : FillFluxHisto2D T fs s (s.fFlux2D iflux) (s.fFluxFile iflux) with
    | error e0 => rw [hr] at h; simp at h
    | ok r =>
      obtain ⟨l, s1, h1⟩ := r
      rw [hr] at h
      have hstep := FillFluxHisto2D_fNSkipped_le T fs s s1 _ h1 _ l hr
      have hrest := ih _ _ _ b s' h
      exact le_trans hstep hrest

/-- Loading on a driver whose counter is below 4 and whose non-empty file names
all open: the assertion `fNSkipped<4` trips when the counter plus the number of
empty names reaches 4; otherwise the call returns true with the counter raised
by the number of empty names and the file names unchanged. -/
theorem GBartolAtmoFlux.LoadFluxData_skipping_from (T : GBrtTables α) (fs : FileSystem α)
    (s : GBartolAtmoFlux α) (hlt : s.fNSkipped < 4)
    (hopen : ∀ i, i < 4 → (s.fFluxFile i).length ≠ 0 →
      ∃ stream, fs (s.fFluxFile i) = some stream) :
    (4 ≤ s.fNSkipped + numSkipped s → LoadFluxData T fs s = .error Abort.assertSkipped) ∧
    (s.fNSkipped + numSkipped s < 4 →
      ∃ s', LoadFluxData T fs s = .ok (true, s') ∧
        s'.fNSkipped = s.fNSkipped + numSkipped s ∧ s'.fFluxFile = s.fFluxFile) := by
  have hloop := loadLoop_skips T fs 4 0 true
    (createFluxHistos T s)
    (by
      intro j _ hj
      obtain ⟨name, title, hc⟩ := createFluxHistos_new T s j (by omega)
      exact ⟨_, hc⟩)
    (by
      intro j _ hj
      exact hopen j (by omega))
    hlt
  simp only [createFluxHistos_fNSkipped, createFluxHistos_fFluxFile, ← numSkipped_eq s] at hloop
  obtain ⟨herr, hok⟩ := hloop
  constructor
  · intro hge
    have := herr hge
    unfold LoadFluxData
    simp only [kNNu, this]
  · intro hl
    obtain ⟨s1, hs1, hskip, _⟩ := hok hl
    have hfile := (loadLoop_ok T fs 4 0 true _ true s1 hs1).1
    refine ⟨AddAllFluxes T s1, ?_, ?_, ?_⟩
    · unfold LoadFluxData
      simp only [kNNu, hs1, if_true]
    · simpa [AddAllFluxes] using hskip
    · simpa [AddAllFluxes] using hfile

/-- C18: the skipped-component counter accumulates across loads. `Initialize` sets
`fNSkipped` to 0 and a returning `LoadFluxData` never lowers it; so on a driver
with `fNSkipped = 0`, two empty file names and two names that open, `LoadFluxData`
returns true with `fNSkipped = 2` and the file names unchanged, and a second
`LoadFluxData` on the resulting driver trips the assertion `fNSkipped<4`, although
two flux files are set. -/
theorem C18_skipped_counter_accumulates (T : GBrtTables α) (P : PDGCodes)
    (fs : FileSystem α) (s : GBartolAtmoFlux α) (hinit : s.fNSkipped = 0)
    (hopen : ∀ i, i < 4 → (s.fFluxFile i).length ≠ 0 →
      ∃ stream, fs (s.fFluxFile i) = some stream)
    (htwo : numSkipped s = 2) :
    (Initialize T P s).fNSkipped = 0 ∧
    (∀ t b t', LoadFluxData T fs t = .ok (b, t') → t.fNSkipped ≤ t'.fNSkipped) ∧
    ∃ s1, LoadFluxData T fs s = .ok (true, s1) ∧ s1.fNSkipped = 2 ∧
      s1.fFluxFile = s.fFluxFile ∧
      LoadFluxData T fs s1 = .error Abort.assertSkipped := by
  refine ⟨rfl, ?_, ?_⟩
  · intro t b t' h
    obtain ⟨t1, ht1, ht'⟩ := LoadFluxData_ok T fs t b t' h
    have hle := loadLoop_fNSkipped_le T fs kNNu 0 true _ b t1 ht1
    rw [ht']
    split_ifs
    · simpa [AddAllFluxes] using hle
    · simpa using hle
  · obtain ⟨s1, hs1, hskip, hfile⟩ :=
      (LoadFluxData_skipping_from T fs s (by rw [hinit]; norm_num) hopen).2
        (by rw [hinit, htwo]; norm_num)
    have hskip2 : s1.fNSkipped = 2 := by rw [hskip, hinit, htwo]; norm_num
    have hnum : numSkipped s1 = 2 := by
      rw [← htwo]
      simp only [numSkipped, hfile]
    refine ⟨s1, hs1, hskip2, hfile, ?_⟩
    exact (LoadFluxData_skipping_from T fs s1 (by rw [hskip2]; norm_num)
      (by rw [hfile]; exact hopen)).1 (by rw [hskip2, hnum]; norm_num)

theorem twoNames_open : ∀ i, i < 4 → ((freshDriver twoNames).fFluxFile i).length ≠ 0 →
    ∃ stream, demoFiles ((freshDriver twoNames).fFluxFile i) = some stream := by
  intro i hi h
  interval_cases i
  · exact ⟨fun iline => (3 / 2, -1 / 2, iline), by simp [freshDriver, twoNames, demoFiles]⟩
  · exact ⟨fun iline => (3 / 2, -1 / 2, iline), by simp [freshDriver, twoNames, demoFiles]⟩
  all_goals simp [freshDriver, twoNames] at h

/-- C18, an instance: two files set and two components skipped; the first load
returns true, the second trips the assertion. -/
theorem C18_witness :
    ((freshDriver twoNames).fNSkipped = 0 ∧ numSkipped (freshDriver twoNames) = 2) ∧
    ∃ s1, LoadFluxData demoTables demoFiles (freshDriver twoNames) = .ok (true, s1) ∧
      s1.fNSkipped = 2 ∧
      LoadFluxData demoTables demoFiles s1 = .error Abort.assertSkipped := by
  refine ⟨⟨rfl, rfl⟩, ?_⟩
  obtain ⟨_, _, s1, h1, h2, _, h4⟩ :=
    C18_skipped_counter_accumulates demoTables demoCodes demoFiles (freshDriver twoNames) rfl
      twoNames_open rfl
  exact ⟨s1, h1, h2, h4⟩

end flux
end genie

namespace gvld

variable {α : Type} [LinearOrderedField α]

/-! ## The validation program -/

/-- Function `Model` returns null for every argument. -/
theorem Model_eq_none {β : Type} (g : Globals β) (iset : Int) (imodel : Nat) :
    Model g iset imodel = none := by
  unfold Model
  split
  · rfl
  · split_ifs <;> rfl

/-- The vector `models` of `Draw` holds one null pointer per model. -/
theorem models_eq_replicate {β : Type} (g : Globals β) (iset : Int) (n : Nat) :
    (List.range n).map (fun imodel => Model g iset imodel) = List.replicate n none := by
  apply List.ext_get
  · simp
  · intro k h1 h2
    simp [Model_eq_none]

/-- Without models `Draw` returns at once and leaves the globals as they are. -/
theorem Draw_no_models (g : Globals α) (iset : Int) (h : g.gOptGenieInputs.NModels = 0) :
    Draw g iset = .ok g := by
  simp [Draw, h, Data]

/-- With one model or more, `Draw` stops on a null pointer: `gPS`, then `gC`, then
`models[0]`. -/
theorem Draw_with_models (g : Globals α) (iset : Int) (h : 0 < g.gOptGenieInputs.NModels) :
    (g.gPS = none → Draw g iset = .error Stop.nullPostScript) ∧
    (g.gPS ≠ none → g.gC = none → Draw g iset = .error Stop.nullCanvas) ∧
    (g.gPS ≠ none → g.gC ≠ none → Draw g iset = .error Stop.nullGraph) := by
  have hlen : ¬ g.gOptGenieInputs.NModels = 0 := by omega
  have hplot : 1 + Int.tmod iset (kNCx * kNCy) = 1 := by
    simp [kNCx, kNCy]
  obtain ⟨n, hn⟩ : ∃ n, g.gOptGenieInputs.NModels = n + 1 := ⟨_, (Nat.succ_pred_eq_of_pos h).symm⟩
  refine ⟨?_, ?_, ?_⟩
  · intro hps
    simp [Draw, hlen, hplot, derefPS, hps]
  · intro hps hc
    obtain ⟨ps, hps'⟩ := Option.ne_none_iff_exists'.mp hps
    simp [Draw, hlen, hplot, derefPS, derefC, hps', hc]
  · intro hps hc
    obtain ⟨ps, hps'⟩ := Option.ne_none_iff_exists'.mp hps
    obtain ⟨c, hc'⟩ := Option.ne_none_iff_exists'.mp hc
    simp [Draw, hlen, hplot, derefPS, derefC, derefPad, hps', hc', kNCx, kNCy, drawPlots, Data,
      models_eq_replicate, hn, List.replicate_succ]

/-- C19: `Draw` is safe only without models. `Data` and `Model` return a null graph
for every argument; so for every data set index `Draw(iset)` returns if and only
if the number of loaded models is zero, and it then returns at once, leaving
the globals (the canvas among them) untouched. With one model or more it stops
on a null pointer, and with `gPS` and `gC` instantiated, as `Init` leaves them, the
null pointer is `models[0]`, in the frame computation. -/
theorem C19_Draw_safe_only_without_models (g : Globals α) (iset : Int) :
    (∀ i, (Data i : Option (TGraph α)) = none) ∧
    (∀ i imodel, Model g i imodel = none) ∧
    ((∃ g', Draw g iset = .ok g') ↔ g.gOptGenieInputs.NModels = 0) ∧
    (g.gOptGenieInputs.NModels = 0 → Draw g iset = .ok g) ∧
    (0 < g.gOptGenieInputs.NModels →
      Draw g iset = .error Stop.nullPostScript ∨ Draw g iset = .error Stop.nullCanvas ∨
        Draw g iset = .error Stop.nullGraph) ∧
    (0 < g.gOptGenieInputs.NModels → g.gPS ≠ none → g.gC ≠ none →
      Draw g iset = .error Stop.nullGraph) := by
  have hstop : 0 < g.gOptGenieInputs.NModels →
      Draw g iset = .error Stop.nullPostScript ∨ Draw g iset = .error Stop.nullCanvas ∨
        Draw g iset = .error Stop.nullGraph := by
    intro h
    obtain ⟨h1, h2, h3⟩ := Draw_with_models g iset h
    by_cases hps : g.gPS = none
    · exact Or.inl (h1 hps)
    · by_cases hc : g.gC = none
      · exact Or.inr (Or.inl (h2 hps hc))
      · exact Or.inr (Or.inr (h3 hps hc))
  refine ⟨fun _ => rfl, fun i imodel => Model_eq_none g i imodel, ⟨?_, ?_⟩,
    Draw_no_models g iset, hstop, fun h => (Draw_with_models g iset h).2.2⟩
  · rintro ⟨g', hg'⟩
    by_contra hne
    rcases hstop (Nat.pos_of_ne_zero hne) with h | h | h <;> rw [h] at hg' <;> cases hg'
  · intro h
    exact ⟨g, Draw_no_models g iset h⟩

/-- C19, two instances: with no model `Draw(0)` returns; with two models loaded
and `gPS`, `gC` instantiated it stops on the null `models[0]`. -/
theorem C19_witness :
    Draw (startGlobals 0) 0 = .ok (startGlobals 0) ∧
    Draw { startGlobals 2 with gPS := some ⟨"out.ps", 111, 1, false⟩,
                               gC := some ⟨0, true, true, true, true⟩ } 0
      = .error Stop.nullGraph :=
  ⟨(C19_Draw_safe_only_without_models (startGlobals 0) 0).2.2.2.1 rfl,
    (C19_Draw_safe_only_without_models
      { startGlobals 2 with gPS := some ⟨"out.ps", 111, 1, false⟩,
                            gC := some ⟨0, true, true, true, true⟩ } 0).2.2.2.2.2
      (by decide) (by simp) (by simp)⟩

/-- The loop of `AddCoverPage`: it reads `kLStyleTxt` at every index of its range, and
stops at index 5 when the range goes beyond the table. -/
theorem coverLines_spec (inputs : VldTestInputs) :
    ∀ (n imodel : Nat),
      (imodel + n ≤ kNMaxNumModels →
        ∃ lines, coverLines inputs n imodel = .ok lines ∧ lines.length = n ∧
          ∀ k, k < n → ∃ txt, kLStyleTxt.get? (imodel + k) = some txt ∧
            lines.get? k = some ("model tag: " ++ inputs.ModelTag (imodel + k) ++ " (" ++ txt
              ++ " line)")) ∧
      (imodel ≤ kNMaxNumModels → kNMaxNumModels < imodel + n →
        coverLines inputs n imodel = .error (Stop.lineStyleIndex kNMaxNumModels)) := by
  intro n
  induction n with
  | zero =>
    intro imodel
    refine ⟨fun _ => ⟨[], rfl, rfl, fun k hk => by omega⟩, fun h1 h2 => by omega⟩
  | succ n ih =>
    intro imodel
    constructor
    · intro hle
      have hlt : imodel < 5 := by simp only [kNMaxNumModels] at hle; omega
      obtain ⟨txt, htxt⟩ : ∃ txt, kLStyleTxt.get? imodel = some txt := by
        interval_cases imodel <;> exact ⟨_, rfl⟩
      obtain ⟨rest, hrest, hlen, hall⟩ := (ih (imodel + 1)).1 (by omega)
      refine ⟨_, by rw [coverLines, htxt, hrest], by simp [hlen], ?_⟩
      intro k hk
      cases k with
      | zero => exact ⟨txt, htxt, rfl⟩
      | succ k =>
        obtain ⟨t, ht1, ht2⟩ := hall k (by omega)
        have e : imodel + (k + 1) = imodel + 1 + k := by omega
        rw [e]
        exact ⟨t, ht1, by simpa using ht2⟩
    · intro h1 h2
      simp only [kNMaxNumModels] at h1 h2
      by_cases h5 : imodel = 5
      · subst h5
        rw [coverLines]
        rfl
      · have hlt : imodel < 5 := by omega
        obtain ⟨txt, htxt⟩ : ∃ txt, kLStyleTxt.get? imodel = some txt := by
          interval_cases imodel <;> exact ⟨_, rfl⟩
        have hrest := (ih (imodel + 1)).2 (by simp only [kNMaxNumModels]; omega)
          (by simp only [kNMaxNumModels]; omega)
        rw [coverLines, htxt, hrest]

/-- C20: the per-model line-style tables are indexed without a bound check. The
tables have length `kNMaxNumModels = 5`; with `gPS` and `gC` instantiated,
`AddCoverPage` reads `kLStyleTxt[imodel]` for every `imodel < NModels()`, so it stays
within the table, and returns, if and only if the number of loaded models is
at most 5, and with more models it reads outside the table at index 5. `Draw`
reads `kLStyle[imodel]` only for a non-null model, and as every model graph is
null it never reads outside the table. -/
theorem C20_line_style_tables_bounds (g : Globals α) (ps : TPostScript) (c : TCanvas)
    (hps : g.gPS = some ps) (hc : g.gC = some c) :
    kLStyle.length = kNMaxNumModels ∧ kLStyleTxt.length = kNMaxNumModels ∧
    ((∃ g', AddCoverPage g = .ok g') ↔ g.gOptGenieInputs.NModels ≤ kNMaxNumModels) ∧
    (kNMaxNumModels < g.gOptGenieInputs.NModels →
      AddCoverPage g = .error (Stop.lineStyleIndex kNMaxNumModels)) ∧
    (g.gOptGenieInputs.NModels ≤ kNMaxNumModels →
      ∃ lines, coverLines g.gOptGenieInputs g.gOptGenieInputs.NModels 0 = .ok lines ∧
        ∀ imodel, imodel < g.gOptGenieInputs.NModels →
          ∃ txt, kLStyleTxt.get? imodel = some txt ∧
            lines.get? imodel = some ("model tag: " ++ g.gOptGenieInputs.ModelTag imodel
              ++ " (" ++ txt ++ " line)")) ∧
    (∀ iset k, Draw g iset ≠ .error (Stop.lineStyleIndex k)) := by
  have hspec := coverLines_spec g.gOptGenieInputs g.gOptGenieInputs.NModels 0
  simp only [Nat.zero_add] at hspec
  have hbeyond : kNMaxNumModels < g.gOptGenieInputs.NModels →
      AddCoverPage g = .error (Stop.lineStyleIndex kNMaxNumModels) := by
    intro h
    have := hspec.2 (Nat.zero_le _) h
    simp [AddCoverPage, derefPS, derefC, hps, hc, this]
  refine ⟨rfl, rfl, ⟨?_, ?_⟩, hbeyond, ?_, ?_⟩
  · rintro ⟨g', hg'⟩
    by_contra hgt
    rw [hbeyond (Nat.lt_of_not_le hgt)] at hg'
    cases hg'
  · intro hle
    obtain ⟨lines, hlines, _⟩ := hspec.1 hle
    simp only [AddCoverPage, derefPS, derefC, hps, hc, hlines]
    exact ⟨_, rfl⟩
  · intro hle
    obtain ⟨lines, hlines, _, hall⟩ := hspec.1 hle
    exact ⟨lines, hlines, hall⟩
  · intro iset k hk
    by_cases h0 : g.gOptGenieInputs.NModels = 0
    · rw [Draw_no_models g iset h0] at hk
      cases hk
    · obtain ⟨_, _, h3⟩ := Draw_with_models g iset (Nat.pos_of_ne_zero h0)
      rw [h3 (by simp [hps]) (by simp [hc])] at hk
      cases hk

/-- C20, two instances: with five models the cover page is made, with six the
table is read at index 5. -/
theorem C20_witness :
    (∃ g', AddCoverPage { startGlobals 5 with gPS := some ⟨"out.ps", 111, 0, false⟩,
                                              gC := some ⟨0, true, true, false, false⟩ }
      = .ok g') ∧
    AddCoverPage { startGlobals 6 with gPS := some ⟨"out.ps", 111, 0, false⟩,
                                       gC := some ⟨0, true, true, false, false⟩ }
      = .error (Stop.lineStyleIndex 5) :=
  ⟨(C20_line_style_tables_bounds
      { startGlobals 5 with gPS := some ⟨"out.ps", 111, 0, false⟩,
                            gC := some ⟨0, true, true, false, false⟩ } _ _ rfl rfl).2.2.1.2
      (by decide),
    (C20_line_style_tables_bounds
      { startGlobals 6 with gPS := some ⟨"out.ps", 111, 0, false⟩,
                            gC := some ⟨0, true, true, false, false⟩ } _ _ rfl rfl).2.2.2.1
      (by decide)⟩

/-- Without models `Init`, `Run` and `End` return one after the other. -/
theorem Init_Run_End_no_models (g : Globals α) (h : g.gOptGenieInputs.NModels = 0) :
    ∃ g1 g2 g3, Init g = .ok g1 ∧ Run g1 = .ok g2 ∧ End g2 = .ok g3 ∧
      g3.gOptGenieInputs.NModels = 0 ∧ g3.gPS ≠ none ∧ g3.fFreed = true := by
  have hinit : ∃ g1, Init g = .ok g1 ∧ g1.gOptGenieInputs.NModels = 0 ∧ g1.gPS ≠ none := by
    simp [Init, AddCoverPage, derefPS, derefC, h, coverLines]
  obtain ⟨g1, h1, hn1, hps1⟩ := hinit
  have hrun : Run g1 = .ok g1 := by
    simp [Run, runLoop, kNDataSets, Draw_no_models g1 0 hn1]
  obtain ⟨ps, hps⟩ := Option.ne_none_iff_exists'.mp hps1
  refine ⟨g1, g1, { g1 with gPS := some { ps with fClosed := true }, fFreed := true }, h1, hrun,
    ?_, hn1, by simp, rfl⟩
  simp [End, derefPS, hps]

/-- C11: the `-g` input file of the validation program is optional.
`GetCommandLineArgs` ends the program, with exit status 1, if and only if the
option `-g` has a value and the file it names cannot be loaded. When the
option is not found nothing is raised and the globals, the model set among
them, are left as they are; with the model set empty `main` then runs `Init`,
`Run` and `End` and returns 0. -/
theorem C11_optional_input_file (U : Utils) (g : Globals α) (argv : List String) :
    (GetCommandLineArgs U g argv = .error (Stop.exit 1) ↔
      ∃ inputs, U.CmdLineArgAsString argv 'g' = .ok inputs ∧
        (U.LoadFromFile g.gOptGenieInputs inputs).1 = false) ∧
    (∀ e, GetCommandLineArgs U g argv = .error e → e = Stop.exit 1) ∧
    (∀ ex, U.CmdLineArgAsString argv 'g' = .error ex →
      GetCommandLineArgs U g argv = .ok g ∧
      (g.gOptGenieInputs.NModels = 0 →
        ∃ g1 g2 g3, Init g = .ok g1 ∧ Run g1 = .ok g2 ∧ End g2 = .ok g3 ∧
          main U g argv = .ok (0, g3) ∧ g3.gOptGenieInputs.NModels = 0)) := by
  refine ⟨⟨?_, ?_⟩, ?_, ?_⟩
  · intro h
    cases hp : U.CmdLineArgAsString argv 'g' with
    | error ex =>
      simp only [GetCommandLineArgs, hp] at h
      split_ifs at h
    | ok inputs =>
      refine ⟨inputs, rfl, ?_⟩
      by_contra hl
      simp [GetCommandLineArgs, hp, hl] at h
  · rintro ⟨inputs, hp, hl⟩
    simp [GetCommandLineArgs, hp, hl]
  · intro e h
    cases hp : U.CmdLineArgAsString argv 'g' with
    | error ex =>
      simp only [GetCommandLineArgs, hp] at h
      split_ifs at h
    | ok inputs =>
      simp only [GetCommandLineArgs, hp] at h
      split_ifs at h
      simp only [Except.error.injEq] at h
      exact h.symm
  · intro ex hp
    have hargs : GetCommandLineArgs U g argv = .ok g := by
      simp [GetCommandLineArgs, hp]
    refine ⟨hargs, ?_⟩
    intro h0
    obtain ⟨g1, g2, g3, h1, h2, h3, hn, _, _⟩ := Init_Run_End_no_models g h0
    exact ⟨g1, g2, g3, h1, h2, h3, by simp [main, hargs, h1, h2, h3], hn⟩

/-- C11, three instances: without arguments `main` returns 0 with no model; with
`-g missing.xml` the program exits with status 1; with `-g inputs.xml` the file is
loaded and `GetCommandLineArgs` returns. -/
theorem C11_witness :
    (∃ g3, main demoUtils (startGlobals 0) [] = .ok (0, g3) ∧
      g3.gOptGenieInputs.NModels = 0) ∧
    GetCommandLineArgs demoUtils (startGlobals 0) ["-g", "missing.xml"]
      = .error (Stop.exit 1) ∧
    (∃ g1, GetCommandLineArgs demoUtils (startGlobals 0) ["-g", "inputs.xml"] = .ok g1) := by
  refine ⟨?_, ?_, ⟨_, rfl⟩⟩
  · obtain ⟨_, _, g3, _, _, _, hmain, hn⟩ :=
      ((C11_optional_input_file demoUtils (startGlobals 0) []).2.2 ⟨false⟩ rfl).2 rfl
    exact ⟨g3, hmain, hn⟩
  · exact (C11_optional_input_file demoUtils (startGlobals 0) ["-g", "missing.xml"]).1.2
      ⟨"missing.xml", rfl, by decide⟩

end gvld
